import Mathlib

/-!
# Document handler of the live editor (lveditor) and log configuration of the application

A shallow embedding of `DocumentHandler` (src/lib/lveditor/src/documenthandler.cpp),
of the marker and section types declared in src/lib/lveditor/src/projectdocument.h, and of the
log configuration that `LiveCVArguments::initialize` builds from the command line
(src/application/src/livecvarguments.cpp).

Conventions of the embedding.

* C++ `int` positions and lengths are `Int`; a text document is far below 2^31 characters, so
  no wrap-around is modelled.
* A pointer that the source dereferences and that may be null is an `Option` (or a `Bool` when
  only its presence matters); a function that dereferences a null pointer yields `none`.
* The handler talks to collaborators whose bodies are outside these sources: the project
  document (projectdocument.cpp), the code handler (analyzer), the palette container
  (converter registry), the Qt text document and the Qt signal receivers.  Every call to the
  project document, every emitted signal, every timer restart and every commit callback is
  appended, in call order, to `DocumentHandler.m_log`.  The analyzer, the registry and the
  serializers are read through `Context`.
* A handler function is embedded as its own statements: the handler after the call and the
  effects it logged. What the project document does while one of its functions runs is not
  among these sources. The text-changed handlers that `edit` installs on a section are C++
  closures which the project document invokes from inside `documentContentsChanged` and
  `documentContentsSilentChanged`; the closure is the function `edit.onTextChanged`, a
  section carries the tag of its closure, and its invocation on the open edit fragment is the
  separate transition `DocumentHandler.sectionTextChanged`. The closure that `openPalette`
  installs is `openPalette.onTextChanged`.
* A write of the handler to the text document (`setPlainText`, `insertText` on a cursor) makes
  Qt emit `contentsChange` signals, which `setTarget` connects to the slot
  `documentContentsChanged`. The signals of a write are an argument (`List ContentsChange`) of
  the function that writes; the slot runs for each of them, in the editing state the handler
  is in at that point.
* The log configuration is an object of objects (`MLObject`); an exception thrown by
  `initialize` is the `Except.error` of its message.
-/

namespace lv

/-! ## Qt text primitives used by the handler -/

/-- A `QString`, as the list of its characters. -/
abbrev QString := List Char

/-- The handler constant `DocumentHandler::ParagraphSeparator = QChar(8233)`. -/
def ParagraphSeparator : Char := Char.ofNat 8233

/-- The handler constant `DocumentHandler::NewLine = QChar(10)`. -/
def NewLine : Char := Char.ofNat 10

/-- The null character `QChar()`. -/
def nullChar : Char := Char.ofNat 0

/-- A `QVariant`, restricted to the kinds of value a converter reads from code. -/
inductive QVariant where
  | invalid
  | boolean (b : Bool)
  | integer (n : Int)
  | text (s : String)
  deriving DecidableEq, Repr

/-- A `QTextDocument`: the characters of the buffer, blocks separated by U+2029. -/
structure QTextDocument where
  text : QString
  deriving DecidableEq, Repr

/-- `QTextDocument::characterAt`: the character at `pos`, the paragraph separator that closes
the last block at `pos = text.length`, and `QChar()` outside the document. -/
def QTextDocument.characterAt (doc : QTextDocument) (pos : Int) : Char :=
  if pos < 0 ∨ pos > doc.text.length then nullChar
  else (doc.text ++ [ParagraphSeparator]).getD pos.toNat nullChar

/-- Start positions of the blocks of the document: 0 and the position after each separator. -/
def QTextDocument.blockPositions (doc : QTextDocument) : List Nat :=
  0 :: ((doc.text.enum.filter (fun p => p.2 = ParagraphSeparator)).map (fun p => p.1 + 1))

/-- The block found by `QTextDocument::findBlock(pos)` followed by the blocks after it
(the chain of `QTextBlock::next`); empty when `findBlock` returns an invalid block. -/
def QTextDocument.blocksFrom (doc : QTextDocument) (pos : Int) : List Nat :=
  if pos < 0 ∨ pos > doc.text.length then []
  else
    match ((doc.blockPositions.filter (fun b => b ≤ pos.toNat)).getLast?) with
    | none => []
    | some b => b :: doc.blockPositions.filter (fun b => pos.toNat < b)

/-- The position of the block `QTextDocument::findBlock(pos)`, `none` for an invalid block. -/
def QTextDocument.findBlock (doc : QTextDocument) (pos : Int) : Option Nat :=
  if pos < 0 ∨ pos > doc.text.length then none
  else (doc.blockPositions.filter (fun b => b ≤ pos.toNat)).getLast?

/-- The value of `findBlock(pos).firstLineNumber()`: the number of the block (a plain text
layout has one line per block), and -1 for an invalid block. -/
def QTextDocument.firstLineNumber (doc : QTextDocument) (pos : Int) : Int :=
  if pos < 0 ∨ pos > doc.text.length then -1
  else ((doc.blockPositions.filter (fun b => b ≤ pos.toNat)).length : Int) - 1

/-- A `QTextCursor` over a document: anchor and position. -/
structure QTextCursor where
  anchor : Nat
  position : Nat
  deriving DecidableEq, Repr

/-- The cursor `QTextCursor(doc)`: at the start of the document. -/
def QTextCursor.start : QTextCursor := { anchor := 0, position := 0 }

/-- `QTextCursor::setPosition(pos, mode)`: a position outside the document is refused and
leaves the cursor as it was; `keepAnchor` is `QTextCursor::KeepAnchor`. -/
def QTextCursor.setPosition (doc : QTextDocument) (c : QTextCursor) (pos : Int)
    (keepAnchor : Bool) : QTextCursor :=
  if pos < 0 ∨ pos > doc.text.length then c
  else if keepAnchor then { c with position := pos.toNat }
  else { anchor := pos.toNat, position := pos.toNat }

/-- `QTextCursor::movePosition(NextCharacter, KeepAnchor, n)`: forward by `n` characters,
stopping at the end of the document. -/
def QTextCursor.moveNextKeepAnchor (doc : QTextDocument) (c : QTextCursor) (n : Int) :
    QTextCursor :=
  { c with position := min (c.position + n.toNat) doc.text.length }

/-- `QTextCursor::selectedText`: the characters between anchor and position, as stored. -/
def QTextCursor.selectedText (doc : QTextDocument) (c : QTextCursor) : QString :=
  (doc.text.drop (min c.anchor c.position)).take
    (max c.anchor c.position - min c.anchor c.position)

/-- The character replacement of `toPlainText`: frame markers and paragraph and line
separators become a newline, a non-breaking space becomes a space. -/
def plainChar (c : Char) : Char :=
  if c.toNat = 0xfdd0 ∨ c.toNat = 0xfdd1 ∨ c.toNat = 0x2029 ∨ c.toNat = 0x2028 then NewLine
  else if c.toNat = 0xa0 then Char.ofNat 32
  else c

/-- The text of `cursor.selection().toPlainText()`. -/
def QTextCursor.selectionPlainText (doc : QTextDocument) (c : QTextCursor) : QString :=
  (c.selectedText doc).map plainChar

/-! ## Data model -/

/-- A code converter (`CodeConverter`, and its subclass `LivePalette`), identified by the
palette path that `LivePalette::path` returns. -/
structure CodeConverter where
  path : String
  deriving DecidableEq, Repr

/-- The closure installed on a section by `onTextChanged`, with the fragment it captured
(the address of the fragment). -/
inductive SectionHandler where
  | editFragment (ef : Nat)
  | paletteFragment (ef : Nat)
  deriving DecidableEq, Repr

/-- The section `ProjectDocumentSection` of projectdocument.h: the fields `m_document`
(whether it is set), `m_type`, `m_position`, `m_length`, `m_userData` (the address of the
owner, if any) and `m_textChangedHandler`. -/
structure ProjectDocumentSection where
  m_document : Bool
  m_type : Int
  m_position : Int
  m_length : Int
  m_userData : Option Nat
  m_textChangedHandler : Option SectionHandler
  deriving DecidableEq, Repr

/-- The private constructor `ProjectDocumentSection(document, type, position, length)`
(the C++ defaults are position -1 and length 0). -/
def ProjectDocumentSection.new (document : Bool) (type : Int) (position : Int)
    (length : Int) : ProjectDocumentSection :=
  { m_document := document, m_type := type, m_position := position, m_length := length,
    m_userData := none, m_textChangedHandler := none }

/-- The public `ProjectDocumentSection::create(type, position, length)`: no document. -/
def ProjectDocumentSection.create (type : Int) (position : Int) (length : Int) :
    ProjectDocumentSection :=
  ProjectDocumentSection.new false type position length

/-- `ProjectDocumentSection::isValid`. -/
def ProjectDocumentSection.isValid (s : ProjectDocumentSection) : Bool :=
  s.m_position != -1

/-- `ProjectDocumentSection::resize`. -/
def ProjectDocumentSection.resize (s : ProjectDocumentSection) (newLength : Int) :
    ProjectDocumentSection :=
  { s with m_length := newLength }

/-- `ProjectDocumentSection::setUserData`. -/
def ProjectDocumentSection.setUserData (s : ProjectDocumentSection) (data : Option Nat) :
    ProjectDocumentSection :=
  { s with m_userData := data }

/-- `ProjectDocumentSection::onTextChanged`: stores the handler. -/
def ProjectDocumentSection.onTextChanged (s : ProjectDocumentSection) (h : SectionHandler) :
    ProjectDocumentSection :=
  { s with m_textChangedHandler := some h }

/-- Modelled from the spec: `CodeDeclaration` (codedeclaration.h is not among the sources).
The fields are the ones the handler reads: position and length of the declaration, its type
and parent types (the analyzer contract of section 6), the position and length of its value
(section 3), and the section handle `m_section` the handler assigns. -/
structure CodeDeclaration where
  position : Int
  length : Int
  type : String
  parentType : List String
  valuePosition : Int
  valueLength : Int
  m_section : Option ProjectDocumentSection
  deriving DecidableEq, Repr

/-- `CodeDeclaration::setValueLength`. -/
def CodeDeclaration.setValueLength (d : CodeDeclaration) (n : Int) : CodeDeclaration :=
  { d with valueLength := n }

/-- Modelled from the spec: `DocumentEditFragment` (documenteditfragment.h is not among the
sources): its address `id`, its declaration and its converter, which may be null. -/
structure DocumentEditFragment where
  id : Nat
  declaration : CodeDeclaration
  converter : Option CodeConverter
  deriving DecidableEq, Repr

/-- `DocumentEditFragment::valuePosition`. -/
def DocumentEditFragment.valuePosition (ef : DocumentEditFragment) : Int :=
  ef.declaration.valuePosition

/-- `DocumentEditFragment::valueLength`. -/
def DocumentEditFragment.valueLength (ef : DocumentEditFragment) : Int :=
  ef.declaration.valueLength

/-- The marker `ProjectDocumentMarker` of projectdocument.h: the field `m_position`. -/
structure ProjectDocumentMarker where
  m_position : Int
  deriving DecidableEq, Repr

/-- `ProjectDocumentMarker::create`: the constructor default, position -1. -/
def ProjectDocumentMarker.create : ProjectDocumentMarker := { m_position := -1 }

/-- `ProjectDocumentMarker::position`. -/
def ProjectDocumentMarker.position (m : ProjectDocumentMarker) : Int := m.m_position

/-- `ProjectDocumentMarker::isValid`. -/
def ProjectDocumentMarker.isValid (m : ProjectDocumentMarker) : Bool := m.m_position != -1

/-- Modelled from the spec: `CodeRuntimeBinding` (coderuntimebinding.h is not among the
sources): the declaration it binds and the converter set by `setConverter` (section 3). -/
structure CodeRuntimeBinding where
  declaration : CodeDeclaration
  converter : Option CodeConverter
  deriving DecidableEq, Repr

/-- `CodeRuntimeBinding::position`: the position of the declaration. -/
def CodeRuntimeBinding.position (b : CodeRuntimeBinding) : Int := b.declaration.position

/-- What the handler does to the outside, in call order: signals it emits, the timer it
restarts, calls into the project document, the code handler and a fragment. -/
inductive Effect where
  | contentsChangedManually
  | editingStateChanged (editing : Bool)
  | cursorPositionRequest (position : Int)
  | paletteAboutToRemove (palette : Option CodeConverter)
  | timerStart
  | documentContentsChanged (position : Int) (charsRemoved : Int) (addedText : QString)
  | documentContentsSilentChanged (position : Int) (charsRemoved : Int) (addedText : QString)
  | createSection (type : Int) (position : Int) (length : Int)
  | removeSection (s : Option ProjectDocumentSection)
  | commit (ef : Nat) (value : QVariant)
  | rehighlightBlock (blockPosition : Nat)
  | rehighlightInvalidBlock
  | setValueFromCode (palette : CodeConverter) (value : QVariant)
  | connectBindings (positions : List Int)
  | fragmentLinesChanged (startLine : Int) (endLine : Int)
  | paletteInit (palette : CodeConverter) (value : QVariant)
  | connectValueChanged (palette : CodeConverter) (ef : Nat)
  | setRuntimeBinding (ef : Nat) (position : Int)
  deriving DecidableEq, Repr

/-- The members of `DocumentHandler` that the embedded functions read or write.
`m_targetDoc` also stands for `m_target->textDocument()`; `m_codeHandler` and
`m_projectDocument` record whether the pointer is set. `m_bindings` is the binding list
`ProjectDocument::m_bindings` of the project document that `m_projectDocument` points to.
`m_indentSize` and `m_indentContent` are set together by `setIndentSize` (documenthandler.h is
not among the sources; the constructor calls `setIndentSize(4)`). -/
structure DocumentHandler where
  m_targetDoc : Option QTextDocument
  m_codeHandler : Bool
  m_projectDocument : Bool
  m_editingState : Nat
  m_lastChar : Char
  m_palettes : List DocumentEditFragment
  m_editingFragment : Option DocumentEditFragment
  m_log : List Effect
  m_fragmentStart : ProjectDocumentMarker
  m_fragmentEnd : ProjectDocumentMarker
  m_fragmentStartLine : Int
  m_fragmentEndLine : Int
  m_bindings : List CodeRuntimeBinding
  m_indentSize : Int
  m_indentContent : QString
  deriving DecidableEq, Repr

/-- What the handler reads from declarations and collaborators outside these sources.
`Read`, `Silent`, `Palette` and `Runtime` are the values of the `EditingState` enumerators and
`Section` the value of `DocumentEditFragment::Section` (documenthandler.h and
documenteditfragment.h are not among the sources). `getDeclarations` is the analyzer,
`findPalette` the converter registry reached through `m_paletteContainer` and
`findPaletteForParents` its overload that `bind` calls with the list of parent types,
`createInjectionChannel` the code handler call that allocates a fragment (null when it has
none), `fromCode` and `toCode` are `serialize()->fromCode` and `serialize()->toCode`, and
`value` is `LivePalette::value`. `findPaletteForType` is the call `findPalette(type)` with one
argument that `cursorInfo` makes, and `isLivePalette` tells whether
`qobject_cast<LivePalette*>` of a converter is not null. -/
structure Context where
  Read : Nat
  Silent : Nat
  Section : Int
  getDeclarations : QTextDocument → QTextCursor → List CodeDeclaration
  findPalette : String → String → Option CodeConverter
  createInjectionChannel : CodeDeclaration → Nat → CodeConverter → Option DocumentEditFragment
  fromCode : CodeConverter → QString → DocumentEditFragment → QVariant
  Palette : Nat
  Runtime : Nat
  findPaletteForParents : String → List String → Option CodeConverter
  toCode : CodeConverter → QVariant → DocumentEditFragment → QString
  value : CodeConverter → QVariant
  findPaletteForType : String → Option CodeConverter
  isLivePalette : CodeConverter → Bool

/-- Modelled from the spec: `DocumentHandler::editingStateIs` (documenthandler.h is not among
the sources). Section 4.2 describes the state as a non-exclusive bitmask: a state is set when
all its bits are. -/
def DocumentHandler.editingStateIs (s : DocumentHandler) (flag : Nat) : Bool :=
  (flag &&& s.m_editingState) == flag

/-- Appends effects to the log. -/
def DocumentHandler.emit (s : DocumentHandler) (es : List Effect) : DocumentHandler :=
  { s with m_log := s.m_log ++ es }

/-! ## The handler functions -/

/-- `DocumentHandler::addEditingPalette`, the loop: `before` is the part of `m_palettes`
already passed by the iterator, the second list the part from the iterator on. The result is
`none` when a null converter is dereferenced, `some none` for `return false` and
`some (some l)` for the list after `m_palettes.insert(it, palette)`. As in the source,
`itPalette` is assigned `palette` (not `*it`). -/
def addEditingPalette.loop (palette : DocumentEditFragment) :
    List DocumentEditFragment → List DocumentEditFragment →
      Option (Option (List DocumentEditFragment))
  | before, [] => some (some (before ++ [palette]))
  | before, cur :: rest =>
    let itPalette := palette
    if itPalette.declaration.position < palette.declaration.position then
      some (some (before ++ palette :: cur :: rest))
    else if itPalette.declaration.position = palette.declaration.position then
      match itPalette.converter, palette.converter with
      | some itlp, some lp =>
        if itlp.path = lp.path then some none
        else some (some (before ++ palette :: cur :: rest))
      | _, _ => none
    else addEditingPalette.loop palette (before ++ [cur]) rest

/-- `DocumentHandler::addEditingPalette`: the returned flag and the handler afterwards. -/
def DocumentHandler.addEditingPalette (s : DocumentHandler) (palette : DocumentEditFragment) :
    Option (Bool × DocumentHandler) :=
  match addEditingPalette.loop palette [] s.m_palettes with
  | none => none
  | some none => some (false, s)
  | some (some l) => some (true, { s with m_palettes := l })

/-- `DocumentHandler::cancelEdit`. -/
def DocumentHandler.cancelEdit (s : DocumentHandler) : Option DocumentHandler :=
  match s.m_editingFragment with
  | some ef =>
    if s.m_projectDocument then
      some ({ s with m_editingFragment := none }.emit
        [Effect.removeSection ef.declaration.m_section, Effect.editingStateChanged false])
    else none
  | none => some s

/-- `DocumentHandler::commitEdit` (the debug log line is not modelled). -/
def DocumentHandler.commitEdit (ctx : Context) (s : DocumentHandler) : Option DocumentHandler :=
  match s.m_editingFragment with
  | some ef =>
    let position := ef.valuePosition
    let length := ef.valueLength
    let committed : Option DocumentHandler :=
      match ef.converter with
      | some converter =>
        match s.m_targetDoc with
        | some doc =>
          let tc := QTextCursor.start
          let tc := tc.setPosition doc position false
          let tc := tc.setPosition doc (position + length) true
          let commitText := tc.selectedText doc
          some (s.emit [Effect.commit ef.id (ctx.fromCode converter commitText ef)])
        | none => none
      | none => some (s.emit [Effect.contentsChangedManually, Effect.timerStart])
    match committed with
    | some s1 =>
      if s1.m_projectDocument then
        some ({ s1 with m_editingFragment := none }.emit
          [Effect.removeSection ef.declaration.m_section, Effect.editingStateChanged false])
      else none
    | none => none
  | none => some s

/-- The text added by a delta, as `documentContentsChanged` reads it from the document. -/
def addedTextOf (doc : QTextDocument) (position : Int) (charsAdded : Int) : QString :=
  if charsAdded = 1 then
    let c := doc.characterAt position
    let c := if c = ParagraphSeparator then NewLine else c
    [c]
  else if charsAdded > 0 then
    let cursor := QTextCursor.start
    let cursor := cursor.setPosition doc position false
    let cursor := cursor.moveNextKeepAnchor doc charsAdded
    cursor.selectionPlainText doc
  else []

/-- The end of the non-silent branch of `documentContentsChanged` (source lines 344-348):
forward to the project document if there is one, signal, restart the timer. -/
def DocumentHandler.contentsChangedTail (s : DocumentHandler) (position charsRemoved : Int)
    (addedText : QString) : DocumentHandler :=
  let s1 :=
    if s.m_projectDocument then
      s.emit [Effect.documentContentsChanged position charsRemoved addedText]
    else s
  s1.emit [Effect.contentsChangedManually, Effect.timerStart]

/-- `m_lastChar = c`. -/
def DocumentHandler.setLastChar (s : DocumentHandler) (c : Char) : DocumentHandler :=
  { s with m_lastChar := c }

/-- The non-silent branch of `documentContentsChanged` after `m_lastChar` is set (source
lines 331-348): the check of the open edit fragment, then the full path. -/
def DocumentHandler.manualContentsChanged (s : DocumentHandler) (position charsRemoved : Int)
    (addedText : QString) : Option DocumentHandler :=
  match s.m_editingFragment with
  | some ef =>
    if position < ef.valuePosition ∨ position > ef.valuePosition + ef.valueLength then
      match s.cancelEdit with
      | some s1 => some (s1.contentsChangedTail position charsRemoved addedText)
      | none => none
    else if s.m_projectDocument then
      some (s.emit [Effect.documentContentsSilentChanged position charsRemoved addedText])
    else some (s.contentsChangedTail position charsRemoved addedText)
  | none => some (s.contentsChangedTail position charsRemoved addedText)

/-- `DocumentHandler::documentContentsChanged`, the slot connected to the text document. -/
def DocumentHandler.documentContentsChanged (ctx : Context) (s : DocumentHandler)
    (position charsRemoved charsAdded : Int) : Option DocumentHandler :=
  match s.m_targetDoc with
  | none => some s
  | some doc =>
    if s.editingStateIs ctx.Read then some s
    else
      let s := s.setLastChar nullChar
      let addedText := addedTextOf doc position charsAdded
      if !s.editingStateIs ctx.Silent then
        let s := if charsAdded = 1 then s.setLastChar (doc.characterAt position) else s
        s.manualContentsChanged position charsRemoved addedText
      else if s.m_projectDocument then
        some (s.emit [Effect.documentContentsSilentChanged position charsRemoved addedText])
      else some s

/-- The loop of `rehighlightSection`: each block is rehighlighted, and the loop stops after
the first block that starts beyond `stop`. -/
def rehighlightSection.loop (stop : Int) : List Nat → List Effect
  | [] => []
  | bl :: rest =>
    Effect.rehighlightBlock bl ::
      (if (bl : Int) > stop then [] else rehighlightSection.loop stop rest)

/-- `DocumentHandler::rehighlightSection`. -/
def DocumentHandler.rehighlightSection (s : DocumentHandler) (position length : Int) :
    Option DocumentHandler :=
  if !s.m_codeHandler then some s
  else
    match s.m_targetDoc with
    | some doc =>
      some (s.emit (rehighlightSection.loop (position + length) (doc.blocksFrom position)))
    | none => none

/-- The closure `edit` installs with `onTextChanged` (source lines 550-556), given the
handler `this` and the fragment `ef` it captured: the fragment afterwards. -/
def edit.onTextChanged (ctx : Context) (this : DocumentHandler) (ef : DocumentEditFragment)
    (_isErase : Bool) (_position : Int) (charsRemoved : Int) (addedText : QString) :
    DocumentEditFragment :=
  if !this.editingStateIs ctx.Silent then
    let length := ef.declaration.valueLength
    { ef with
      declaration := ef.declaration.setValueLength (length - charsRemoved + addedText.length) }
  else ef

/-- The project document reports a delta to the section of the open edit fragment: the
closure of `edit` runs on the fragment. -/
def DocumentHandler.sectionTextChanged (ctx : Context) (s : DocumentHandler) (isErase : Bool)
    (position charsRemoved : Int) (addedText : QString) : DocumentHandler :=
  match s.m_editingFragment with
  | some ef =>
    let ef1 := edit.onTextChanged ctx s ef isErase position charsRemoved addedText
    { s with m_editingFragment := some ef1 }
  | none => s

/-- `DocumentHandler::edit`: the returned flag and the handler afterwards. `createSection`
returns the section the project document builds with the private constructor of
projectdocument.h. -/
def DocumentHandler.edit (ctx : Context) (s : DocumentHandler) (position : Int)
    (currentApp : Nat) : Option (Bool × DocumentHandler) :=
  if !s.m_projectDocument || !s.m_codeHandler then some (false, s)
  else
    match s.cancelEdit with
    | none => none
    | some s =>
      match s.m_targetDoc with
      | none => none
      | some doc =>
        let cursor := QTextCursor.start
        let cursor := cursor.setPosition doc position false
        let properties := ctx.getDeclarations doc cursor
        match properties with
        | [] => some (false, s)
        | declaration :: _ =>
          let converter := ctx.findPalette declaration.type (declaration.parentType.headD "")
          match converter with
          | some converter =>
            match ctx.createInjectionChannel declaration currentApp converter with
            | none => none
            | some ef =>
              let s := s.emit [Effect.createSection ctx.Section ef.declaration.position
                ef.declaration.length]
              let sec := ProjectDocumentSection.new true ctx.Section ef.declaration.position
                ef.declaration.length
              let sec := sec.setUserData (some ef.id)
              let sec := sec.onTextChanged (SectionHandler.editFragment ef.id)
              let ef := { ef with declaration := { ef.declaration with m_section := some sec } }
              let s := { s with m_editingFragment := some ef }
              match s.rehighlightSection ef.valuePosition ef.valueLength with
              | none => none
              | some s =>
                some (true, s.emit [Effect.cursorPositionRequest ef.valuePosition,
                  Effect.editingStateChanged true])
          | none => some (false, s)

/-! ## Editing states and writes to the text document -/

/-- Modelled from the spec: `DocumentHandler::addEditingState` (documenthandler.h is not among
the sources). Section 4.2: the state is a bitmask; adding a state sets its bits. -/
def DocumentHandler.addEditingState (s : DocumentHandler) (state : Nat) : DocumentHandler :=
  { s with m_editingState := s.m_editingState ||| state }

/-- Modelled from the spec: `DocumentHandler::removeEditingState` (documenthandler.h is not
among the sources). Section 4.2: the state is a bitmask; removing a state clears its bits. -/
def DocumentHandler.removeEditingState (s : DocumentHandler) (state : Nat) : DocumentHandler :=
  { s with m_editingState := s.m_editingState ^^^ (s.m_editingState &&& state) }

/-- One `contentsChange(position, charsRemoved, charsAdded)` signal of the text document,
with the text the document holds when it is emitted. -/
structure ContentsChange where
  text : QString
  position : Int
  charsRemoved : Int
  charsAdded : Int
  deriving DecidableEq, Repr

/-- The text document emits `contentsChange` signals while the handler writes to it;
`setTarget` connects them to the slot `documentContentsChanged`, which therefore runs, for
each signal in turn, inside the write. -/
def DocumentHandler.contentsChange (ctx : Context) :
    DocumentHandler → List ContentsChange → Option DocumentHandler
  | s, [] => some s
  | s, c :: rest =>
    match ({ s with m_targetDoc := some { text := c.text } }).documentContentsChanged ctx
        c.position c.charsRemoved c.charsAdded with
    | some s1 => DocumentHandler.contentsChange ctx s1 rest
    | none => none

/-- The characters a text document stores for a plain text: a newline starts a new block. -/
def blockText (plain : QString) : QString :=
  plain.map (fun c => if c = NewLine then ParagraphSeparator else c)

/-- The call `m_targetDoc->setPlainText(text)`; `signals` are the `contentsChange` signals the
document emits for it. -/
def DocumentHandler.setPlainText (ctx : Context) (s : DocumentHandler) (text : QString)
    (signals : List ContentsChange) : Option DocumentHandler :=
  match s.m_targetDoc with
  | some _ =>
    match s.contentsChange ctx signals with
    | some s1 => some { s1 with m_targetDoc := some { text := blockText text } }
    | none => none
  | none => none

/-- `DocumentHandler::readContent`; `content` is `m_projectDocument->content()`. -/
def DocumentHandler.readContent (ctx : Context) (s : DocumentHandler) (content : QString)
    (signals : List ContentsChange) : Option DocumentHandler :=
  if s.m_projectDocument then s.setPlainText ctx content signals else none

/-- The second part of `documentUpdatedContent` (source lines 423-440): the fragment lines.
The document is read only when both markers are valid and `m_targetDoc` is set. -/
def DocumentHandler.updateFragmentLines (s : DocumentHandler) : DocumentHandler :=
  if s.m_fragmentEndLine > 0 then
    match (if s.m_fragmentStart.isValid && s.m_fragmentEnd.isValid then s.m_targetDoc
      else none) with
    | some doc =>
      let startLine := doc.firstLineNumber s.m_fragmentStart.position
      let endLine := doc.firstLineNumber s.m_fragmentEnd.position
      if startLine ≠ s.m_fragmentStartLine ∨ endLine ≠ s.m_fragmentEndLine then
        { s with m_fragmentStartLine := startLine, m_fragmentEndLine := endLine }.emit
          [Effect.fragmentLinesChanged startLine endLine]
      else s
    | none =>
      if s.m_fragmentEndLine ≠ 0 then
        { s with m_fragmentEndLine := 0, m_fragmentStartLine := 0 }.emit
          [Effect.fragmentLinesChanged 0 0]
      else s
  else s

/-- `DocumentHandler::documentUpdatedContent`; `foreignAuthor` is `author != this` and
`content` is `m_projectDocument->content()`. -/
def DocumentHandler.documentUpdatedContent (ctx : Context) (s : DocumentHandler)
    (foreignAuthor : Bool) (content : QString) (signals : List ContentsChange) :
    Option DocumentHandler :=
  let repopulated : Option DocumentHandler :=
    if foreignAuthor then
      let s := s.addEditingState ctx.Read
      if s.m_projectDocument then
        match s.setPlainText ctx content signals with
        | some s1 => some (s1.removeEditingState ctx.Read)
        | none => none
      else none
    else some s
  match repopulated with
  | some s1 => some s1.updateFragmentLines
  | none => none

/-! ## Palette fragments -/

/-- `DocumentHandler::removeEditingPalette`, the loop: `before` is the part of `m_palettes`
already passed, the second list the part from the iterator on. Pointers are compared by
address. -/
def removeEditingPalette.loop (s : DocumentHandler) (palette : DocumentEditFragment) :
    List DocumentEditFragment → List DocumentEditFragment → Option DocumentHandler
  | _, [] => some s
  | before, itPalette :: rest =>
    if itPalette.id = palette.id then
      let pl := palette.converter
      if s.m_projectDocument then
        some ({ s with m_palettes := before ++ rest }.emit
          [Effect.paletteAboutToRemove pl, Effect.removeSection palette.declaration.m_section])
      else none
    else removeEditingPalette.loop s palette (before ++ [itPalette]) rest

/-- `DocumentHandler::removeEditingPalette`. -/
def DocumentHandler.removeEditingPalette (s : DocumentHandler)
    (palette : DocumentEditFragment) : Option DocumentHandler :=
  removeEditingPalette.loop s palette [] s.m_palettes

/-- The closure `openPalette` installs with `onTextChanged` (source lines 619-647), given the
handler `this` and the fragment `ef` it captured: the handler and the fragment afterwards. -/
def openPalette.onTextChanged (ctx : Context) (this : DocumentHandler)
    (ef : DocumentEditFragment) (_isErase : Bool) (_position : Int) (charsRemoved : Int)
    (addedText : QString) : Option (DocumentHandler × DocumentEditFragment) :=
  if this.editingStateIs ctx.Runtime then
    let length := ef.declaration.valueLength
    let ef : DocumentEditFragment :=
      { ef with
        declaration := ef.declaration.setValueLength (length - charsRemoved + addedText.length) }
    match this.m_targetDoc with
    | some doc =>
      let tc := QTextCursor.start
      let tc := tc.setPosition doc ef.valuePosition false
      let tc := tc.setPosition doc (ef.valuePosition + ef.valueLength) true
      match ef.converter with
      | some lp =>
        some (this.emit
          [Effect.setValueFromCode lp (ctx.fromCode lp (tc.selectedText doc) ef)], ef)
      | none => none
    | none => none
  else if !this.editingStateIs ctx.Silent then
    match this.removeEditingPalette ef with
    | some this1 => some (this1, ef)
    | none => none
  else
    let length := ef.declaration.valueLength
    let ef : DocumentEditFragment :=
      { ef with
        declaration := ef.declaration.setValueLength (length - charsRemoved + addedText.length) }
    if this.editingStateIs ctx.Palette then
      match ef.converter with
      | some lp => some (this.emit [Effect.commit ef.id (ctx.value lp)], ef)
      | none => some (this, ef)
    else some (this, ef)

/-- `DocumentHandler::paletteValueChanged`; `signals` are the `contentsChange` signals the
document emits for the edit block that replaces the value by the code. -/
def DocumentHandler.paletteValueChanged (ctx : Context) (s : DocumentHandler)
    (frg : DocumentEditFragment) (signals : List ContentsChange) : Option DocumentHandler :=
  match frg.converter with
  | some palette =>
    let code := ctx.toCode palette (ctx.value palette) frg
    if code ≠ [] then
      let s := s.addEditingState ctx.Palette
      match s.m_targetDoc with
      | some doc =>
        let tc := QTextCursor.start
        let tc := tc.setPosition doc frg.valuePosition false
        let tc := tc.setPosition doc (frg.valuePosition + frg.valueLength) true
        let first := min tc.anchor tc.position
        let last := max tc.anchor tc.position
        let text := doc.text.take first ++ blockText code ++ doc.text.drop last
        match s.contentsChange ctx signals with
        | some s1 =>
          some ({ s1 with m_targetDoc := some { text := text } }.removeEditingState ctx.Palette)
        | none => none
      | none => none
    else some s
  | none => none

/-! ## Bindings -/

/-- Modelled from the spec: `ProjectDocument::bindingAt` (projectdocument.cpp is not among the
sources): the binding at a source position, if any (section 4.3). -/
def bindingAt (bindings : List CodeRuntimeBinding) (position : Int) :
    Option CodeRuntimeBinding :=
  bindings.find? (fun b => decide (b.position = position))

/-- Modelled from the spec: `ProjectDocument::addNewBinding` (projectdocument.cpp is not among
the sources). Section 4.3: at most one binding per declaration position; a declaration that
is already bound is refused. The flag is the return value. -/
def addNewBinding (bindings : List CodeRuntimeBinding) (binding : CodeRuntimeBinding) :
    Bool × List CodeRuntimeBinding :=
  if (bindingAt bindings binding.position).isSome then (false, bindings)
  else (true, bindings ++ [binding])

/-- Modelled from the spec: `ProjectDocument::removeBindingAt` (projectdocument.cpp is not
among the sources). Section 4.3: the binding at the position is removed; the flag tells
whether there was one. -/
def removeBindingAt (bindings : List CodeRuntimeBinding) (position : Int) :
    Bool × List CodeRuntimeBinding :=
  if (bindingAt bindings position).isSome then
    (true, bindings.filter (fun b => decide (b.position ≠ position)))
  else (false, bindings)

/-- The cursor that `bind` and `unbind` pass to the analyzer. -/
def rangeCursor (doc : QTextDocument) (position length : Int) : QTextCursor :=
  let cursor := QTextCursor.start
  let cursor := cursor.setPosition doc position false
  if length ≠ 0 then cursor.setPosition doc (position + length) true else cursor

/-- The call `rehighlightBlock(m_targetDoc->findBlock(position))`. -/
def rehighlightBlockAt (doc : QTextDocument) (position : Int) : Effect :=
  match doc.findBlock position with
  | some b => Effect.rehighlightBlock b
  | none => Effect.rehighlightInvalidBlock

/-- The first loop of `bind` (source lines 477-491): the binding list of the project document
and the list `addedBindings` after the declarations have been visited. -/
def bind.loop (ctx : Context) :
    List CodeDeclaration → List CodeRuntimeBinding → List CodeRuntimeBinding →
      List CodeRuntimeBinding × List CodeRuntimeBinding
  | [], bindings, addedBindings => (bindings, addedBindings)
  | cde :: rest, bindings, addedBindings =>
    match ctx.findPaletteForParents cde.type cde.parentType with
    | some cvt =>
      let addedBinding : CodeRuntimeBinding := { declaration := cde, converter := some cvt }
      if (addNewBinding bindings addedBinding).1 then
        bind.loop ctx rest (addNewBinding bindings addedBinding).2
          (addedBindings ++ [addedBinding])
      else bind.loop ctx rest bindings addedBindings
    | none => bind.loop ctx rest bindings addedBindings

/-- `DocumentHandler::bind`; `object` tells whether the runtime object is given. The binding
gets its converter when it enters the list, as list and `addedBindings` share the object. -/
def DocumentHandler.bind (ctx : Context) (s : DocumentHandler) (position length : Int)
    (object : Bool) : Option DocumentHandler :=
  if !s.m_projectDocument || !s.m_codeHandler then some s
  else
    match s.m_targetDoc with
    | some doc =>
      let properties := ctx.getDeclarations doc (rangeCursor doc position length)
      let added := bind.loop ctx properties s.m_bindings []
      let s := { s with m_bindings := added.1 }
      let s :=
        if object then s.emit [Effect.connectBindings (added.2.map CodeRuntimeBinding.position)]
        else s
      some (s.emit (added.2.map (fun b => rehighlightBlockAt doc b.position)))
    | none => none

/-- The loop of `unbind` (source lines 516-519). -/
def unbind.loop (doc : QTextDocument) : List CodeDeclaration → DocumentHandler → DocumentHandler
  | [], s => s
  | cde :: rest, s =>
    if (removeBindingAt s.m_bindings cde.position).1 then
      unbind.loop doc rest
        ({ s with m_bindings := (removeBindingAt s.m_bindings cde.position).2 }.emit
          [rehighlightBlockAt doc cde.position])
    else unbind.loop doc rest s

/-- `DocumentHandler::unbind`. -/
def DocumentHandler.unbind (ctx : Context) (s : DocumentHandler) (position length : Int) :
    Option DocumentHandler :=
  if !s.m_projectDocument || !s.m_codeHandler then some s
  else
    match s.m_targetDoc with
    | some doc =>
      some (unbind.loop doc (ctx.getDeclarations doc (rangeCursor doc position length)) s)
    | none => none

/-- Modelled from the spec: which deltas a section takes in and reports to its handler
(`ProjectDocument::updateSections` is not among the sources). Section 4.1: the edit starts
inside the section and the removed span does not exceed the end of the section; an insertion
at the start boundary is before the section, an insertion at the end boundary is absorbed. -/
def ProjectDocumentSection.absorbs (sec : ProjectDocumentSection) (position charsRemoved : Int) :
    Bool :=
  if charsRemoved = 0 then
    decide (sec.m_position < position ∧ position ≤ sec.m_position + sec.m_length)
  else
    decide (sec.m_position ≤ position ∧ position < sec.m_position + sec.m_length ∧
      position + charsRemoved ≤ sec.m_position + sec.m_length)

/-! ## Opening a palette -/

/-- `DocumentHandler::openPalette` (source lines 590-664). The action type set on the fragment
is read by none of the embedded functions and is left out; the closure passed to
`onTextChanged` is `openPalette.onTextChanged`, the one connected to `valueChanged` calls
`paletteValueChanged`. The result of `addEditingPalette` is not read. -/
def DocumentHandler.openPalette (ctx : Context) (s : DocumentHandler) (palette : CodeConverter)
    (position : Int) (currentApp : Nat) : Option DocumentHandler :=
  if !s.m_projectDocument || !s.m_codeHandler then some s
  else
    match s.cancelEdit with
    | none => none
    | some s =>
      match s.m_targetDoc with
      | none => none
      | some doc =>
        let cursor := QTextCursor.start
        let cursor := cursor.setPosition doc position false
        let properties := ctx.getDeclarations doc cursor
        match properties with
        | [] => some s
        | declaration :: _ =>
          match ctx.createInjectionChannel declaration currentApp palette with
          | none => some s
          | some ef =>
            let codeCursor := QTextCursor.start
            let codeCursor := codeCursor.setPosition doc ef.valuePosition false
            let codeCursor :=
              codeCursor.setPosition doc (ef.valuePosition + ef.valueLength) true
            let s := s.emit [Effect.createSection ctx.Section ef.declaration.position
              ef.declaration.length]
            let sec := ProjectDocumentSection.new true ctx.Section ef.declaration.position
              ef.declaration.length
            let sec := sec.setUserData (some ef.id)
            let sec := sec.onTextChanged (SectionHandler.paletteFragment ef.id)
            let ef := { ef with declaration := { ef.declaration with m_section := some sec } }
            let s := s.emit
              [Effect.paletteInit palette (ctx.fromCode palette (codeCursor.selectedText doc) ef),
                Effect.connectValueChanged palette ef.id]
            let s :=
              match bindingAt s.m_bindings ef.declaration.position with
              | some _ => s.emit [Effect.setRuntimeBinding ef.id ef.declaration.position]
              | none => s
            match s.addEditingPalette ef with
            | none => none
            | some added =>
              let s := added.2.emit [Effect.cursorPositionRequest ef.valuePosition]
              s.rehighlightSection ef.valuePosition ef.valueLength

/-! ## Indentation and cursor information -/

/-- The blocks of a text document: the texts between the block separators. -/
def QTextDocument.blocks (doc : QTextDocument) : List QString :=
  List.splitOn ParagraphSeparator doc.text

/-- The text of a document with the given blocks. -/
def joinBlocks (blocks : List QString) : QString :=
  List.intercalate [ParagraphSeparator] blocks

/-- The number of the block `QTextDocument::findBlock(pos)`, `none` for an invalid block. -/
def QTextDocument.blockNumber (doc : QTextDocument) (pos : Int) : Option Nat :=
  if pos < 0 ∨ pos > doc.text.length then none
  else some ((doc.blockPositions.filter (fun b => b ≤ pos.toNat)).length - 1)

/-- The position `bl.position()` of the block that follows the blocks `before`; a block takes
its text and one separator. -/
def blockStart (before : List QString) : Int :=
  (before.map (fun b => (b.length : Int) + 1)).sum

/-- The loop of `manageIndent` (source lines 685-712) over the blocks of the document;
`fromPos` is the parameter `from`. The list `before` holds the blocks before `bl`, the second
list `bl` and the blocks that `bl.next()` reaches; the result is the blocks of the document
when the loop ends. `QTextBlock::length` counts the separator of the block. The indent content
is `m_indentSize` characters without a block separator, so the writes stay inside the block. -/
def manageIndent.loop (indentSize : Int) (indentContent : QString) (undo : Bool) :
    List QString → List QString → Int → Int → List QString
  | before, [], _, _ => before
  | before, text :: rest, fromPos, length =>
    let position := blockStart before
    if undo then
      if indentContent.isPrefixOf text then
        let text := text.drop indentSize.toNat
        let from1 := if fromPos ≥ indentSize then fromPos - indentSize else 0
        let length1 :=
          if fromPos ≥ indentSize then length
          else if length ≥ indentSize then length - indentSize else 0
        if position + ((text.length : Int) + 1) ≥ from1 + length1 then before ++ text :: rest
        else manageIndent.loop indentSize indentContent undo (before ++ [text]) rest from1 length1
      else
        if position + ((text.length : Int) + 1) ≥ fromPos + length then before ++ text :: rest
        else
          manageIndent.loop indentSize indentContent undo (before ++ [text]) rest fromPos length
    else
      let text := indentContent ++ text
      let csPosition := position + (indentContent.length : Int)
      let length1 := if csPosition > fromPos then length + indentSize else length
      let from1 := if csPosition > fromPos then fromPos else fromPos + indentSize
      if position + ((text.length : Int) + 1) ≥ from1 + length1 then before ++ text :: rest
      else manageIndent.loop indentSize indentContent undo (before ++ [text]) rest from1 length1

/-- `DocumentHandler::manageIndent`; `signals` are the `contentsChange` signals the document
emits for the writes of the loop. -/
def DocumentHandler.manageIndent (ctx : Context) (s : DocumentHandler) (fromPos length : Int)
    (undo : Bool) (signals : List ContentsChange) : Option DocumentHandler :=
  match s.m_targetDoc with
  | none => none
  | some doc =>
    let blocks :=
      match doc.blockNumber fromPos with
      | some n =>
        manageIndent.loop s.m_indentSize s.m_indentContent undo (doc.blocks.take n)
          (doc.blocks.drop n) fromPos length
      | none => doc.blocks
    match s.contentsChange ctx signals with
    | some s1 => some { s1 with m_targetDoc := some { text := joinBlocks blocks } }
    | none => none

/-- The four flags of a `DocumentCursorInfo`. -/
structure DocumentCursorInfo where
  canBind : Bool
  canUnbind : Bool
  canEdit : Bool
  canAdjust : Bool
  deriving DecidableEq, Repr

/-- The loop of `cursorInfo` (source lines 739-747) from the values of `canBind` and
`canUnbind`: it stops at the first declaration after which both are set. -/
def cursorInfo.loop (bindings : List CodeRuntimeBinding) :
    List CodeDeclaration → Bool → Bool → Bool × Bool
  | [], canBind, canUnbind => (canBind, canUnbind)
  | d :: rest, canBind, canUnbind =>
    let canBind := if (bindingAt bindings d.position).isNone then true else canBind
    let canUnbind := if (bindingAt bindings d.position).isSome then true else canUnbind
    if canBind && canUnbind then (canBind, canUnbind)
    else cursorInfo.loop bindings rest canBind canUnbind

/-- `DocumentHandler::cursorInfo`: the flags of the object it returns. -/
def DocumentHandler.cursorInfo (ctx : Context) (s : DocumentHandler) (position length : Int) :
    Option DocumentCursorInfo :=
  if !s.m_projectDocument || !s.m_codeHandler then
    some { canBind := false, canUnbind := false, canEdit := false, canAdjust := false }
  else
    match s.m_targetDoc with
    | none => none
    | some doc =>
      let properties := ctx.getDeclarations doc (rangeCursor doc position length)
      match properties with
      | [] => some { canBind := false, canUnbind := false, canEdit := false, canAdjust := false }
      | firstdecl :: _ =>
        let canEdit := decide (properties.length = 1)
        let canAdjust :=
          if properties.length = 1 then
            match ctx.findPaletteForType firstdecl.type with
            | some converter => ctx.isLivePalette converter
            | none => false
          else false
        let flags := cursorInfo.loop s.m_bindings properties false false
        some (DocumentCursorInfo.mk flags.1 flags.2 canEdit canAdjust)

/-! ## The log configuration of the command line (livecvarguments.cpp) -/

deriving instance DecidableEq for Except

/-- `QString::indexOf(c)`: the index of the first occurrence, -1 when there is none. -/
def QString.indexOf : QString → Char → Int
  | [], _ => -1
  | x :: rest, c =>
    if x = c then 0
    else if QString.indexOf rest c = -1 then -1 else QString.indexOf rest c + 1

/-- `QString::mid(position, n)` for `position >= 0`: `n` characters from `position`, all
that are left when `n` is -1 (the default) or too large, nothing beyond the end. -/
def QString.mid (s : QString) (position : Int) (n : Int) : QString :=
  if position > s.length then []
  else if n < 0 then s.drop position.toNat
  else (s.drop position.toNat).take n.toNat

/-- `QString::split(sep)`, which keeps empty parts. -/
def QString.split (s : QString) (sep : Char) : List QString :=
  List.splitOn sep s

/-- `QString::toLower`, on the ASCII letters. -/
def QString.toLower (s : QString) : QString :=
  s.map Char.toLower

/-- Modelled from the spec: a value in a log section, of the `MLNode` kinds boolean and string
(live/mlnode.h is not among the sources). -/
inductive MLValue where
  | boolean (b : Bool)
  | string (s : QString)
  deriving DecidableEq, Repr

/-- Modelled from the spec: an `MLNode` object, as the list of its keys with their values
(live/mlnode.h is not among the sources). -/
abbrev MLObject (α : Type) := List (QString × α)

/-- `MLNode::hasKey`. -/
def MLObject.hasKey {α : Type} : MLObject α → QString → Bool
  | [], _ => false
  | (k, _) :: rest, key => if k = key then true else MLObject.hasKey rest key

/-- Reading `node[key]`. -/
def MLObject.get {α : Type} : MLObject α → QString → Option α
  | [], _ => none
  | (k, v) :: rest, key => if k = key then some v else MLObject.get rest key

/-- The assignment `node[key] = value`: replaces the value of an existing key, adds the key
otherwise. -/
def MLObject.set {α : Type} : MLObject α → QString → α → MLObject α
  | [], key, value => [(key, value)]
  | (k, v) :: rest, key, value =>
    if k = key then (k, value) :: rest else (k, v) :: MLObject.set rest key value

/-- Modelled from the spec: the log configuration `m_logConfiguration`, a mapping keyed by
named sections, each a mapping from keys to values (section 6). -/
abbrev LogConfiguration := MLObject (MLObject MLValue)

/-- The assignment `m_logConfiguration[name][key] = value`; a missing section is created. -/
def LogConfiguration.assign (cfg : LogConfiguration) (name key : QString) (value : MLValue) :
    LogConfiguration :=
  MLObject.set cfg name (MLObject.set ((MLObject.get cfg name).getD []) key value)

/-- Reading `m_logConfiguration[name][key]`. -/
def LogConfiguration.lookup (cfg : LogConfiguration) (name key : QString) : Option MLValue :=
  (MLObject.get cfg name).bind (fun o => MLObject.get o key)

/-- What the command line parser reports after `parse` for the log options: the value of an
option that is set, and whether a flag is set. -/
structure LogOptions where
  logConfigFile : Option QString
  logConfig : Option QString
  logPrefix : Option QString
  logDaily : Bool
  logToNoView : Bool
  logToNetwork : Option QString
  logLevel : Option QString
  logToConsole : Bool
  logFile : Option QString
  deriving DecidableEq, Repr

/-- The message of the exception thrown for a segment. -/
def segmentError (cfs : QString) : QString :=
  "Failed to parse configuration segment: ".toList ++ cfs

/-- The body of the loop over the segments of `--log-config` (source lines 98-131): the
configuration after the segment, or the message of the exception thrown. -/
def LiveCVArguments.initialize.segment (cfg : LogConfiguration) (cfs : QString) :
    Except QString LogConfiguration :=
  if cfs.isEmpty then Except.ok cfg
  else
    let apos := QString.indexOf cfs '='
    if apos = -1 then Except.error (segmentError cfs)
    else
      let tpos := QString.indexOf cfs ':'
      let configurationName :=
        if tpos ≠ -1 ∧ tpos < apos then QString.mid cfs 0 tpos else "global".toList
      let configurationKey :=
        if tpos ≠ -1 ∧ tpos < apos then QString.mid cfs (tpos + 1) (apos - tpos - 1)
        else QString.mid cfs 0 apos
      let configurationValue := QString.mid cfs (apos + 1) (-1)
      if configurationName.isEmpty ∨ configurationKey.isEmpty ∨ configurationValue.isEmpty then
        Except.error (segmentError cfs)
      else
        let cfg :=
          if !MLObject.hasKey cfg configurationName then MLObject.set cfg configurationName []
          else cfg
        if configurationKey = "logDaily".toList ∨ configurationKey = "toView".toList ∨
            configurationKey = "toConsole".toList then
          Except.ok (LogConfiguration.assign cfg configurationName configurationKey
            (MLValue.boolean (decide (QString.toLower configurationValue = "true".toList))))
        else
          Except.ok (LogConfiguration.assign cfg configurationName configurationKey
            (MLValue.string configurationValue))

/-- The loop over the segments: the first exception ends it. -/
def LiveCVArguments.initialize.segments :
    LogConfiguration → List QString → Except QString LogConfiguration
  | cfg, [] => Except.ok cfg
  | cfg, cfs :: rest =>
    match LiveCVArguments.initialize.segment cfg cfs with
    | Except.ok cfg1 => LiveCVArguments.initialize.segments cfg1 rest
    | Except.error e => Except.error e

/-- The configuration built from the single log flags (source lines 135-159). -/
def LiveCVArguments.initialize.flags (opts : LogOptions) : LogConfiguration :=
  let cfg : LogConfiguration := [("global".toList, [])]
  let cfg :=
    match opts.logPrefix with
    | some v => LogConfiguration.assign cfg "global".toList "prefix".toList (MLValue.string v)
    | none => cfg
  let cfg :=
    if opts.logDaily then
      LogConfiguration.assign cfg "global".toList "daily".toList (MLValue.boolean true)
    else cfg
  let cfg :=
    if opts.logToNoView then
      LogConfiguration.assign cfg "global".toList "toView".toList (MLValue.boolean false)
    else cfg
  let cfg :=
    match opts.logToNetwork with
    | some v => LogConfiguration.assign cfg "global".toList "toNetwork".toList (MLValue.string v)
    | none => cfg
  let cfg :=
    match opts.logLevel with
    | some v => LogConfiguration.assign cfg "global".toList "level".toList (MLValue.string v)
    | none => cfg
  let cfg :=
    if opts.logToConsole then
      LogConfiguration.assign cfg "global".toList "toConsole".toList (MLValue.boolean true)
    else cfg
  match opts.logFile with
  | some v => LogConfiguration.assign cfg "global".toList "file".toList (MLValue.string v)
  | none => cfg

/-- The log configuration that `LiveCVArguments::initialize` computes (source lines 83-159),
or the message of the exception it throws. `readFile` gives, for a path, what `ml::fromJson`
reads from the file, and `none` when the file cannot be opened. The other members set by
`initialize` do not enter the log configuration. -/
def LiveCVArguments.initialize (readFile : QString → Option LogConfiguration)
    (opts : LogOptions) : Except QString LogConfiguration :=
  match opts.logConfigFile with
  | some path =>
    match readFile path with
    | some cfg => Except.ok cfg
    | none => Except.error ("Failed to open log configuration file: ".toList ++ path)
  | none =>
    match opts.logConfig with
    | some value => LiveCVArguments.initialize.segments [] (QString.split value ';')
    | none => Except.ok ( LiveCVArguments.initialize.flags opts)

/-! ### The reading of a segment in the words of the specification -/

/-- The part of a segment before its first `=`. -/
def Segment.beforeAssign (seg : QString) : QString :=
  seg.takeWhile (fun c => c != '=')

/-- The value of a segment: everything after the first `=`. -/
def Segment.value (seg : QString) : QString :=
  (seg.dropWhile (fun c => c != '=')).drop 1

/-- The section a segment addresses: the text before a `:` that precedes the first `=`,
the section `global` when there is no such `:`. -/
def Segment.sectionName (seg : QString) : QString :=
  if ':' ∈ Segment.beforeAssign seg then
    (Segment.beforeAssign seg).takeWhile (fun c => c != ':')
  else "global".toList

/-- The key of a segment: the text between that `:` and the first `=`, or all the text
before the first `=`. -/
def Segment.key (seg : QString) : QString :=
  if ':' ∈ Segment.beforeAssign seg then
    ((Segment.beforeAssign seg).dropWhile (fun c => c != ':')).drop 1
  else Segment.beforeAssign seg

/-- A segment is malformed when it has no `=`, or an empty section name, key or value. -/
def Segment.malformed (seg : QString) : Bool :=
  decide ('=' ∉ seg ∨ Segment.sectionName seg = [] ∨ Segment.key seg = [] ∨
    Segment.value seg = [])

/-- The value of the last non-empty segment that addresses the section and the key. -/
def Segment.lastAssigned (segs : List QString) (name key : QString) : Option QString :=
  ((segs.filter (fun seg => decide (seg ≠ [] ∧ Segment.sectionName seg = name ∧
    Segment.key seg = key))).getLast?).map Segment.value

/-- The node stored for a key and the text of its value: a boolean for the keys `logDaily`,
`toView` and `toConsole` (true when the text in lower case is `true`), the text otherwise. -/
def storedValue (key value : QString) : MLValue :=
  if key = "logDaily".toList ∨ key = "toView".toList ∨ key = "toConsole".toList then
    MLValue.boolean (decide (QString.toLower value = "true".toList))
  else MLValue.string value

/-! ## A concrete document: the buffer `x: 1` with one declaration -/

/-- A converter that reads a run of decimal digits as an integer and anything else as text. -/
def sampleFromCode (text : QString) : QVariant :=
  if text ≠ [] ∧ text.all (fun c => decide (48 ≤ c.toNat ∧ c.toNat ≤ 57)) = true then
    QVariant.integer (text.foldl (fun n c => 10 * n + ((c.toNat : Int) - 48)) 0)
  else QVariant.text (String.mk text)

/-- The declaration `x` of the buffer `x: 1`: position 0, length 4, value at 3 of length 1. -/
def sampleDeclaration : CodeDeclaration :=
  { position := 0, length := 4, type := "int", parentType := [], valuePosition := 3,
    valueLength := 1, m_section := none }

/-- The code a sample palette writes for a value: the digit of an integer from 0 to 9, the
text of a text value, nothing otherwise. -/
def sampleToCode (value : QVariant) : QString :=
  match value with
  | QVariant.integer n => if 0 ≤ n ∧ n ≤ 9 then [Char.ofNat (48 + n.toNat)] else []
  | QVariant.text t => t.toList
  | _ => []

/-- An analyzer that reports `sampleDeclaration` at position 0, a registry with one converter
for the type `int`, and a code handler that allocates every fragment at address 1. The
`Palette` and `Runtime` states include the bit of `Silent`; every palette holds the value 7;
every converter but `IntEditor` is a palette. -/
def sampleContext : Context :=
  { Read := 16, Silent := 2, Section := 1,
    getDeclarations := fun _ cursor => if cursor.position = 0 then [sampleDeclaration] else [],
    findPalette := fun type _ => if type = "int" then some { path := "IntEditor" } else none,
    createInjectionChannel := fun d _ c => some { id := 1, declaration := d, converter := some c },
    fromCode := fun _ text _ => sampleFromCode text,
    Palette := 6, Runtime := 10,
    findPaletteForParents := fun type _ =>
      if type = "int" then some { path := "IntEditor" } else none,
    toCode := fun _ value _ => sampleToCode value,
    value := fun _ => QVariant.integer 7,
    findPaletteForType := fun type => if type = "int" then some { path := "IntEditor" } else none,
    isLivePalette := fun c => decide (c.path ≠ "IntEditor") }

/-- The same collaborators, with a code handler that has no injection channel. -/
def noChannelContext : Context :=
  { sampleContext with createInjectionChannel := fun _ _ _ => none }

/-- A handler over the buffer `x: 1` with no fragment open. -/
def closedSample : DocumentHandler :=
  { m_targetDoc := some { text := "x: 1".toList }, m_codeHandler := true,
    m_projectDocument := true, m_editingState := 0, m_lastChar := nullChar, m_palettes := [],
    m_editingFragment := none, m_log := [],
    m_fragmentStart := ProjectDocumentMarker.create, m_fragmentEnd := ProjectDocumentMarker.create,
    m_fragmentStartLine := -1, m_fragmentEndLine := -1, m_bindings := [],
    m_indentSize := 4, m_indentContent := "    ".toList }

/-- The section that `edit` registers for the fragment of `sampleDeclaration`. -/
def sampleSection : ProjectDocumentSection :=
  { m_document := true, m_type := 1, m_position := 0, m_length := 4, m_userData := some 1,
    m_textChangedHandler := some (SectionHandler.editFragment 1) }

/-- The edit fragment opened on `sampleDeclaration`. -/
def sampleFragment : DocumentEditFragment :=
  { id := 1, declaration := { sampleDeclaration with m_section := some sampleSection },
    converter := some { path := "IntEditor" } }

/-- The handler after `edit(0)` on `closedSample`, with an empty log. -/
def openSample : DocumentHandler :=
  { closedSample with m_editingFragment := some sampleFragment }

/-- The handler `openSample` once the view has replaced the value `1` by `42`. -/
def typedSample : DocumentHandler :=
  { openSample with m_targetDoc := some { text := "x: 42".toList } }

/-- The handler `typedSample` with the `Silent` state set. -/
def silentSample : DocumentHandler :=
  { typedSample with m_editingState := 2 }

/-- The handler `typedSample` with the `Read` state set. -/
def readSample : DocumentHandler :=
  { typedSample with m_editingState := 16 }

/-- An open edit fragment without a converter, over the buffer `x: 1`. -/
def plainSample : DocumentHandler :=
  { closedSample with m_editingFragment := some { sampleFragment with converter := none } }

/-- A palette fragment at declaration position 0 with the palette `ColorPalette`. -/
def colorPalette : DocumentEditFragment :=
  { id := 2, declaration := sampleDeclaration, converter := some { path := "ColorPalette" } }

/-- A palette fragment at declaration position 7 with the palette `SliderPalette`. -/
def sliderPalette : DocumentEditFragment :=
  { id := 3, declaration := { sampleDeclaration with position := 7, valuePosition := 10 },
    converter := some { path := "SliderPalette" } }

/-- A second fragment at declaration position 0 for the palette `ColorPalette`. -/
def colorPaletteAgain : DocumentEditFragment :=
  { id := 4, declaration := sampleDeclaration, converter := some { path := "ColorPalette" } }

/-- A handler with `colorPalette` in its open-palette list. -/
def paletteSample : DocumentHandler :=
  { closedSample with m_palettes := [colorPalette] }

/-- The collaborators of `sampleContext` with editing states that share no bit. -/
def flatContext : Context :=
  { sampleContext with Palette := 4, Runtime := 8 }

/-- The section that `openPalette` registers for a palette fragment at address 5. -/
def paletteSection : ProjectDocumentSection :=
  { m_document := true, m_type := 1, m_position := 0, m_length := 4, m_userData := some 5,
    m_textChangedHandler := some (SectionHandler.paletteFragment 5) }

/-- A palette fragment on `sampleDeclaration` with its section, for the palette
`ColorPalette`. -/
def openedPalette : DocumentEditFragment :=
  { id := 5, declaration := { sampleDeclaration with m_section := some paletteSection },
    converter := some { path := "ColorPalette" } }

/-- The buffer `x: 1` with `openedPalette` in the open-palette list. -/
def openedPaletteSample : DocumentHandler :=
  { closedSample with m_palettes := [openedPalette] }

/-- The handler `openedPaletteSample` once the value `1` has been replaced by `7`. -/
def changedPaletteSample : DocumentHandler :=
  { openedPaletteSample with m_targetDoc := some { text := "x: 7".toList } }

/-- The signal for the replacement of the value `1` by `7` in the buffer `x: 1`. -/
def valueReplaced : ContentsChange :=
  { text := "x: 7".toList, position := 3, charsRemoved := 1, charsAdded := 1 }

/-- The signal for the replacement of the whole buffer `x: 42` by `x: 7`. -/
def bufferReplaced : ContentsChange :=
  { text := "x: 7".toList, position := 0, charsRemoved := 5, charsAdded := 4 }

/-- A declaration that extends two characters beyond its value, as in the buffer `x: 1;;`. -/
def wideDeclaration : CodeDeclaration :=
  { position := 0, length := 6, type := "int", parentType := [], valuePosition := 3,
    valueLength := 1, m_section := none }

/-- The section of the edit fragment of `wideDeclaration`. -/
def wideSection : ProjectDocumentSection :=
  { m_document := true, m_type := 1, m_position := 0, m_length := 6, m_userData := some 1,
    m_textChangedHandler := some (SectionHandler.editFragment 1) }

/-- The edit fragment opened on `wideDeclaration`. -/
def wideFragment : DocumentEditFragment :=
  { id := 1, declaration := { wideDeclaration with m_section := some wideSection },
    converter := some { path := "IntEditor" } }

/-- The handler with `wideFragment` open once the view has removed the two characters `1;`
of the buffer `x: 1;;`. -/
def wideSample : DocumentHandler :=
  { closedSample with
    m_targetDoc := some { text := "x: ;".toList }, m_editingFragment := some wideFragment }

/-- No log configuration file can be opened. -/
def noFiles : QString → Option LogConfiguration := fun _ => none

/-- The command line with no log option set. -/
def noLogOptions : LogOptions :=
  { logConfigFile := none, logConfig := none, logPrefix := none, logDaily := false,
    logToNoView := false, logToNetwork := none, logLevel := none, logToConsole := false,
    logFile := none }

/-- The command line `--log-config value`. -/
def logConfigOptions (value : String) : LogOptions :=
  { noLogOptions with logConfig := some value.toList }

/-- The command line `--log-daily`. -/
def logDailyOptions : LogOptions :=
  { logConfigFile := none, logConfig := none, logPrefix := none, logDaily := true,
    logToNoView := false, logToNetwork := none, logLevel := none, logToConsole := false,
    logFile := none }

/-- The command line `--log-toconsole`. -/
def logToConsoleOptions : LogOptions :=
  { logConfigFile := none, logConfig := none, logPrefix := none, logDaily := false,
    logToNoView := false, logToNetwork := none, logLevel := none, logToConsole := true,
    logFile := none }

/-- The command line `--log-noview`. -/
def logNoViewOptions : LogOptions :=
  { logConfigFile := none, logConfig := none, logPrefix := none, logDaily := false,
    logToNoView := true, logToNetwork := none, logLevel := none, logToConsole := false,
    logFile := none }

/-- A handler over the two blocks `    a` and `    b`, with the indent of four spaces. -/
def indentedSample : DocumentHandler :=
  { closedSample with m_targetDoc := some { text := blockText "    a\n    b".toList } }

/-- The signal for the removal of the four spaces at the start of the first block. -/
def firstIndentRemoved : ContentsChange :=
  { text := blockText "a\n    b".toList, position := 0, charsRemoved := 4, charsAdded := 0 }

/-- The signals for the insertion of four spaces at the start of each of the two blocks. -/
def bothIndentsAdded : List ContentsChange :=
  [{ text := blockText "        a\n    b".toList, position := 0, charsRemoved := 0,
      charsAdded := 4 },
    { text := blockText "        a\n        b".toList, position := 10, charsRemoved := 0,
      charsAdded := 4 }]

/-- The fragment that the code handler of `sampleContext` allocates for the palette
`ColorPalette` on `sampleDeclaration`, with the section `openPalette` gives it. -/
def rejectedPalette : DocumentEditFragment :=
  { id := 1,
    declaration :=
      { sampleDeclaration with
        m_section := some
          { m_document := true, m_type := 1, m_position := 0, m_length := 4,
            m_userData := some 1,
            m_textChangedHandler := some (SectionHandler.paletteFragment 1) } },
    converter := some { path := "ColorPalette" } }

/-- A binding of `sampleDeclaration`. -/
def sampleBinding : CodeRuntimeBinding :=
  { declaration := sampleDeclaration, converter := some { path := "IntEditor" } }

/-- The handler `closedSample` with `sampleDeclaration` bound. -/
def boundSample : DocumentHandler :=
  { closedSample with m_bindings := [sampleBinding] }

/-- The handler `boundSample` without a code handler. -/
def detachedSample : DocumentHandler :=
  { boundSample with m_codeHandler := false }

/-- A handler over the three blocks `a`, `b` and `c` whose fragment markers stand in the second
and the third block, with the fragment lines 0 and 1 stored. -/
def fragmentSample : DocumentHandler :=
  { closedSample with
    m_targetDoc := some { text := blockText "a\nb\nc".toList },
    m_fragmentStart := { m_position := 2 }, m_fragmentEnd := { m_position := 4 },
    m_fragmentStartLine := 0, m_fragmentEndLine := 1 }

/-- The handler `fragmentSample` with the end marker invalidated. -/
def lostMarkerSample : DocumentHandler :=
  { fragmentSample with m_fragmentEnd := { m_position := -1 } }

theorem manualContentsChanged_no_fragment (s : DocumentHandler) (position charsRemoved : Int)
    (addedText : QString) (hpd : s.m_projectDocument = true) (hef : s.m_editingFragment = none) :
    s.manualContentsChanged position charsRemoved addedText =
      some (s.emit [Effect.documentContentsChanged position charsRemoved addedText,
        Effect.contentsChangedManually, Effect.timerStart]) := by
  simp [DocumentHandler.manualContentsChanged, hef, DocumentHandler.contentsChangedTail, hpd,
    DocumentHandler.emit]

theorem manualContentsChanged_outside (s : DocumentHandler) (ef : DocumentEditFragment)
    (position charsRemoved : Int) (addedText : QString) (hpd : s.m_projectDocument = true)
    (hef : s.m_editingFragment = some ef)
    (hout : position < ef.valuePosition ∨ position > ef.valuePosition + ef.valueLength) :
    s.manualContentsChanged position charsRemoved addedText =
      some ({ s with m_editingFragment := none }.emit
        [Effect.removeSection ef.declaration.m_section, Effect.editingStateChanged false,
          Effect.documentContentsChanged position charsRemoved addedText,
          Effect.contentsChangedManually, Effect.timerStart]) := by
  simp only [DocumentHandler.manualContentsChanged, hef, DocumentHandler.cancelEdit, hpd]
  rw [if_pos hout]
  simp [DocumentHandler.contentsChangedTail, hpd, DocumentHandler.emit]

theorem manualContentsChanged_inside (s : DocumentHandler) (ef : DocumentEditFragment)
    (position charsRemoved : Int) (addedText : QString) (hpd : s.m_projectDocument = true)
    (hef : s.m_editingFragment = some ef)
    (hin : ¬ (position < ef.valuePosition ∨ position > ef.valuePosition + ef.valueLength)) :
    s.manualContentsChanged position charsRemoved addedText =
      some (s.emit [Effect.documentContentsSilentChanged position charsRemoved addedText]) := by
  simp only [DocumentHandler.manualContentsChanged, hef]
  rw [if_neg hin]
  simp [hpd]

/-- With neither `Read` nor `Silent` set the slot sets `m_lastChar` and runs the non-silent
branch on the text it read from the document. -/
theorem documentContentsChanged_manual (ctx : Context) (s : DocumentHandler)
    (doc : QTextDocument) (position charsRemoved charsAdded : Int)
    (hdoc : s.m_targetDoc = some doc) (hRead : s.editingStateIs ctx.Read = false)
    (hSilent : s.editingStateIs ctx.Silent = false) :
    s.documentContentsChanged ctx position charsRemoved charsAdded =
      (s.setLastChar
          (if charsAdded = 1 then doc.characterAt position else nullChar)).manualContentsChanged
        position charsRemoved (addedTextOf doc position charsAdded) := by
  have h1 : (s.setLastChar nullChar).editingStateIs ctx.Silent = false := hSilent
  simp only [DocumentHandler.documentContentsChanged, hdoc, hRead, h1]
  by_cases h : charsAdded = 1 <;> simp [h, DocumentHandler.setLastChar]

theorem documentContentsChanged_read (ctx : Context) (s : DocumentHandler)
    (position charsRemoved charsAdded : Int) (hRead : s.editingStateIs ctx.Read = true) :
    s.documentContentsChanged ctx position charsRemoved charsAdded = some s := by
  unfold DocumentHandler.documentContentsChanged
  cases h : s.m_targetDoc with
  | none => rfl
  | some doc => simp only [hRead, if_true]

theorem documentContentsChanged_silent (ctx : Context) (s : DocumentHandler)
    (doc : QTextDocument) (position charsRemoved charsAdded : Int)
    (hdoc : s.m_targetDoc = some doc) (hpd : s.m_projectDocument = true)
    (hRead : s.editingStateIs ctx.Read = false) (hSilent : s.editingStateIs ctx.Silent = true) :
    s.documentContentsChanged ctx position charsRemoved charsAdded =
      some ((s.setLastChar nullChar).emit
        [Effect.documentContentsSilentChanged position charsRemoved
          (addedTextOf doc position charsAdded)]) := by
  have h1 : (s.setLastChar nullChar).editingStateIs ctx.Silent = true := hSilent
  have h2 : (s.setLastChar nullChar).m_projectDocument = true := hpd
  simp [DocumentHandler.documentContentsChanged, hdoc, hRead, h1, h2]

/-- On a non-empty list the loop compares the new fragment with itself and rejects it. -/
theorem addEditingPalette_loop_nonempty (palette cur : DocumentEditFragment)
    (before rest : List DocumentEditFragment) (lp : CodeConverter)
    (hlp : palette.converter = some lp) :
    addEditingPalette.loop palette before (cur :: rest) = some none := by
  simp [addEditingPalette.loop, hlp]

theorem addEditingPalette_nonempty (s : DocumentHandler) (palette : DocumentEditFragment)
    (lp : CodeConverter) (hlp : palette.converter = some lp) (hne : s.m_palettes ≠ []) :
    s.addEditingPalette palette = some (false, s) := by
  unfold DocumentHandler.addEditingPalette
  cases h : s.m_palettes with
  | nil => exact absurd h hne
  | cons cur rest => rw [addEditingPalette_loop_nonempty palette cur [] rest lp hlp]

theorem commitEdit_plain (ctx : Context) (s : DocumentHandler) (ef : DocumentEditFragment)
    (hef : s.m_editingFragment = some ef) (hconv : ef.converter = none)
    (hpd : s.m_projectDocument = true) :
    s.commitEdit ctx =
      some ({ s with m_editingFragment := none }.emit
        [Effect.contentsChangedManually, Effect.timerStart,
          Effect.removeSection ef.declaration.m_section, Effect.editingStateChanged false]) := by
  simp [DocumentHandler.commitEdit, hef, hconv, hpd, DocumentHandler.emit]

theorem cancelEdit_none (s : DocumentHandler) (h : s.m_editingFragment = none) :
    s.cancelEdit = some s := by
  simp [DocumentHandler.cancelEdit, h]

theorem cancelEdit_open (s : DocumentHandler) (ef : DocumentEditFragment)
    (hef : s.m_editingFragment = some ef) (hpd : s.m_projectDocument = true) :
    s.cancelEdit = some ({ s with m_editingFragment := none }.emit
      [Effect.removeSection ef.declaration.m_section, Effect.editingStateChanged false]) := by
  simp [DocumentHandler.cancelEdit, hef, hpd]

/-- Whenever `cancelEdit` returns, no fragment is open and nothing but the log has changed. -/
theorem cancelEdit_result (s s1 : DocumentHandler) (h : s.cancelEdit = some s1) :
    s1.m_editingFragment = none ∧ s1.m_targetDoc = s.m_targetDoc ∧
      s1.m_projectDocument = s.m_projectDocument ∧ s1.m_codeHandler = s.m_codeHandler ∧
      s1.m_palettes = s.m_palettes ∧ s1.m_editingState = s.m_editingState := by
  unfold DocumentHandler.cancelEdit at h
  cases hef : s.m_editingFragment with
  | none =>
    rw [hef] at h
    cases h
    exact ⟨hef, rfl, rfl, rfl, rfl, rfl⟩
  | some ef =>
    rw [hef] at h
    by_cases hpd : s.m_projectDocument = true
    · dsimp only at h
      rw [if_pos hpd] at h
      cases h
      exact ⟨rfl, rfl, rfl, rfl, rfl, rfl⟩
    · simp [hpd] at h

/-- With a project document `cancelEdit` returns; what it logs is neither the creation of a
section nor `editingStateChanged(true)`. -/
theorem cancelEdit_some (s : DocumentHandler) (hpd : s.m_projectDocument = true) :
    ∃ s0 log0, s.cancelEdit = some s0 ∧ s0.m_editingFragment = none ∧
      s0.m_targetDoc = s.m_targetDoc ∧ s0.m_codeHandler = s.m_codeHandler ∧
      s0.m_log = s.m_log ++ log0 ∧
      (∀ e ∈ log0, (∀ t p l, e ≠ Effect.createSection t p l) ∧
        e ≠ Effect.editingStateChanged true) := by
  cases hef : s.m_editingFragment with
  | none =>
    refine ⟨s, [], ?_, hef, rfl, rfl, by simp, by simp⟩
    simp [DocumentHandler.cancelEdit, hef]
  | some ef =>
    refine ⟨{ s with m_editingFragment := none }.emit
        [Effect.removeSection ef.declaration.m_section, Effect.editingStateChanged false],
      [Effect.removeSection ef.declaration.m_section, Effect.editingStateChanged false],
      ?_, rfl, rfl, rfl, rfl, by simp⟩
    simp [DocumentHandler.cancelEdit, hef, hpd]

/-- The outcome of `edit` once the open fragment has been cancelled, by the answers of the
analyzer, the registry and the code handler. -/
theorem edit_after_cancel (ctx : Context) (s s0 : DocumentHandler) (doc : QTextDocument)
    (position : Int) (currentApp : Nat)
    (hpd : s.m_projectDocument = true) (hch : s.m_codeHandler = true)
    (hs0 : s.cancelEdit = some s0) (hdoc : s0.m_targetDoc = some doc)
    (hch0 : s0.m_codeHandler = true) :
    s.edit ctx position currentApp =
      match ctx.getDeclarations doc (QTextCursor.start.setPosition doc position false) with
      | [] => some (false, s0)
      | declaration :: _ =>
        match ctx.findPalette declaration.type (declaration.parentType.headD "") with
        | none => some (false, s0)
        | some converter =>
          match ctx.createInjectionChannel declaration currentApp converter with
          | none => none
          | some ef =>
            some (true,
              { s0 with
                m_editingFragment := some
                  { ef with declaration := { ef.declaration with
                      m_section := some
                        (((ProjectDocumentSection.new true ctx.Section ef.declaration.position
                          ef.declaration.length).setUserData (some ef.id)).onTextChanged
                            (SectionHandler.editFragment ef.id)) } }
                m_log := s0.m_log ++
                  [Effect.createSection ctx.Section ef.declaration.position
                    ef.declaration.length] ++
                  rehighlightSection.loop (ef.valuePosition + ef.valueLength)
                    (doc.blocksFrom ef.valuePosition) ++
                  [Effect.cursorPositionRequest ef.valuePosition,
                    Effect.editingStateChanged true] }) := by
  simp only [DocumentHandler.edit, hpd, hch, hs0, hdoc]
  simp only [Bool.not_true, Bool.or_self, Bool.false_eq_true, if_false]
  cases ctx.getDeclarations doc (QTextCursor.start.setPosition doc position false) with
  | nil => rfl
  | cons declaration rest =>
    simp only []
    cases ctx.findPalette declaration.type (declaration.parentType.headD "") with
    | none => rfl
    | some converter =>
      simp only []
      cases ctx.createInjectionChannel declaration currentApp converter with
      | none => rfl
      | some ef =>
        simp [DocumentHandler.rehighlightSection, DocumentHandler.emit, hch0, hdoc,
          DocumentEditFragment.valuePosition, DocumentEditFragment.valueLength]

/-! ## Delta routing: `documentContentsChanged` -/

/-- C1, as stated, fails: with the edit fragment of `typedSample` open (value range [3, 4]),
neither `Read` nor `Silent` set and both documents present, the delta (3, 1, "42") is only
passed to `documentContentsSilentChanged`; it is not forwarded to the non-silent
`documentContentsChanged`, `contentsChangedManually` is not emitted and the timer is not
restarted. -/
theorem documentContentsChanged_inside_fragment_not_full_path :
    typedSample.m_targetDoc = some { text := "x: 42".toList } ∧
    typedSample.m_projectDocument = true ∧
    typedSample.editingStateIs sampleContext.Read = false ∧
    typedSample.editingStateIs sampleContext.Silent = false ∧
    typedSample.documentContentsChanged sampleContext 3 1 2 =
      some (typedSample.emit [Effect.documentContentsSilentChanged 3 1 "42".toList]) ∧
    Effect.documentContentsChanged 3 1 "42".toList ∉
      (typedSample.emit [Effect.documentContentsSilentChanged 3 1 "42".toList]).m_log ∧
    Effect.contentsChangedManually ∉
      (typedSample.emit [Effect.documentContentsSilentChanged 3 1 "42".toList]).m_log ∧
    Effect.timerStart ∉
      (typedSample.emit [Effect.documentContentsSilentChanged 3 1 "42".toList]).m_log := by
  decide

/-- C1, amended: with neither `Read` nor `Silent` set and both documents present, the full
path (forward to the non-silent `documentContentsChanged`, then `contentsChangedManually`,
then the timer restart) runs when no edit fragment is open and when the position of the delta
is outside the value range of the open fragment, which is cancelled first; for a position
inside the value range the delta is passed to `documentContentsSilentChanged` only. -/
theorem documentContentsChanged_full_path_outside_fragment (ctx : Context)
    (s : DocumentHandler) (doc : QTextDocument) (position charsRemoved charsAdded : Int)
    (hdoc : s.m_targetDoc = some doc) (hpd : s.m_projectDocument = true)
    (hRead : s.editingStateIs ctx.Read = false) (hSilent : s.editingStateIs ctx.Silent = false) :
    (s.m_editingFragment = none →
      ∃ s1, s.documentContentsChanged ctx position charsRemoved charsAdded = some s1 ∧
        s1.m_editingFragment = none ∧
        s1.m_log = s.m_log ++
          [Effect.documentContentsChanged position charsRemoved
              (addedTextOf doc position charsAdded),
            Effect.contentsChangedManually, Effect.timerStart]) ∧
    (∀ ef, s.m_editingFragment = some ef →
      (position < ef.valuePosition ∨ position > ef.valuePosition + ef.valueLength) →
      ∃ s1, s.documentContentsChanged ctx position charsRemoved charsAdded = some s1 ∧
        s1.m_editingFragment = none ∧
        s1.m_log = s.m_log ++
          [Effect.removeSection ef.declaration.m_section, Effect.editingStateChanged false,
            Effect.documentContentsChanged position charsRemoved
              (addedTextOf doc position charsAdded),
            Effect.contentsChangedManually, Effect.timerStart]) ∧
    (∀ ef, s.m_editingFragment = some ef →
      ef.valuePosition ≤ position → position ≤ ef.valuePosition + ef.valueLength →
      ∃ s1, s.documentContentsChanged ctx position charsRemoved charsAdded = some s1 ∧
        s1.m_editingFragment = some ef ∧
        s1.m_log = s.m_log ++
          [Effect.documentContentsSilentChanged position charsRemoved
              (addedTextOf doc position charsAdded)]) := by
  rw [documentContentsChanged_manual ctx s doc position charsRemoved charsAdded hdoc hRead hSilent]
  refine ⟨?_, ?_, ?_⟩
  · intro hef
    exact ⟨_, manualContentsChanged_no_fragment _ _ _ _ hpd hef, hef, rfl⟩
  · intro ef hef hout
    exact ⟨_, manualContentsChanged_outside _ ef _ _ _ hpd hef hout, rfl, rfl⟩
  · intro ef hef hlo hhi
    have hin : ¬ (position < ef.valuePosition ∨
        position > ef.valuePosition + ef.valueLength) := by omega
    exact ⟨_, manualContentsChanged_inside _ ef _ _ _ hpd hef hin, hef, rfl⟩

/-- C1, amended, at concrete deltas: (1, 0, ":") with no fragment open runs the full path;
(0, 1, "x") with the fragment of `typedSample` open (value range [3, 4]) cancels it and runs
the full path; (4, 0, "2") inside the range is passed on silently. -/
theorem documentContentsChanged_full_path_outside_fragment_witness :
    (∃ s1, closedSample.documentContentsChanged sampleContext 1 0 1 = some s1 ∧
      s1.m_editingFragment = none ∧
      s1.m_log = closedSample.m_log ++
        [Effect.documentContentsChanged 1 0
            (addedTextOf { text := "x: 1".toList } 1 1),
          Effect.contentsChangedManually, Effect.timerStart]) ∧
    (∃ s1, typedSample.documentContentsChanged sampleContext 0 1 1 = some s1 ∧
      s1.m_editingFragment = none ∧
      s1.m_log = typedSample.m_log ++
        [Effect.removeSection sampleFragment.declaration.m_section,
          Effect.editingStateChanged false,
          Effect.documentContentsChanged 0 1 (addedTextOf { text := "x: 42".toList } 0 1),
          Effect.contentsChangedManually, Effect.timerStart]) ∧
    (∃ s1, typedSample.documentContentsChanged sampleContext 4 0 1 = some s1 ∧
      s1.m_editingFragment = some sampleFragment ∧
      s1.m_log = typedSample.m_log ++
        [Effect.documentContentsSilentChanged 4 0
          (addedTextOf { text := "x: 42".toList } 4 1)]) :=
  ⟨(documentContentsChanged_full_path_outside_fragment sampleContext closedSample
      { text := "x: 1".toList } 1 0 1 rfl rfl (by decide) (by decide)).1 rfl,
    (documentContentsChanged_full_path_outside_fragment sampleContext typedSample
      { text := "x: 42".toList } 0 1 1 rfl rfl (by decide) (by decide)).2.1 sampleFragment rfl
      (by decide),
    (documentContentsChanged_full_path_outside_fragment sampleContext typedSample
      { text := "x: 42".toList } 4 0 1 rfl rfl (by decide) (by decide)).2.2 sampleFragment rfl
      (by decide) (by decide)⟩

/-- C2: with `Read` set the slot returns the handler unchanged, log included (no call, no
signal, no timer restart); with `Read` clear and `Silent` set (both documents present) it
resets `m_lastChar`, makes the one call `documentContentsSilentChanged(position, charsRemoved,
addedText)` and does nothing else: the edit fragment, the palette list and the editing state
are as before and the log has grown by that call alone. -/
theorem documentContentsChanged_read_or_silent (ctx : Context) (s : DocumentHandler)
    (position charsRemoved charsAdded : Int) :
    (s.editingStateIs ctx.Read = true →
      s.documentContentsChanged ctx position charsRemoved charsAdded = some s) ∧
    (∀ doc, s.m_targetDoc = some doc → s.m_projectDocument = true →
      s.editingStateIs ctx.Read = false → s.editingStateIs ctx.Silent = true →
      ∃ s1, s.documentContentsChanged ctx position charsRemoved charsAdded = some s1 ∧
        s1 = { s with
          m_lastChar := nullChar
          m_log := s.m_log ++ [Effect.documentContentsSilentChanged position charsRemoved
            (addedTextOf doc position charsAdded)] } ∧
        s1.m_editingFragment = s.m_editingFragment ∧ s1.m_palettes = s.m_palettes ∧
        s1.m_editingState = s.m_editingState ∧
        s1.m_log = s.m_log ++ [Effect.documentContentsSilentChanged position charsRemoved
            (addedTextOf doc position charsAdded)]) := by
  refine ⟨documentContentsChanged_read ctx s position charsRemoved charsAdded, ?_⟩
  intro doc hdoc hpd hRead hSilent
  exact ⟨_, documentContentsChanged_silent ctx s doc position charsRemoved charsAdded hdoc hpd
    hRead hSilent, rfl, rfl, rfl, rfl, rfl⟩

/-- C2 at the delta (0, 1, "x"), outside the value range of the open fragment: ignored by
`readSample`, passed on silently by `silentSample` with the fragment kept. -/
theorem documentContentsChanged_read_or_silent_witness :
    readSample.documentContentsChanged sampleContext 0 1 1 = some readSample ∧
    (∃ s1, silentSample.documentContentsChanged sampleContext 0 1 1 = some s1 ∧
      s1 = { silentSample with
        m_lastChar := nullChar
        m_log := silentSample.m_log ++ [Effect.documentContentsSilentChanged 0 1
          (addedTextOf { text := "x: 42".toList } 0 1)] } ∧
      s1.m_editingFragment = silentSample.m_editingFragment ∧
      s1.m_palettes = silentSample.m_palettes ∧
      s1.m_editingState = silentSample.m_editingState ∧
      s1.m_log = silentSample.m_log ++ [Effect.documentContentsSilentChanged 0 1
          (addedTextOf { text := "x: 42".toList } 0 1)]) :=
  ⟨(documentContentsChanged_read_or_silent sampleContext readSample 0 1 1).1 (by decide),
    (documentContentsChanged_read_or_silent sampleContext silentSample 0 1 1).2
      { text := "x: 42".toList } rfl rfl (by decide) (by decide)⟩

/-- C3: with an edit fragment open, neither `Read` nor `Silent` set and both documents
present, the slot cancels the fragment exactly when the position is below `valuePosition` or
above `valuePosition + valueLength`. When it cancels, the log grows by the removal of the
section and `editingStateChanged(false)`, followed by the full path of the same delta;
otherwise the fragment stays open and only the silent call is made. -/
theorem documentContentsChanged_cancels_iff_out_of_range (ctx : Context) (s : DocumentHandler)
    (doc : QTextDocument) (ef : DocumentEditFragment) (position charsRemoved charsAdded : Int)
    (hdoc : s.m_targetDoc = some doc) (hpd : s.m_projectDocument = true)
    (hRead : s.editingStateIs ctx.Read = false) (hSilent : s.editingStateIs ctx.Silent = false)
    (hef : s.m_editingFragment = some ef) :
    ∃ s1, s.documentContentsChanged ctx position charsRemoved charsAdded = some s1 ∧
      (s1.m_editingFragment = none ↔
        (position < ef.valuePosition ∨ position > ef.valuePosition + ef.valueLength)) ∧
      ((position < ef.valuePosition ∨ position > ef.valuePosition + ef.valueLength) →
        s1.m_log = s.m_log ++
          [Effect.removeSection ef.declaration.m_section, Effect.editingStateChanged false,
            Effect.documentContentsChanged position charsRemoved
              (addedTextOf doc position charsAdded),
            Effect.contentsChangedManually, Effect.timerStart]) ∧
      (¬ (position < ef.valuePosition ∨ position > ef.valuePosition + ef.valueLength) →
        s1.m_editingFragment = some ef ∧
        s1.m_log = s.m_log ++
          [Effect.documentContentsSilentChanged position charsRemoved
            (addedTextOf doc position charsAdded)]) := by
  rw [documentContentsChanged_manual ctx s doc position charsRemoved charsAdded hdoc hRead hSilent]
  by_cases hout : position < ef.valuePosition ∨ position > ef.valuePosition + ef.valueLength
  · refine ⟨_, manualContentsChanged_outside _ ef _ _ _ hpd hef hout, ?_, ?_, ?_⟩
    · exact ⟨fun _ => hout, fun _ => rfl⟩
    · intro _
      rfl
    · intro hin
      exact absurd hout hin
  · refine ⟨_, manualContentsChanged_inside _ ef _ _ _ hpd hef hout, ?_, ?_, ?_⟩
    · constructor
      · intro h
        have h2 : s.m_editingFragment = none := h
        rw [hef] at h2
        cases h2
      · intro h
        exact absurd h hout
    · intro h
      exact absurd h hout
    · intro _
      exact ⟨hef, rfl⟩

/-- C3 on `typedSample` (value range [3, 4]) at the delta (5, 0, ""): position 5 is outside
the range, so the fragment is cancelled. -/
theorem documentContentsChanged_cancels_iff_out_of_range_witness :
    ∃ s1, typedSample.documentContentsChanged sampleContext 5 0 0 = some s1 ∧
      (s1.m_editingFragment = none ↔
        ((5 : Int) < sampleFragment.valuePosition ∨
          (5 : Int) > sampleFragment.valuePosition + sampleFragment.valueLength)) ∧
      (((5 : Int) < sampleFragment.valuePosition ∨
          (5 : Int) > sampleFragment.valuePosition + sampleFragment.valueLength) →
        s1.m_log = typedSample.m_log ++
          [Effect.removeSection sampleFragment.declaration.m_section,
            Effect.editingStateChanged false,
            Effect.documentContentsChanged 5 0 (addedTextOf { text := "x: 42".toList } 5 0),
            Effect.contentsChangedManually, Effect.timerStart]) ∧
      (¬ ((5 : Int) < sampleFragment.valuePosition ∨
          (5 : Int) > sampleFragment.valuePosition + sampleFragment.valueLength) →
        s1.m_editingFragment = some sampleFragment ∧
        s1.m_log = typedSample.m_log ++
          [Effect.documentContentsSilentChanged 5 0
            (addedTextOf { text := "x: 42".toList } 5 0)]) :=
  documentContentsChanged_cancels_iff_out_of_range sampleContext typedSample
    { text := "x: 42".toList } sampleFragment 5 0 0 rfl rfl (by decide) (by decide) rfl

/-! ## The open-palette list: `addEditingPalette` -/

/-- C4, the code at a failing input: the list holds `colorPalette` (position 0, palette
`ColorPalette`); `sliderPalette` (position 7) and `sampleFragment` (position 0, converter
`IntEditor`) each differ from every listed fragment in position or palette path, yet
`addEditingPalette` returns false for both and leaves the list without them. The loop
compares the new fragment with itself instead of the listed one. -/
theorem addEditingPalette_rejects_new_palette :
    (∀ g ∈ paletteSample.m_palettes,
      ¬ (g.declaration.position = sliderPalette.declaration.position ∧
        g.converter.map CodeConverter.path = sliderPalette.converter.map CodeConverter.path)) ∧
    paletteSample.addEditingPalette sliderPalette = some (false, paletteSample) ∧
    (∀ g ∈ paletteSample.m_palettes,
      ¬ (g.declaration.position = sampleFragment.declaration.position ∧
        g.converter.map CodeConverter.path = sampleFragment.converter.map CodeConverter.path)) ∧
    paletteSample.addEditingPalette sampleFragment = some (false, paletteSample) ∧
    sliderPalette ∉ paletteSample.m_palettes ∧ sampleFragment ∉ paletteSample.m_palettes := by
  decide

/-- C5: when the open-palette list holds a fragment with the declaration position and the
palette path of the new fragment, `addEditingPalette` returns false and the handler, and with
it the list, is unchanged. -/
theorem addEditingPalette_rejects_duplicate (s : DocumentHandler)
    (palette listed : DocumentEditFragment) (itlp lp : CodeConverter)
    (hmem : listed ∈ s.m_palettes)
    (_hpos : listed.declaration.position = palette.declaration.position)
    (_hitlp : listed.converter = some itlp) (hlp : palette.converter = some lp)
    (_hpath : itlp.path = lp.path) :
    s.addEditingPalette palette = some (false, s) :=
  addEditingPalette_nonempty s palette lp hlp (List.ne_nil_of_mem hmem)

/-- C5 on `paletteSample`: a second fragment for `ColorPalette` at position 0 is rejected. -/
theorem addEditingPalette_rejects_duplicate_witness :
    colorPalette ∈ paletteSample.m_palettes ∧
    colorPalette.declaration.position = colorPaletteAgain.declaration.position ∧
    colorPalette.converter = some { path := "ColorPalette" } ∧
    colorPaletteAgain.converter = some { path := "ColorPalette" } ∧
    paletteSample.addEditingPalette colorPaletteAgain = some (false, paletteSample) :=
  ⟨by decide, rfl, rfl, rfl,
    addEditingPalette_rejects_duplicate paletteSample colorPaletteAgain colorPalette
      { path := "ColorPalette" } { path := "ColorPalette" } (by decide) rfl rfl rfl rfl⟩

/-! ## The edit fragment: section callback, commit, cancel, edit -/

/-- C6: the closure that `edit` installs sets `valueLength` to
`valueLength - charsRemoved + len(addedText)` and keeps `valuePosition` while `Silent` is not
set, and leaves the fragment as it is while `Silent` is set. On the buffer `x: 42` with the
fragment at `valuePosition = 3`, `valueLength = 1`, the delta (3, 1, "42") is passed on
without cancelling the fragment, the closure then gives `valueLength = 2`, and `commitEdit`
commits the value read from the text "42". -/
theorem edit_onTextChanged_tracks_valueLength (ctx : Context) (this : DocumentHandler)
    (ef : DocumentEditFragment) (isErase : Bool) (position charsRemoved : Int)
    (addedText : QString) :
    (this.editingStateIs ctx.Silent = false →
      (edit.onTextChanged ctx this ef isErase position charsRemoved addedText).valueLength =
          ef.valueLength - charsRemoved + addedText.length ∧
        (edit.onTextChanged ctx this ef isErase position charsRemoved addedText).valuePosition =
          ef.valuePosition) ∧
    (this.editingStateIs ctx.Silent = true →
      edit.onTextChanged ctx this ef isErase position charsRemoved addedText = ef) ∧
    (typedSample.documentContentsChanged sampleContext 3 1 2 =
        some (typedSample.emit [Effect.documentContentsSilentChanged 3 1 "42".toList]) ∧
      (typedSample.emit [Effect.documentContentsSilentChanged 3 1 "42".toList]).m_editingFragment
        = some sampleFragment ∧
      ((typedSample.emit [Effect.documentContentsSilentChanged 3 1 "42".toList]).sectionTextChanged
          sampleContext false 3 1 "42".toList).m_editingFragment =
        some { sampleFragment with
          declaration := { sampleFragment.declaration with valueLength := 2 } } ∧
      (((typedSample.emit [Effect.documentContentsSilentChanged 3 1 "42".toList]).sectionTextChanged
          sampleContext false 3 1 "42".toList).commitEdit sampleContext).map
            (fun s => s.m_log) =
        some [Effect.documentContentsSilentChanged 3 1 "42".toList,
          Effect.commit 1 (QVariant.integer 42),
          Effect.removeSection (some sampleSection), Effect.editingStateChanged false]) := by
  refine ⟨?_, ?_, by decide⟩
  · intro h
    simp [edit.onTextChanged, h, DocumentEditFragment.valueLength,
      DocumentEditFragment.valuePosition, CodeDeclaration.setValueLength]
  · intro h
    simp [edit.onTextChanged, h]

/-- C6 at the delta (3, 1, "42") on the fragment of the sample, with `Silent` clear
(`typedSample`) and with `Silent` set (`silentSample`). -/
theorem edit_onTextChanged_tracks_valueLength_witness :
    ((edit.onTextChanged sampleContext typedSample sampleFragment false 3 1 "42".toList).valueLength
        = sampleFragment.valueLength - 1 + ("42".toList.length : Int) ∧
      (edit.onTextChanged sampleContext typedSample sampleFragment false 3 1
        "42".toList).valuePosition = sampleFragment.valuePosition) ∧
    edit.onTextChanged sampleContext silentSample sampleFragment false 3 1 "42".toList =
      sampleFragment :=
  ⟨(edit_onTextChanged_tracks_valueLength sampleContext typedSample sampleFragment false 3 1
      "42".toList).1 (by decide),
    (edit_onTextChanged_tracks_valueLength sampleContext silentSample sampleFragment false 3 1
      "42".toList).2.1 (by decide)⟩

/-- C8: with an edit fragment open that has no converter (project document present),
`commitEdit` logs no commit callback and leaves the text document as it is; it logs
`contentsChangedManually` and a timer restart, then the removal of the section and
`editingStateChanged(false)`, and clears the fragment. -/
theorem commitEdit_plain_releases (ctx : Context) (s : DocumentHandler)
    (ef : DocumentEditFragment) (hef : s.m_editingFragment = some ef)
    (hconv : ef.converter = none) (hpd : s.m_projectDocument = true) :
    ∃ s1, s.commitEdit ctx = some s1 ∧ s1.m_targetDoc = s.m_targetDoc ∧
      s1.m_editingFragment = none ∧
      s1.m_log = s.m_log ++
        [Effect.contentsChangedManually, Effect.timerStart,
          Effect.removeSection ef.declaration.m_section, Effect.editingStateChanged false] ∧
      (∀ id v, Effect.commit id v ∉
        [Effect.contentsChangedManually, Effect.timerStart,
          Effect.removeSection ef.declaration.m_section, Effect.editingStateChanged false]) :=
  ⟨_, commitEdit_plain ctx s ef hef hconv hpd, rfl, rfl, rfl, by simp⟩

/-- C8 on `plainSample`. -/
theorem commitEdit_plain_releases_witness :
    ∃ s1, plainSample.commitEdit sampleContext = some s1 ∧
      s1.m_targetDoc = plainSample.m_targetDoc ∧ s1.m_editingFragment = none ∧
      s1.m_log = plainSample.m_log ++
        [Effect.contentsChangedManually, Effect.timerStart,
          Effect.removeSection (some sampleSection), Effect.editingStateChanged false] ∧
      (∀ id v, Effect.commit id v ∉
        [Effect.contentsChangedManually, Effect.timerStart,
          Effect.removeSection (some sampleSection), Effect.editingStateChanged false]) :=
  commitEdit_plain_releases sampleContext plainSample { sampleFragment with converter := none }
    rfl rfl rfl

/-- C9: `cancelEdit` with no fragment open returns the handler unchanged; with a fragment
open (project document present) it logs the removal of the section of the fragment and one
`editingStateChanged(false)`, clears the fragment and leaves the text document alone; a
second `cancelEdit` changes nothing, so two calls in a row equal one. -/
theorem cancelEdit_idempotent (s : DocumentHandler) :
    (s.m_editingFragment = none → s.cancelEdit = some s) ∧
    (∀ ef, s.m_editingFragment = some ef → s.m_projectDocument = true →
      ∃ s1, s.cancelEdit = some s1 ∧ s1.m_editingFragment = none ∧
        s1.m_log = s.m_log ++
          [Effect.removeSection ef.declaration.m_section, Effect.editingStateChanged false] ∧
        s1.m_targetDoc = s.m_targetDoc ∧ s1.m_palettes = s.m_palettes) ∧
    (∀ s1, s.cancelEdit = some s1 → s1.cancelEdit = some s1) ∧
    s.cancelEdit.bind DocumentHandler.cancelEdit = s.cancelEdit := by
  refine ⟨cancelEdit_none s, ?_, ?_, ?_⟩
  · intro ef hef hpd
    exact ⟨_, cancelEdit_open s ef hef hpd, rfl, rfl, rfl, rfl⟩
  · intro s1 h
    exact cancelEdit_none s1 (cancelEdit_result s s1 h).1
  · cases h : s.cancelEdit with
    | none => rfl
    | some s1 => exact cancelEdit_none s1 (cancelEdit_result s s1 h).1

/-- C9 on `closedSample` (nothing open) and on `openSample` (one fragment open). -/
theorem cancelEdit_idempotent_witness :
    closedSample.cancelEdit = some closedSample ∧
    (∃ s1, openSample.cancelEdit = some s1 ∧ s1.m_editingFragment = none ∧
      s1.m_log = openSample.m_log ++
        [Effect.removeSection sampleFragment.declaration.m_section,
          Effect.editingStateChanged false] ∧
      s1.m_targetDoc = openSample.m_targetDoc ∧ s1.m_palettes = openSample.m_palettes) ∧
    (closedSample.emit [Effect.removeSection (some sampleSection),
        Effect.editingStateChanged false]).cancelEdit =
      some (closedSample.emit [Effect.removeSection (some sampleSection),
        Effect.editingStateChanged false]) :=
  ⟨(cancelEdit_idempotent closedSample).1 rfl,
    (cancelEdit_idempotent openSample).2.1 sampleFragment rfl rfl,
    (cancelEdit_idempotent openSample).2.2.1 _ (by decide)⟩

/-- C10, as stated, fails: with project document, code handler and text document present, the
analyzer reports a declaration at position 0 and the registry has a converter for it, but the
code handler of `noChannelContext` yields no fragment; `edit` then dereferences the null
fragment and does not return true. -/
theorem edit_without_channel_not_true :
    closedSample.m_projectDocument = true ∧ closedSample.m_codeHandler = true ∧
    noChannelContext.getDeclarations { text := "x: 1".toList }
      (QTextCursor.start.setPosition { text := "x: 1".toList } 0 false) = [sampleDeclaration] ∧
    noChannelContext.findPalette sampleDeclaration.type
      (sampleDeclaration.parentType.headD "") = some { path := "IntEditor" } ∧
    closedSample.edit noChannelContext 0 0 = none := by
  decide

/-- C10, amended: with project document, code handler and text document present, `edit`
first cancels an open fragment. If the analyzer reports no declaration at the position, or
the registry has no converter for the first one, it returns false with the handler as the
cancel left it: no fragment open, no section created, no `editingStateChanged(true)`; every
false return is of this kind. If there is a declaration, a converter for it and the code
handler yields a fragment, it returns true, that fragment is the open edit fragment, and a
section was created at the position and length of its declaration and attached to it; every
true return is of this kind. -/
theorem edit_true_iff_declaration_converter_channel (ctx : Context) (s : DocumentHandler)
    (doc : QTextDocument) (position : Int) (currentApp : Nat)
    (hpd : s.m_projectDocument = true) (hch : s.m_codeHandler = true)
    (hdoc : s.m_targetDoc = some doc) :
    ∃ s0 log0, s.cancelEdit = some s0 ∧ s0.m_editingFragment = none ∧
      s0.m_log = s.m_log ++ log0 ∧
      (∀ e ∈ log0, (∀ t p l, e ≠ Effect.createSection t p l) ∧
        e ≠ Effect.editingStateChanged true) ∧
      ((ctx.getDeclarations doc (QTextCursor.start.setPosition doc position false) = [] ∨
          ∃ d rest,
            ctx.getDeclarations doc (QTextCursor.start.setPosition doc position false) =
              d :: rest ∧
            ctx.findPalette d.type (d.parentType.headD "") = none) →
        s.edit ctx position currentApp = some (false, s0)) ∧
      (∀ r, s.edit ctx position currentApp = some (false, r) → r = s0) ∧
      (∀ d rest converter ef,
        ctx.getDeclarations doc (QTextCursor.start.setPosition doc position false) = d :: rest →
        ctx.findPalette d.type (d.parentType.headD "") = some converter →
        ctx.createInjectionChannel d currentApp converter = some ef →
        ∃ r sec, s.edit ctx position currentApp = some (true, r) ∧
          r.m_editingFragment =
            some { ef with declaration := { ef.declaration with m_section := some sec } } ∧
          sec.m_type = ctx.Section ∧ sec.m_position = ef.declaration.position ∧
          sec.m_length = ef.declaration.length ∧ sec.m_userData = some ef.id ∧
          r.m_log = s0.m_log ++
            [Effect.createSection ctx.Section ef.declaration.position ef.declaration.length] ++
            rehighlightSection.loop (ef.valuePosition + ef.valueLength)
              (doc.blocksFrom ef.valuePosition) ++
            [Effect.cursorPositionRequest ef.valuePosition, Effect.editingStateChanged true]) ∧
      (∀ r, s.edit ctx position currentApp = some (true, r) →
        ∃ d rest converter ef,
          ctx.getDeclarations doc (QTextCursor.start.setPosition doc position false) =
            d :: rest ∧
          ctx.findPalette d.type (d.parentType.headD "") = some converter ∧
          ctx.createInjectionChannel d currentApp converter = some ef) := by
  obtain ⟨s0, log0, hs0, hfrag, hdoc0, hch0, hlog, hlog0⟩ := cancelEdit_some s hpd
  have hedit := edit_after_cancel ctx s s0 doc position currentApp hpd hch hs0
    (hdoc0.trans hdoc) (hch0.trans hch)
  refine ⟨s0, log0, hs0, hfrag, hlog, hlog0, ?_, ?_, ?_, ?_⟩
  · rintro (hnil | ⟨d, rest, hd, hconv⟩)
    · rw [hedit, hnil]
    · rw [hedit, hd]
      simp only [hconv]
  · intro r hr
    rw [hedit] at hr
    cases hd : ctx.getDeclarations doc (QTextCursor.start.setPosition doc position false) with
    | nil =>
      rw [hd] at hr
      simp only [Option.some.injEq, Prod.mk.injEq, true_and] at hr
      exact hr.symm
    | cons d rest =>
      rw [hd] at hr
      simp only [] at hr
      cases hconv : ctx.findPalette d.type (d.parentType.headD "") with
      | none =>
        rw [hconv] at hr
        simp only [Option.some.injEq, Prod.mk.injEq, true_and] at hr
        exact hr.symm
      | some converter =>
        rw [hconv] at hr
        simp only [] at hr
        cases hchan : ctx.createInjectionChannel d currentApp converter with
        | none =>
          rw [hchan] at hr
          cases hr
        | some ef =>
          rw [hchan] at hr
          simp at hr
  · intro d rest converter ef hd hconv hchan
    rw [hedit, hd]
    simp only [hconv, hchan]
    exact ⟨_, ((ProjectDocumentSection.new true ctx.Section ef.declaration.position
      ef.declaration.length).setUserData (some ef.id)).onTextChanged
        (SectionHandler.editFragment ef.id), rfl, rfl, rfl, rfl, rfl, rfl, rfl⟩
  · intro r hr
    rw [hedit] at hr
    cases hd : ctx.getDeclarations doc (QTextCursor.start.setPosition doc position false) with
    | nil =>
      rw [hd] at hr
      simp at hr
    | cons d rest =>
      rw [hd] at hr
      simp only [] at hr
      cases hconv : ctx.findPalette d.type (d.parentType.headD "") with
      | none =>
        rw [hconv] at hr
        simp at hr
      | some converter =>
        rw [hconv] at hr
        simp only [] at hr
        cases hchan : ctx.createInjectionChannel d currentApp converter with
        | none =>
          rw [hchan] at hr
          cases hr
        | some ef => exact ⟨d, rest, converter, ef, rfl, hconv, hchan⟩

/-- C10, amended, on `closedSample`: `edit(0)` with the collaborators of `sampleContext`
cancels nothing and opens the fragment of the declaration at position 0. -/
theorem edit_true_iff_declaration_converter_channel_witness :
    closedSample.m_projectDocument = true ∧ closedSample.m_codeHandler = true ∧
    closedSample.m_targetDoc = some { text := "x: 1".toList } ∧
    closedSample.edit sampleContext 0 0 =
      some (true, openSample.emit [Effect.createSection 1 0 4, Effect.rehighlightBlock 0,
        Effect.cursorPositionRequest 3, Effect.editingStateChanged true]) ∧
    ∃ s0 log0, closedSample.cancelEdit = some s0 ∧ s0.m_editingFragment = none ∧
      s0.m_log = closedSample.m_log ++ log0 ∧
      (∀ r, closedSample.edit sampleContext 0 0 = some (true, r) →
        ∃ d rest converter ef,
          sampleContext.getDeclarations { text := "x: 1".toList }
            (QTextCursor.start.setPosition { text := "x: 1".toList } 0 false) = d :: rest ∧
          sampleContext.findPalette d.type (d.parentType.headD "") = some converter ∧
          sampleContext.createInjectionChannel d 0 converter = some ef) := by
  refine ⟨rfl, rfl, rfl, by decide, ?_⟩
  obtain ⟨s0, log0, h1, h2, h3, _, _, _, _, h8⟩ :=
    edit_true_iff_declaration_converter_channel sampleContext closedSample
      { text := "x: 1".toList } 0 0 rfl rfl rfl
  exact ⟨s0, log0, h1, h2, h3, h8⟩

/-! ## The closure of a palette fragment -/

theorem removeEditingPalette_loop_found (s : DocumentHandler) (palette : DocumentEditFragment)
    (passed before after : List DocumentEditFragment) (listed : DocumentEditFragment)
    (hpd : s.m_projectDocument = true) (hid : listed.id = palette.id)
    (hbefore : ∀ g ∈ before, g.id ≠ palette.id) :
    removeEditingPalette.loop s palette passed (before ++ listed :: after) =
      some ({ s with m_palettes := passed ++ before ++ after }.emit
        [Effect.paletteAboutToRemove palette.converter,
          Effect.removeSection palette.declaration.m_section]) := by
  induction before generalizing passed with
  | nil => simp [removeEditingPalette.loop, hid, hpd]
  | cons g rest ih =>
    have hg : g.id ≠ palette.id := hbefore g (List.mem_cons_self g rest)
    have hrest : ∀ x ∈ rest, x.id ≠ palette.id :=
      fun x hx => hbefore x (List.mem_cons_of_mem g hx)
    have h := ih (passed ++ [g]) hrest
    simp only [List.cons_append, removeEditingPalette.loop, if_neg hg]
    simpa using h

theorem removeEditingPalette_loop_absent (s : DocumentHandler) (palette : DocumentEditFragment)
    (passed rest : List DocumentEditFragment) (hrest : ∀ g ∈ rest, g.id ≠ palette.id) :
    removeEditingPalette.loop s palette passed rest = some s := by
  induction rest generalizing passed with
  | nil => rfl
  | cons g rest ih =>
    have hg : g.id ≠ palette.id := hrest g (List.mem_cons_self g rest)
    simp only [removeEditingPalette.loop, if_neg hg]
    exact ih (passed ++ [g]) (fun x hx => hrest x (List.mem_cons_of_mem g hx))

theorem land_lor_self (state flag : Nat) : flag &&& (state ||| flag) = flag := by
  apply Nat.eq_of_testBit_eq
  intro i
  simp only [Nat.testBit_land, Nat.testBit_lor]
  cases flag.testBit i <;> simp

theorem land_xor_land (state flag : Nat) : flag &&& (state ^^^ (state &&& flag)) = 0 := by
  apply Nat.eq_of_testBit_eq
  intro i
  simp only [Nat.testBit_land, Nat.testBit_xor, Nat.zero_testBit]
  cases flag.testBit i <;> cases state.testBit i <;> rfl

theorem addEditingState_is (s : DocumentHandler) (flag : Nat) :
    (s.addEditingState flag).editingStateIs flag = true := by
  simp [DocumentHandler.addEditingState, DocumentHandler.editingStateIs, land_lor_self]

theorem removeEditingState_is (s : DocumentHandler) (flag : Nat) (hflag : flag ≠ 0) :
    (s.removeEditingState flag).editingStateIs flag = false := by
  simp only [DocumentHandler.removeEditingState, DocumentHandler.editingStateIs, land_xor_land]
  simpa using hflag.symm

/-- While `Read` is set the slot ignores every signal: only the text of the document moves. -/
theorem contentsChange_read (ctx : Context) (signals : List ContentsChange)
    (s : DocumentHandler) (hRead : s.editingStateIs ctx.Read = true) :
    ∃ doc, s.contentsChange ctx signals = some { s with m_targetDoc := doc } := by
  induction signals generalizing s with
  | nil => exact ⟨s.m_targetDoc, rfl⟩
  | cons c rest ih =>
    have h1 : ({ s with m_targetDoc := some { text := c.text } } :
        DocumentHandler).editingStateIs ctx.Read = true := hRead
    obtain ⟨doc, hdoc⟩ := ih { s with m_targetDoc := some { text := c.text } } h1
    refine ⟨doc, ?_⟩
    simp only [DocumentHandler.contentsChange]
    rw [documentContentsChanged_read ctx _ _ _ _ h1]
    exact hdoc

/-- A foreign author: `documentUpdatedContent` repopulates the document with `Read` set, so the
result does not depend on the signals of the write, and `Read` is clear afterwards. -/
theorem documentUpdatedContent_foreign (ctx : Context) (s : DocumentHandler)
    (doc : QTextDocument) (content : QString) (signals : List ContentsChange)
    (hdoc : s.m_targetDoc = some doc) (hpd : s.m_projectDocument = true) :
    s.documentUpdatedContent ctx true content signals =
      some (DocumentHandler.updateFragmentLines
        (DocumentHandler.removeEditingState
          { s.addEditingState ctx.Read with m_targetDoc := some { text := blockText content } }
          ctx.Read)) := by
  obtain ⟨doc1, h1⟩ := contentsChange_read ctx signals (s.addEditingState ctx.Read)
    (addEditingState_is s ctx.Read)
  have h2 : (s.addEditingState ctx.Read).m_targetDoc = some doc := hdoc
  have h3 : (s.addEditingState ctx.Read).m_projectDocument = true := hpd
  simp only [DocumentHandler.documentUpdatedContent, if_true, h3, DocumentHandler.setPlainText,
    h2, h1]

/-- C12, amended: in the `Palette` state with `Runtime` not set, the closure that `openPalette`
installs does not read a value from the text. When `Silent` is set as well, it updates
`valueLength`, passes the value the palette holds to the commit callback of the fragment (when
the fragment has a palette) and leaves the list of open palettes and the section as they are.
When `Silent` is not set, it removes the fragment from the list and releases its section.
`addEditingState(Palette)` makes `Palette` set, and `paletteValueChanged` runs the slot for
the signals of its write from that state and clears `Palette` afterwards. -/
theorem openPalette_onTextChanged_in_palette_state (ctx : Context) (this : DocumentHandler)
    (ef : DocumentEditFragment) (isErase : Bool) (position charsRemoved : Int)
    (addedText : QString) (hpal : this.editingStateIs ctx.Palette = true)
    (hrun : this.editingStateIs ctx.Runtime = false) :
    (this.editingStateIs ctx.Silent = true →
      ∃ this1 ef1,
        openPalette.onTextChanged ctx this ef isErase position charsRemoved addedText =
          some (this1, ef1) ∧
        ef1.valueLength = ef.valueLength - charsRemoved + addedText.length ∧
        this1.m_palettes = this.m_palettes ∧
        this1.m_log = this.m_log ++
          (match ef.converter with
            | some lp => [Effect.commit ef.id (ctx.value lp)]
            | none => [])) ∧
    (this.editingStateIs ctx.Silent = false → this.m_projectDocument = true →
      ∀ before after listed, this.m_palettes = before ++ listed :: after →
      listed.id = ef.id → (∀ g ∈ before, g.id ≠ ef.id) →
      ∃ this1,
        openPalette.onTextChanged ctx this ef isErase position charsRemoved addedText =
          some (this1, ef) ∧
        this1.m_palettes = before ++ after ∧
        this1.m_log = this.m_log ++
          [Effect.paletteAboutToRemove ef.converter,
            Effect.removeSection ef.declaration.m_section]) ∧
    (∀ s : DocumentHandler, (s.addEditingState ctx.Palette).editingStateIs ctx.Palette = true) ∧
    (∀ (s : DocumentHandler) frg palette doc signals, frg.converter = some palette →
      ctx.toCode palette (ctx.value palette) frg ≠ [] → s.m_targetDoc = some doc →
      ∃ text, s.paletteValueChanged ctx frg signals =
        ((s.addEditingState ctx.Palette).contentsChange ctx signals).map
          (fun s1 => DocumentHandler.removeEditingState
            { s1 with m_targetDoc := some { text := text } } ctx.Palette)) := by
  refine ⟨?_, ?_, fun s => addEditingState_is s ctx.Palette, ?_⟩
  · intro hsil
    cases hconv : ef.converter with
    | none =>
      simp only [openPalette.onTextChanged, hrun, hsil, hpal, hconv]
      exact ⟨_, _, rfl, rfl, rfl, by simp⟩
    | some lp =>
      simp only [openPalette.onTextChanged, hrun, hsil, hpal, hconv]
      exact ⟨_, _, rfl, rfl, rfl, rfl⟩
  · intro hsil hpd before after listed hlist hid hbefore
    refine ⟨{ this with m_palettes := before ++ after }.emit
        [Effect.paletteAboutToRemove ef.converter,
          Effect.removeSection ef.declaration.m_section], ?_, rfl, rfl⟩
    have h := removeEditingPalette_loop_found this ef [] before after listed hpd hid hbefore
    simp only [List.nil_append] at h
    simp [openPalette.onTextChanged, hrun, hsil, DocumentHandler.removeEditingPalette,
      hlist, h]
  · intro s frg palette doc signals hconv hcode hdoc
    have h2 : (s.addEditingState ctx.Palette).m_targetDoc = some doc := hdoc
    simp only [DocumentHandler.paletteValueChanged, hconv, h2]
    rw [if_pos hcode]
    cases (s.addEditingState ctx.Palette).contentsChange ctx signals with
    | none => exact ⟨[], rfl⟩
    | some s1 => exact ⟨_, rfl⟩

/-- C12, as stated, fails. `paletteValueChanged` on `openedPaletteSample` writes the code `7`
over the value with `Palette` set. Where `Palette` includes the bit of `Silent`
(`sampleContext`) the slot passes the delta on silently, and the closure of the fragment,
run in that state, commits the value the palette holds: it does not read a value from the
text (no `setValueFromCode`). Where the states share no bit (`flatContext`) the slot takes
the full path and the closure removes the fragment from the list and its section. -/
theorem paletteValueChanged_value_not_read_from_text :
    (openedPaletteSample.paletteValueChanged sampleContext openedPalette [valueReplaced]).map
        (fun s => s.m_log) = some [Effect.documentContentsSilentChanged 3 1 "7".toList] ∧
    (changedPaletteSample.addEditingState sampleContext.Palette).editingStateIs
      sampleContext.Palette = true ∧
    openPalette.onTextChanged sampleContext
        (changedPaletteSample.addEditingState sampleContext.Palette) openedPalette false 3 1
        "7".toList =
      some ((changedPaletteSample.addEditingState sampleContext.Palette).emit
        [Effect.commit 5 (QVariant.integer 7)], openedPalette) ∧
    (openedPaletteSample.paletteValueChanged flatContext openedPalette [valueReplaced]).map
        (fun s => s.m_log) =
      some [Effect.documentContentsChanged 3 1 "7".toList, Effect.contentsChangedManually,
        Effect.timerStart] ∧
    (changedPaletteSample.addEditingState flatContext.Palette).editingStateIs
      flatContext.Palette = true ∧
    (openPalette.onTextChanged flatContext
        (changedPaletteSample.addEditingState flatContext.Palette) openedPalette false 3 1
        "7".toList).map (fun r => (r.1.m_palettes, r.1.m_log)) =
      some ([], [Effect.paletteAboutToRemove (some { path := "ColorPalette" }),
        Effect.removeSection (some paletteSection)]) := by
  decide

/-- C12, amended, on `changedPaletteSample` with the `Palette` state of `sampleContext`
(which includes `Silent`) and with that of `flatContext` (which does not). -/
theorem openPalette_onTextChanged_in_palette_state_witness :
    (∃ this1 ef1,
      openPalette.onTextChanged sampleContext
          (changedPaletteSample.addEditingState sampleContext.Palette) openedPalette false 3 1
          "7".toList = some (this1, ef1) ∧
      ef1.valueLength = openedPalette.valueLength - 1 + ("7".toList.length : Int) ∧
      this1.m_palettes = (changedPaletteSample.addEditingState sampleContext.Palette).m_palettes ∧
      this1.m_log = (changedPaletteSample.addEditingState sampleContext.Palette).m_log ++
        (match openedPalette.converter with
          | some lp => [Effect.commit openedPalette.id (sampleContext.value lp)]
          | none => [])) ∧
    (∃ this1,
      openPalette.onTextChanged flatContext
          (changedPaletteSample.addEditingState flatContext.Palette) openedPalette false 3 1
          "7".toList = some (this1, openedPalette) ∧
      this1.m_palettes = [] ++ [] ∧
      this1.m_log = (changedPaletteSample.addEditingState flatContext.Palette).m_log ++
        [Effect.paletteAboutToRemove openedPalette.converter,
          Effect.removeSection openedPalette.declaration.m_section]) :=
  ⟨(openPalette_onTextChanged_in_palette_state sampleContext
      (changedPaletteSample.addEditingState sampleContext.Palette) openedPalette false 3 1
      "7".toList (by decide) (by decide)).1 (by decide),
    (openPalette_onTextChanged_in_palette_state flatContext
      (changedPaletteSample.addEditingState flatContext.Palette) openedPalette false 3 1
      "7".toList (by decide) (by decide)).2.1 (by decide) rfl [] [] openedPalette rfl rfl
      (by simp)⟩

/-- C13, the code at a failing input: `readContent` repopulates the buffer `x: 42` of
`typedSample` with the content `x: 7` while `Read` is clear. The slot takes the signal of the
write for a manual edit: the open fragment is cancelled, the delta is forwarded to the
project document, `contentsChangedManually` is emitted and the timer restarted. The same
repopulation by `documentUpdatedContent` for a foreign author runs with `Read` set: the
fragment stays open, nothing is logged and the editing state is as before. -/
theorem readContent_repopulates_without_read :
    typedSample.editingStateIs sampleContext.Read = false ∧
    typedSample.readContent sampleContext "x: 7".toList [bufferReplaced] =
      some ({ typedSample with
          m_targetDoc := some { text := "x: 7".toList }
          m_editingFragment := none }.emit
        [Effect.removeSection (some sampleSection), Effect.editingStateChanged false,
          Effect.documentContentsChanged 0 5 "x: 7".toList, Effect.contentsChangedManually,
          Effect.timerStart]) ∧
    typedSample.documentUpdatedContent sampleContext true "x: 7".toList [bufferReplaced] =
      some { typedSample with m_targetDoc := some { text := "x: 7".toList } } := by
  decide

/-! ## Bindings: `bind` and `unbind` -/

theorem bindingAt_eq_none (bindings : List CodeRuntimeBinding) (position : Int) :
    bindingAt bindings position = none ↔ ∀ b ∈ bindings, b.position ≠ position := by
  simp [bindingAt]

theorem bindingAt_isSome (bindings : List CodeRuntimeBinding) (position : Int) :
    (bindingAt bindings position).isSome = true ↔ ∃ b ∈ bindings, b.position = position := by
  cases h : bindingAt bindings position with
  | none =>
    have h1 := (bindingAt_eq_none bindings position).mp h
    simp only [Option.isSome_none, Bool.false_eq_true, false_iff, not_exists, not_and]
    exact h1
  | some b =>
    simp only [Option.isSome_some, true_iff]
    by_contra hne
    have h1 : bindingAt bindings position = none :=
      (bindingAt_eq_none bindings position).mpr (fun b hb hp => hne ⟨b, hb, hp⟩)
    rw [h] at h1
    cases h1

/-- The result of `removeBindingAt` tells whether a binding was at the position. -/
theorem removeBindingAt_fst (bindings : List CodeRuntimeBinding) (position : Int) :
    (removeBindingAt bindings position).1 = (bindingAt bindings position).isSome := by
  unfold removeBindingAt
  split
  · rename_i h
    simp [h]
  · rename_i h
    simpa using h

/-- Whether or not a binding was there, after `removeBindingAt` none is at the position. -/
theorem removeBindingAt_snd (bindings : List CodeRuntimeBinding) (position : Int) :
    (removeBindingAt bindings position).2 =
      bindings.filter (fun b => decide (b.position ≠ position)) := by
  unfold removeBindingAt
  split
  · rfl
  · rename_i h
    have h1 : bindingAt bindings position = none := by
      cases h2 : bindingAt bindings position with
      | none => rfl
      | some b => simp [h2] at h
    have h3 := (bindingAt_eq_none bindings position).mp h1
    symm
    rw [List.filter_eq_self]
    intro b hb
    simpa using h3 b hb

theorem filter_position_length (bindings : List CodeRuntimeBinding) (position : Int)
    (huniq : (bindings.map CodeRuntimeBinding.position).Nodup)
    (hbound : ∃ b ∈ bindings, b.position = position) :
    (bindings.filter (fun b => decide (b.position ≠ position))).length + 1 =
      bindings.length := by
  induction bindings with
  | nil =>
    obtain ⟨b, hb, _⟩ := hbound
    cases hb
  | cons a rest ih =>
    simp only [List.map_cons, List.nodup_cons] at huniq
    by_cases ha : a.position = position
    · have hrest : ∀ b ∈ rest, b.position ≠ position := by
        intro b hb hp
        exact huniq.1 (List.mem_map.mpr ⟨b, hb, hp.trans ha.symm⟩)
      have hself : rest.filter (fun b => decide (b.position ≠ position)) = rest := by
        rw [List.filter_eq_self]
        intro b hb
        simpa using hrest b hb
      rw [List.filter_cons_of_neg (by simpa using ha), hself]
      rfl
    · have hb2 : ∃ b ∈ rest, b.position = position := by
        obtain ⟨b, hb, hp⟩ := hbound
        rcases List.mem_cons.mp hb with h | h
        · exact absurd (h ▸ hp) ha
        · exact ⟨b, h, hp⟩
      have h1 := ih huniq.2 hb2
      rw [List.filter_cons_of_pos (by simpa using ha)]
      simp only [List.length_cons]
      omega

theorem filter_position_nodup (bindings : List CodeRuntimeBinding)
    (p : CodeRuntimeBinding → Bool)
    (huniq : (bindings.map CodeRuntimeBinding.position).Nodup) :
    ((bindings.filter p).map CodeRuntimeBinding.position).Nodup :=
  List.Nodup.sublist ((List.filter_sublist bindings).map CodeRuntimeBinding.position) huniq

/-- One step of the loop of `unbind`, the same in both branches. -/
theorem unbind_loop_cons (doc : QTextDocument) (cde : CodeDeclaration)
    (rest : List CodeDeclaration) (s : DocumentHandler) :
    unbind.loop doc (cde :: rest) s =
      unbind.loop doc rest
        { s with
          m_bindings := s.m_bindings.filter (fun b => decide (b.position ≠ cde.position))
          m_log := s.m_log ++
            (if (bindingAt s.m_bindings cde.position).isSome then
              [rehighlightBlockAt doc cde.position] else []) } := by
  by_cases hb : (bindingAt s.m_bindings cde.position).isSome = true
  · have hfst : (removeBindingAt s.m_bindings cde.position).1 = true := by
      rw [removeBindingAt_fst]; exact hb
    simp only [unbind.loop, hfst, if_true, removeBindingAt_snd, hb, DocumentHandler.emit]
  · have hfst : (removeBindingAt s.m_bindings cde.position).1 = false := by
      rw [removeBindingAt_fst]; simpa using hb
    have hsnd := removeBindingAt_snd s.m_bindings cde.position
    have h2 : (removeBindingAt s.m_bindings cde.position).2 = s.m_bindings := by
      unfold removeBindingAt
      rw [if_neg hb]
    rw [h2] at hsnd
    simp only [unbind.loop, hfst, Bool.false_eq_true, if_false, hb, List.append_nil, ← hsnd]

/-- What the loop of `unbind` does: the bindings at the positions of the declarations are
taken out, and the log grows by one rehighlight for each binding found. -/
theorem unbind_loop_spec (doc : QTextDocument) (decls : List CodeDeclaration)
    (s : DocumentHandler)
    (huniq : (s.m_bindings.map CodeRuntimeBinding.position).Nodup) :
    ∃ R, (unbind.loop doc decls s).m_log = s.m_log ++ R ∧
      (unbind.loop doc decls s).m_bindings = s.m_bindings.filter
        (fun b => decide (b.position ∉ decls.map CodeDeclaration.position)) ∧
      (∀ e ∈ R, ∃ d ∈ decls, (bindingAt s.m_bindings d.position).isSome = true ∧
        e = rehighlightBlockAt doc d.position) ∧
      (∀ d ∈ decls, (bindingAt s.m_bindings d.position).isSome = true →
        rehighlightBlockAt doc d.position ∈ R) ∧
      R.length + (unbind.loop doc decls s).m_bindings.length = s.m_bindings.length := by
  induction decls generalizing s with
  | nil => exact ⟨[], by simp [unbind.loop], by simp [unbind.loop], by simp, by simp,
      by simp [unbind.loop]⟩
  | cons cde rest ih =>
    rw [unbind_loop_cons]
    obtain ⟨R, hlog, hbind, hR1, hR2, hlen⟩ := ih
      { s with
        m_bindings := s.m_bindings.filter (fun b => decide (b.position ≠ cde.position))
        m_log := s.m_log ++
          (if (bindingAt s.m_bindings cde.position).isSome then
            [rehighlightBlockAt doc cde.position] else []) }
      (filter_position_nodup _ _ huniq)
    simp only at hlog hbind hR1 hR2 hlen
    refine ⟨(if (bindingAt s.m_bindings cde.position).isSome then
        [rehighlightBlockAt doc cde.position] else []) ++ R, ?_, ?_, ?_, ?_, ?_⟩
    · rw [hlog, List.append_assoc]
    · rw [hbind, List.filter_filter]
      apply List.filter_congr
      intro b _
      simp only [List.map_cons, List.mem_cons, not_or, Bool.decide_and, Bool.and_comm]
    · intro e he
      rcases List.mem_append.mp he with h | h
      · by_cases hb : (bindingAt s.m_bindings cde.position).isSome = true
        · rw [if_pos hb] at h
          exact ⟨cde, List.mem_cons_self _ _, hb, List.mem_singleton.mp h⟩
        · rw [if_neg hb] at h
          cases h
      · obtain ⟨d, hd, hsome, hed⟩ := hR1 e h
        refine ⟨d, List.mem_cons_of_mem _ hd, ?_, hed⟩
        rw [bindingAt_isSome] at hsome ⊢
        obtain ⟨b, hbm, hbp⟩ := hsome
        exact ⟨b, (List.mem_filter.mp hbm).1, hbp⟩
    · intro d hd hsome
      by_cases hp : d.position = cde.position
      · apply List.mem_append_left
        rw [hp] at hsome ⊢
        rw [if_pos hsome]
        exact List.mem_singleton_self _
      · rcases List.mem_cons.mp hd with h | h
        · exact absurd (by rw [h]) hp
        · apply List.mem_append_right
          apply hR2 d h
          rw [bindingAt_isSome] at hsome ⊢
          obtain ⟨b, hbm, hbp⟩ := hsome
          refine ⟨b, List.mem_filter.mpr ⟨hbm, ?_⟩, hbp⟩
          simpa [hbp] using hp
    · rw [hbind] at hlen ⊢
      by_cases hb : (bindingAt s.m_bindings cde.position).isSome = true
      · have h1 := filter_position_length s.m_bindings cde.position huniq
          ((bindingAt_isSome _ _).mp hb)
        rw [if_pos hb]
        simp only [List.length_append, List.length_singleton]
        omega
      · have hnone : ∀ b ∈ s.m_bindings, b.position ≠ cde.position := by
          intro b hbm hbp
          exact hb ((bindingAt_isSome _ _).mpr ⟨b, hbm, hbp⟩)
        have hself : s.m_bindings.filter (fun b => decide (b.position ≠ cde.position)) =
            s.m_bindings := by
          rw [List.filter_eq_self]
          intro b hbm
          simpa using hnone b hbm
        rw [if_neg hb]
        rw [hself] at hlen ⊢
        simpa using hlen

/-- Where no declaration is bound the loop of `unbind` changes nothing. -/
theorem unbind_loop_unbound (doc : QTextDocument) (decls : List CodeDeclaration)
    (s : DocumentHandler)
    (hfree : ∀ d ∈ decls, bindingAt s.m_bindings d.position = none) :
    unbind.loop doc decls s = s := by
  induction decls with
  | nil => rfl
  | cons cde rest ih =>
    have h1 : (removeBindingAt s.m_bindings cde.position).1 = false := by
      rw [removeBindingAt_fst, hfree cde (List.mem_cons_self _ _)]
      rfl
    simp only [unbind.loop, h1, Bool.false_eq_true, if_false]
    exact ih (fun d hd => hfree d (List.mem_cons_of_mem _ hd))

/-- The loop of `unbind` touches the bindings and the log only. -/
theorem unbind_loop_frame (doc : QTextDocument) (decls : List CodeDeclaration)
    (s : DocumentHandler) :
    (unbind.loop doc decls s).m_targetDoc = s.m_targetDoc ∧
      (unbind.loop doc decls s).m_projectDocument = s.m_projectDocument ∧
      (unbind.loop doc decls s).m_codeHandler = s.m_codeHandler := by
  induction decls generalizing s with
  | nil => exact ⟨rfl, rfl, rfl⟩
  | cons cde rest ih =>
    rw [unbind_loop_cons]
    exact ih _

/-- The first loop of `bind` keeps the positions of the bindings distinct. -/
theorem bind_loop_nodup (ctx : Context) (decls : List CodeDeclaration)
    (bindings added : List CodeRuntimeBinding)
    (huniq : (bindings.map CodeRuntimeBinding.position).Nodup) :
    (((bind.loop ctx decls bindings added).1).map CodeRuntimeBinding.position).Nodup := by
  induction decls generalizing bindings added with
  | nil => exact huniq
  | cons cde rest ih =>
    simp only [bind.loop]
    cases hc : ctx.findPaletteForParents cde.type cde.parentType with
    | none => exact ih bindings added huniq
    | some cvt =>
      simp only []
      by_cases hb : (bindingAt bindings cde.position).isSome = true
      · have h1 : (addNewBinding bindings { declaration := cde, converter := some cvt }).1 =
            false := by
          simp [addNewBinding, CodeRuntimeBinding.position, hb]
        rw [h1]
        exact ih bindings added huniq
      · have h0 : bindingAt bindings cde.position = none := by
          cases h2 : bindingAt bindings cde.position with
          | none => rfl
          | some b => simp [h2] at hb
        have h1 : addNewBinding bindings { declaration := cde, converter := some cvt } =
            (true, bindings ++ [{ declaration := cde, converter := some cvt }]) := by
          simp [addNewBinding, CodeRuntimeBinding.position, h0]
        rw [h1]
        simp only [if_true]
        apply ih
        rw [List.map_append, List.nodup_append]
        refine ⟨huniq, by simp, ?_⟩
        intro p hp hq
        simp only [List.map_cons, List.map_nil, List.mem_singleton] at hq
        obtain ⟨b, hbm, hbp⟩ := List.mem_map.mp hp
        exact (bindingAt_eq_none bindings cde.position).mp h0 b hbm (hbp.trans hq)

/-- The facts about one `unbind`, for a binding list with distinct positions. -/
theorem unbind_spec (ctx : Context) (s : DocumentHandler) (doc : QTextDocument)
    (position length : Int)
    (hpd : s.m_projectDocument = true) (hch : s.m_codeHandler = true)
    (hdoc : s.m_targetDoc = some doc)
    (huniq : (s.m_bindings.map CodeRuntimeBinding.position).Nodup) :
    ∃ s1 R, s.unbind ctx position length = some s1 ∧ s1.m_log = s.m_log ++ R ∧
      (∀ e ∈ R, ∃ d ∈ ctx.getDeclarations doc (rangeCursor doc position length),
        (bindingAt s.m_bindings d.position).isSome = true ∧
        e = rehighlightBlockAt doc d.position) ∧
      (∀ d ∈ ctx.getDeclarations doc (rangeCursor doc position length),
        (bindingAt s.m_bindings d.position).isSome = true →
        rehighlightBlockAt doc d.position ∈ R) ∧
      R.length + s1.m_bindings.length = s.m_bindings.length ∧
      (∀ d ∈ ctx.getDeclarations doc (rangeCursor doc position length),
        bindingAt s1.m_bindings d.position = none) ∧
      s1.unbind ctx position length = some s1 := by
  obtain ⟨R, hlog, hbind, hR1, hR2, hlen⟩ :=
    unbind_loop_spec doc (ctx.getDeclarations doc (rangeCursor doc position length)) s huniq
  obtain ⟨f1, f2, f3⟩ :=
    unbind_loop_frame doc (ctx.getDeclarations doc (rangeCursor doc position length)) s
  have hfree : ∀ d ∈ ctx.getDeclarations doc (rangeCursor doc position length),
      bindingAt (unbind.loop doc (ctx.getDeclarations doc (rangeCursor doc position length))
        s).m_bindings d.position = none := by
    intro d hd
    rw [bindingAt_eq_none, hbind]
    intro b hb hp
    have h1 := (List.mem_filter.mp hb).2
    simp only [decide_eq_true_eq] at h1
    exact h1 (List.mem_map.mpr ⟨d, hd, hp.symm⟩)
  refine ⟨_, R, ?_, hlog, hR1, hR2, hlen, hfree, ?_⟩
  · simp [DocumentHandler.unbind, hpd, hch, hdoc]
  · simp only [DocumentHandler.unbind, f1, f2, f3, hpd, hch, hdoc]
    simp only [Bool.not_true, Bool.or_self, Bool.false_eq_true, if_false]
    rw [unbind_loop_unbound doc _ _ hfree]

/-- With the pointers set, `bind` returns, keeps them set and keeps the positions of the
bindings distinct. -/
theorem bind_spec (ctx : Context) (s : DocumentHandler) (doc : QTextDocument)
    (position length : Int) (object : Bool)
    (hpd : s.m_projectDocument = true) (hch : s.m_codeHandler = true)
    (hdoc : s.m_targetDoc = some doc)
    (huniq : (s.m_bindings.map CodeRuntimeBinding.position).Nodup) :
    ∃ s2, s.bind ctx position length object = some s2 ∧ s2.m_projectDocument = true ∧
      s2.m_codeHandler = true ∧ s2.m_targetDoc = some doc ∧
      (s2.m_bindings.map CodeRuntimeBinding.position).Nodup := by
  have hn := bind_loop_nodup ctx (ctx.getDeclarations doc (rangeCursor doc position length))
    s.m_bindings [] huniq
  cases object with
  | false =>
    simp only [DocumentHandler.bind, hpd, hch, hdoc, Bool.not_true, Bool.or_self,
      Bool.false_eq_true, if_false]
    exact ⟨_, rfl, rfl, rfl, rfl, hn⟩
  | true =>
    simp only [DocumentHandler.bind, hpd, hch, hdoc, Bool.not_true, Bool.or_self,
      Bool.false_eq_true, if_false, if_true]
    exact ⟨_, rfl, rfl, rfl, rfl, hn⟩

/-- C14: with the pointers set and the positions of the bindings distinct, `unbind` logs
rehighlights only: each belongs to a declaration of the range that had a binding, each
declaration that had one gets its rehighlight, and their number is the number of bindings
removed; afterwards no declaration of the range has a binding and a second `unbind` on the
range returns the handler unchanged. The same holds for the `unbind` that follows a `bind` on
the range. -/
theorem unbind_one_rehighlight_per_removed_binding (ctx : Context) (s : DocumentHandler)
    (doc : QTextDocument) (position length : Int)
    (hpd : s.m_projectDocument = true) (hch : s.m_codeHandler = true)
    (hdoc : s.m_targetDoc = some doc)
    (huniq : (s.m_bindings.map CodeRuntimeBinding.position).Nodup) :
    (∃ s1 R, s.unbind ctx position length = some s1 ∧ s1.m_log = s.m_log ++ R ∧
      (∀ e ∈ R, ∃ d ∈ ctx.getDeclarations doc (rangeCursor doc position length),
        (bindingAt s.m_bindings d.position).isSome = true ∧
        e = rehighlightBlockAt doc d.position) ∧
      (∀ d ∈ ctx.getDeclarations doc (rangeCursor doc position length),
        (bindingAt s.m_bindings d.position).isSome = true →
        rehighlightBlockAt doc d.position ∈ R) ∧
      R.length + s1.m_bindings.length = s.m_bindings.length ∧
      (∀ d ∈ ctx.getDeclarations doc (rangeCursor doc position length),
        bindingAt s1.m_bindings d.position = none) ∧
      s1.unbind ctx position length = some s1) ∧
    (∀ object, ∃ s2 s3 R3, s.bind ctx position length object = some s2 ∧
      s2.unbind ctx position length = some s3 ∧ s3.m_log = s2.m_log ++ R3 ∧
      (∀ e ∈ R3, ∃ d ∈ ctx.getDeclarations doc (rangeCursor doc position length),
        (bindingAt s2.m_bindings d.position).isSome = true ∧
        e = rehighlightBlockAt doc d.position) ∧
      (∀ d ∈ ctx.getDeclarations doc (rangeCursor doc position length),
        (bindingAt s2.m_bindings d.position).isSome = true →
        rehighlightBlockAt doc d.position ∈ R3) ∧
      R3.length + s3.m_bindings.length = s2.m_bindings.length ∧
      (∀ d ∈ ctx.getDeclarations doc (rangeCursor doc position length),
        bindingAt s3.m_bindings d.position = none) ∧
      s3.unbind ctx position length = some s3) := by
  refine ⟨unbind_spec ctx s doc position length hpd hch hdoc huniq, ?_⟩
  intro object
  obtain ⟨s2, hs2, hpd2, hch2, hdoc2, huniq2⟩ :=
    bind_spec ctx s doc position length object hpd hch hdoc huniq
  obtain ⟨s3, R3, h⟩ := unbind_spec ctx s2 doc position length hpd2 hch2 hdoc2 huniq2
  exact ⟨s2, s3, R3, hs2, h⟩

/-- C14 on `closedSample` and the range (0, 0), which holds the declaration at position 0:
`bind` adds its binding, the `unbind` that follows removes it with one rehighlight of the
block at 0, and a further `unbind` changes nothing. -/
theorem unbind_one_rehighlight_per_removed_binding_witness :
    ((closedSample.bind sampleContext 0 0 false).map
        (fun s => (s.m_bindings.map CodeRuntimeBinding.position, s.m_log)) =
      some ([0], [Effect.rehighlightBlock 0])) ∧
    (((closedSample.bind sampleContext 0 0 false).bind
        (fun s => s.unbind sampleContext 0 0)).map (fun s => (s.m_bindings, s.m_log)) =
      some ([], [Effect.rehighlightBlock 0, Effect.rehighlightBlock 0])) ∧
    ((∃ s1 R, closedSample.unbind sampleContext 0 0 = some s1 ∧
      s1.m_log = closedSample.m_log ++ R ∧
      (∀ e ∈ R, ∃ d ∈ sampleContext.getDeclarations { text := "x: 1".toList }
          (rangeCursor { text := "x: 1".toList } 0 0),
        (bindingAt closedSample.m_bindings d.position).isSome = true ∧
        e = rehighlightBlockAt { text := "x: 1".toList } d.position) ∧
      (∀ d ∈ sampleContext.getDeclarations { text := "x: 1".toList }
          (rangeCursor { text := "x: 1".toList } 0 0),
        (bindingAt closedSample.m_bindings d.position).isSome = true →
        rehighlightBlockAt { text := "x: 1".toList } d.position ∈ R) ∧
      R.length + s1.m_bindings.length = closedSample.m_bindings.length ∧
      (∀ d ∈ sampleContext.getDeclarations { text := "x: 1".toList }
          (rangeCursor { text := "x: 1".toList } 0 0),
        bindingAt s1.m_bindings d.position = none) ∧
      s1.unbind sampleContext 0 0 = some s1) ∧
    (∀ object, ∃ s2 s3 R3, closedSample.bind sampleContext 0 0 object = some s2 ∧
      s2.unbind sampleContext 0 0 = some s3 ∧ s3.m_log = s2.m_log ++ R3 ∧
      (∀ e ∈ R3, ∃ d ∈ sampleContext.getDeclarations { text := "x: 1".toList }
          (rangeCursor { text := "x: 1".toList } 0 0),
        (bindingAt s2.m_bindings d.position).isSome = true ∧
        e = rehighlightBlockAt { text := "x: 1".toList } d.position) ∧
      (∀ d ∈ sampleContext.getDeclarations { text := "x: 1".toList }
          (rangeCursor { text := "x: 1".toList } 0 0),
        (bindingAt s2.m_bindings d.position).isSome = true →
        rehighlightBlockAt { text := "x: 1".toList } d.position ∈ R3) ∧
      R3.length + s3.m_bindings.length = s2.m_bindings.length ∧
      (∀ d ∈ sampleContext.getDeclarations { text := "x: 1".toList }
          (rangeCursor { text := "x: 1".toList } 0 0),
        bindingAt s3.m_bindings d.position = none) ∧
      s3.unbind sampleContext 0 0 = some s3)) :=
  ⟨by decide, by decide,
    unbind_one_rehighlight_per_removed_binding sampleContext closedSample
      { text := "x: 1".toList } 0 0 rfl rfl rfl (by decide)⟩

/-! ## Sections -/

/-- C15, as stated, fails: `create` and `resize` take any length, so a section with a
negative length is obtained through either of them. -/
theorem section_length_can_be_negative :
    (ProjectDocumentSection.create 0 0 (-1)).m_length < 0 ∧
    ((ProjectDocumentSection.create 0 0 4).resize (-1)).m_length < 0 := by
  decide

/-- C15, amended: `create(type, position, length)` and `resize(newLength)` store the length
they are given, so the length of the section is at least 0 exactly when the given length is;
`resize` keeps the position; and `isValid` holds exactly when the position is not -1. -/
theorem section_length_is_the_given_length (s : ProjectDocumentSection)
    (type position length newLength : Int) :
    (ProjectDocumentSection.create type position length).m_length = length ∧
    (ProjectDocumentSection.create type position length).m_position = position ∧
    (s.resize newLength).m_length = newLength ∧
    (s.resize newLength).m_position = s.m_position ∧
    (0 ≤ (ProjectDocumentSection.create type position length).m_length ↔ 0 ≤ length) ∧
    (0 ≤ (s.resize newLength).m_length ↔ 0 ≤ newLength) ∧
    (s.isValid = true ↔ s.m_position ≠ -1) := by
  refine ⟨rfl, rfl, rfl, rfl, Iff.rfl, Iff.rfl, ?_⟩
  simp [ProjectDocumentSection.isValid]

/-! ## The log configuration: lemmas -/

theorem indexOf_cons (x c : Char) (rest : QString) :
    QString.indexOf (x :: rest) c =
      if x = c then 0
      else if QString.indexOf rest c = -1 then -1 else QString.indexOf rest c + 1 := rfl

theorem indexOf_not_mem (s : QString) (c : Char) (h : c ∉ s) : QString.indexOf s c = -1 := by
  induction s with
  | nil => rfl
  | cons x rest ih =>
    have hx : x ≠ c := fun e => h (e ▸ List.mem_cons_self x rest)
    have hr : c ∉ rest := fun m => h (List.mem_cons_of_mem x m)
    simp [QString.indexOf, hx, ih hr]

theorem indexOf_append_cons (l r : QString) (c : Char) (h : c ∉ l) :
    QString.indexOf (l ++ c :: r) c = l.length := by
  induction l with
  | nil => simp [QString.indexOf]
  | cons x rest ih =>
    have hx : x ≠ c := fun e => h (e ▸ List.mem_cons_self x rest)
    have hr : c ∉ rest := fun m => h (List.mem_cons_of_mem x m)
    have h1 := ih hr
    have h2 : QString.indexOf (rest ++ c :: r) c ≠ -1 := by rw [h1]; omega
    rw [List.cons_append, indexOf_cons, if_neg hx, if_neg h2, h1, List.length_cons]
    push_cast
    rfl

theorem indexOf_append_ge (l r : QString) (c : Char) (h : c ∉ l) :
    QString.indexOf (l ++ r) c = -1 ∨ (l.length : Int) ≤ QString.indexOf (l ++ r) c := by
  induction l with
  | nil =>
    by_cases hc : c ∈ r
    · right
      obtain ⟨a, b, hab, ha⟩ : ∃ a b, r = a ++ c :: b ∧ c ∉ a := by
        obtain ⟨a, b, hab, ha⟩ := List.eq_append_cons_of_mem hc
        exact ⟨a, b, hab, ha⟩
      simp only [List.nil_append, hab, indexOf_append_cons a b c ha, List.length_nil]
      omega
    · left
      simpa using indexOf_not_mem r c hc
  | cons x rest ih =>
    have hx : x ≠ c := fun e => h (e ▸ List.mem_cons_self x rest)
    have hr : c ∉ rest := fun m => h (List.mem_cons_of_mem x m)
    rcases ih hr with h1 | h1
    · left
      rw [List.cons_append, indexOf_cons, if_neg hx, if_pos h1]
    · right
      have h2 : QString.indexOf (rest ++ r) c ≠ -1 := by omega
      rw [List.cons_append, indexOf_cons, if_neg hx, if_neg h2, List.length_cons]
      push_cast
      omega

theorem takeWhile_append_cons (l r : QString) (c : Char) (h : c ∉ l) :
    (l ++ c :: r).takeWhile (fun x => x != c) = l := by
  induction l with
  | nil => simp
  | cons x rest ih =>
    have hx : x ≠ c := fun e => h (e ▸ List.mem_cons_self x rest)
    have hr : c ∉ rest := fun m => h (List.mem_cons_of_mem x m)
    simp [List.takeWhile_cons, hx, ih hr]

theorem dropWhile_append_cons (l r : QString) (c : Char) (h : c ∉ l) :
    (l ++ c :: r).dropWhile (fun x => x != c) = c :: r := by
  induction l with
  | nil => simp
  | cons x rest ih =>
    have hx : x ≠ c := fun e => h (e ▸ List.mem_cons_self x rest)
    have hr : c ∉ rest := fun m => h (List.mem_cons_of_mem x m)
    simp [List.dropWhile_cons, hx, ih hr]

theorem takeWhile_not_mem (l : QString) (c : Char) (h : c ∉ l) :
    l.takeWhile (fun x => x != c) = l := by
  rw [List.takeWhile_eq_self_iff]
  intro x hx
  have hne : x ≠ c := fun e => h (e ▸ hx)
  simpa using hne

theorem dropWhile_not_mem (l : QString) (c : Char) (h : c ∉ l) :
    l.dropWhile (fun x => x != c) = [] := by
  rw [List.dropWhile_eq_nil_iff]
  intro x hx
  have hne : x ≠ c := fun e => h (e ▸ hx)
  simpa using hne

/-- A text that holds the character splits at its first occurrence. -/
theorem split_at_first (s : QString) (c : Char) (h : c ∈ s) :
    ∃ l r, s = l ++ c :: r ∧ c ∉ l := by
  obtain ⟨a, b, hab, ha⟩ := List.eq_append_cons_of_mem h
  exact ⟨a, b, hab, ha⟩

theorem mid_zero (s : QString) (n : Nat) : QString.mid s 0 n = s.take n := by
  have h1 : ¬ ((0 : Int) > s.length) := by omega
  have h2 : ¬ ((n : Int) < 0) := by omega
  simp [QString.mid, h1, h2]

theorem mid_rest (s : QString) (p : Nat) (h : p ≤ s.length) :
    QString.mid s p (-1) = s.drop p := by
  have h1 : ¬ ((p : Int) > s.length) := by omega
  simp [QString.mid, h1]

theorem mid_part (s : QString) (p n : Nat) (h : p ≤ s.length) :
    QString.mid s p n = (s.drop p).take n := by
  have h1 : ¬ ((p : Int) > s.length) := by omega
  have h2 : ¬ ((n : Int) < 0) := by omega
  simp [QString.mid, h1, h2]

theorem get_set {α : Type} (o : MLObject α) (key key1 : QString) (value : α) :
    MLObject.get (MLObject.set o key value) key1 =
      if key1 = key then some value else MLObject.get o key1 := by
  induction o with
  | nil =>
    by_cases h : key1 = key
    · subst h
      simp [MLObject.set, MLObject.get]
    · have h2 : ¬ key = key1 := fun e => h e.symm
      simp [MLObject.set, MLObject.get, h, h2]
  | cons p rest ih =>
    obtain ⟨k, v⟩ := p
    by_cases hk : k = key
    · subst hk
      by_cases h : key1 = k
      · subst h
        simp [MLObject.set, MLObject.get]
      · have h2 : ¬ k = key1 := fun e => h e.symm
        simp [MLObject.set, MLObject.get, h, h2]
    · by_cases h4 : k = key1
      · subst h4
        simp [MLObject.set, MLObject.get, hk]
      · simp only [MLObject.set, if_neg hk, MLObject.get, if_neg h4]
        exact ih

theorem hasKey_eq_get {α : Type} (o : MLObject α) (key : QString) :
    MLObject.hasKey o key = (MLObject.get o key).isSome := by
  induction o with
  | nil => rfl
  | cons p rest ih =>
    obtain ⟨k, v⟩ := p
    by_cases hk : k = key
    · simp [MLObject.hasKey, MLObject.get, hk]
    · simp [MLObject.hasKey, MLObject.get, hk, ih]

theorem set_set {α : Type} (o : MLObject α) (key : QString) (v1 v2 : α) :
    MLObject.set (MLObject.set o key v1) key v2 = MLObject.set o key v2 := by
  induction o with
  | nil => simp [MLObject.set]
  | cons p rest ih =>
    obtain ⟨k, v⟩ := p
    by_cases hk : k = key
    · simp [MLObject.set, hk]
    · simp [MLObject.set, hk, ih]

/-- Creating the missing section first does not change what the assignment stores. -/
theorem assign_ensure (cfg : LogConfiguration) (name key : QString) (value : MLValue) :
    LogConfiguration.assign
        (if !MLObject.hasKey cfg name then MLObject.set cfg name [] else cfg) name key value =
      LogConfiguration.assign cfg name key value := by
  by_cases h : MLObject.hasKey cfg name = true
  · simp [h]
  · have h1 : MLObject.hasKey cfg name = false := by simpa using h
    have h2 : MLObject.get cfg name = none := by
      rw [hasKey_eq_get] at h1
      cases hg : MLObject.get cfg name with
      | none => rfl
      | some o => simp [hg] at h1
    simp only [h1, Bool.not_false, if_true, LogConfiguration.assign, get_set, h2, set_set,
      Option.getD_some, Option.getD_none]

theorem lookup_assign (cfg : LogConfiguration) (name key name1 key1 : QString)
    (value : MLValue) :
    LogConfiguration.lookup (LogConfiguration.assign cfg name key value) name1 key1 =
      if name1 = name ∧ key1 = key then some value
      else LogConfiguration.lookup cfg name1 key1 := by
  unfold LogConfiguration.lookup LogConfiguration.assign
  rw [get_set]
  by_cases hn : name1 = name
  · subst hn
    rw [if_pos rfl]
    show MLObject.get (MLObject.set ((MLObject.get cfg name1).getD []) key value) key1 = _
    rw [get_set]
    by_cases hk : key1 = key
    · rw [if_pos hk, if_pos ⟨rfl, hk⟩]
    · rw [if_neg hk, if_neg (fun h => hk h.2)]
      cases MLObject.get cfg name1 with
      | none => rfl
      | some o => rfl
  · rw [if_neg hn, if_neg (fun h => hn h.1)]

theorem hasKey_assign (cfg : LogConfiguration) (name key name1 : QString) (value : MLValue) :
    MLObject.hasKey (LogConfiguration.assign cfg name key value) name1 =
      (decide (name1 = name) || MLObject.hasKey cfg name1) := by
  simp only [hasKey_eq_get, LogConfiguration.assign, get_set]
  by_cases hn : name1 = name
  · simp [hn]
  · simp [hn]

/-- The reading of a segment by the loop body agrees with the reading in the words of the
specification: a non-empty segment is refused exactly when it is malformed, and otherwise
its value is stored under its section and key. -/
theorem segment_spec (cfg : LogConfiguration) (seg : QString) (hne : seg ≠ []) :
    LiveCVArguments.initialize.segment cfg seg =
      if Segment.malformed seg = true then Except.error (segmentError seg)
      else Except.ok (LogConfiguration.assign cfg (Segment.sectionName seg) (Segment.key seg)
        (storedValue (Segment.key seg) (Segment.value seg))) := by
  have hempty : seg.isEmpty = false := by
    cases seg with
    | nil => exact absurd rfl hne
    | cons x rest => rfl
  by_cases heq : '=' ∈ seg
  · obtain ⟨b, v, hseg, hb⟩ := split_at_first seg '=' heq
    have hapos : QString.indexOf seg '=' = b.length := by
      rw [hseg]; exact indexOf_append_cons b v '=' hb
    have hbefore : Segment.beforeAssign seg = b := by
      rw [Segment.beforeAssign, hseg]; exact takeWhile_append_cons b v '=' hb
    have hvalue : Segment.value seg = v := by
      rw [Segment.value, hseg, dropWhile_append_cons b v '=' hb]; rfl
    have hlen : seg.length = b.length + 1 + v.length := by
      rw [hseg]; simp; omega
    have hcval : QString.mid seg ((b.length : Int) + 1) (-1) = v := by
      have h1 : ((b.length : Int) + 1) = ((b.length + 1 : Nat) : Int) := by push_cast; rfl
      rw [h1, mid_rest seg (b.length + 1) (by omega), hseg]
      simp
    have hapos1 : ¬ ((b.length : Int) = -1) := by omega
    by_cases hcolon : ':' ∈ b
    · obtain ⟨n, k, hbk, hn⟩ := split_at_first b ':' hcolon
      have hseg2 : seg = n ++ ':' :: (k ++ '=' :: v) := by
        rw [hseg, hbk]; simp
      have htpos : QString.indexOf seg ':' = n.length := by
        rw [hseg2]; exact indexOf_append_cons n _ ':' hn
      have hblen : b.length = n.length + 1 + k.length := by
        rw [hbk]; simp; omega
      have hcond : (n.length : Int) ≠ -1 ∧ (n.length : Int) < b.length := by
        constructor <;> omega
      have hname : Segment.sectionName seg = n := by
        rw [Segment.sectionName, hbefore, if_pos hcolon, hbk]
        exact takeWhile_append_cons n k ':' hn
      have hkey : Segment.key seg = k := by
        rw [Segment.key, hbefore, if_pos hcolon, hbk, dropWhile_append_cons n k ':' hn]; rfl
      have hcname : QString.mid seg 0 (n.length : Int) = n := by
        rw [mid_zero, hseg2]; simp
      have hckey : QString.mid seg ((n.length : Int) + 1)
          ((b.length : Int) - (n.length : Int) - 1) = k := by
        have h1 : ((n.length : Int) + 1) = ((n.length + 1 : Nat) : Int) := by push_cast; rfl
        have h2 : ((b.length : Int) - (n.length : Int) - 1) = ((k.length : Nat) : Int) := by
          omega
        rw [h1, h2, mid_part seg (n.length + 1) k.length (by omega), hseg2]
        simp
      have hmal : Segment.malformed seg = decide (n = [] ∨ k = [] ∨ v = []) := by
        simp [Segment.malformed, heq, hname, hkey, hvalue]
      simp only [ LiveCVArguments.initialize.segment, hempty, Bool.false_eq_true, if_false,
        hapos, hapos1, htpos,
        if_pos hcond, hcname, hckey, hcval, List.isEmpty_iff, hmal, hname, hkey, hvalue,
        decide_eq_true_eq, assign_ensure, storedValue]
      by_cases hbad : n = [] ∨ k = [] ∨ v = []
      · simp only [if_pos hbad]
      · simp only [if_neg hbad]
        split <;> rfl
    · have hname : Segment.sectionName seg = "global".toList := by
        rw [Segment.sectionName, hbefore, if_neg hcolon]
      have hkey : Segment.key seg = b := by
        rw [Segment.key, hbefore, if_neg hcolon]
      have hcond : ¬ (QString.indexOf seg ':' ≠ -1 ∧
          QString.indexOf seg ':' < (b.length : Int)) := by
        rw [hseg]
        rcases indexOf_append_ge b ('=' :: v) ':' hcolon with h | h
        · simp [h]
        · omega
      have hckey : QString.mid seg 0 (b.length : Int) = b := by
        rw [mid_zero, hseg]; simp
      have hmal : Segment.malformed seg = decide (b = [] ∨ v = []) := by
        simp [Segment.malformed, heq, hname, hkey, hvalue]
      simp only [ LiveCVArguments.initialize.segment, hempty, Bool.false_eq_true, if_false,
        hapos, hapos1,
        if_neg hcond, hckey, hcval, List.isEmpty_iff, hmal, hname, hkey, hvalue,
        decide_eq_true_eq, assign_ensure, storedValue]
      have hg : ¬ ("global".toList = []) := by decide
      by_cases hbad : b = [] ∨ v = []
      · have h3 : "global".toList = [] ∨ b = [] ∨ v = [] := Or.inr hbad
        simp only [if_pos hbad, if_pos h3]
      · have h3 : ¬ ("global".toList = [] ∨ b = [] ∨ v = []) := by
          rintro (h | h)
          · exact hg h
          · exact hbad h
        simp only [if_neg hbad, if_neg h3]
        split <;> rfl
  · have hapos : QString.indexOf seg '=' = -1 := indexOf_not_mem seg '=' heq
    have hmal : Segment.malformed seg = true := by
      simp [Segment.malformed, heq]
    simp [ LiveCVArguments.initialize.segment, hempty, hapos, hmal]

theorem segment_empty (cfg : LogConfiguration) :
    LiveCVArguments.initialize.segment cfg [] = Except.ok cfg := rfl

/-- The loop fails exactly when a non-empty segment is malformed, with the message of such a
segment. -/
theorem segments_error (segs : List QString) (cfg : LogConfiguration) :
    ((∃ e, LiveCVArguments.initialize.segments cfg segs = Except.error e) ↔
      ∃ seg ∈ segs, seg ≠ [] ∧ Segment.malformed seg = true) ∧
    (∀ e, LiveCVArguments.initialize.segments cfg segs = Except.error e →
      ∃ seg ∈ segs, seg ≠ [] ∧ Segment.malformed seg = true ∧ e = segmentError seg) := by
  induction segs generalizing cfg with
  | nil =>
    constructor
    · constructor
      · rintro ⟨e, he⟩
        cases he
      · rintro ⟨seg, hseg, _⟩
        cases hseg
    · intro e he
      cases he
  | cons seg rest ih =>
    by_cases hne : seg = []
    · subst hne
      have hstep : LiveCVArguments.initialize.segments cfg ([] :: rest) =
          LiveCVArguments.initialize.segments cfg rest := rfl
      rw [hstep]
      obtain ⟨h1, h2⟩ := ih cfg
      constructor
      · rw [h1]
        constructor
        · rintro ⟨s, hs, hs2⟩
          exact ⟨s, List.mem_cons_of_mem _ hs, hs2⟩
        · rintro ⟨s, hs, hs2⟩
          rcases List.mem_cons.mp hs with h | h
          · exact absurd h hs2.1
          · exact ⟨s, h, hs2⟩
      · intro e he
        obtain ⟨s, hs, hs2⟩ := h2 e he
        exact ⟨s, List.mem_cons_of_mem _ hs, hs2⟩
    · by_cases hmal : Segment.malformed seg = true
      · have hstep : LiveCVArguments.initialize.segments cfg (seg :: rest) =
            Except.error (segmentError seg) := by
          simp only [ LiveCVArguments.initialize.segments, segment_spec cfg seg hne, if_pos hmal]
        rw [hstep]
        constructor
        · constructor
          · intro _
            exact ⟨seg, List.mem_cons_self _ _, hne, hmal⟩
          · intro _
            exact ⟨_, rfl⟩
        · intro e he
          cases he
          exact ⟨seg, List.mem_cons_self _ _, hne, hmal, rfl⟩
      · have hstep : LiveCVArguments.initialize.segments cfg (seg :: rest) =
            LiveCVArguments.initialize.segments
              (LogConfiguration.assign cfg (Segment.sectionName seg) (Segment.key seg)
                (storedValue (Segment.key seg) (Segment.value seg))) rest := by
          simp only [ LiveCVArguments.initialize.segments, segment_spec cfg seg hne, if_neg hmal]
        rw [hstep]
        obtain ⟨h1, h2⟩ := ih (LogConfiguration.assign cfg (Segment.sectionName seg)
          (Segment.key seg) (storedValue (Segment.key seg) (Segment.value seg)))
        constructor
        · rw [h1]
          constructor
          · rintro ⟨s, hs, hs2⟩
            exact ⟨s, List.mem_cons_of_mem _ hs, hs2⟩
          · rintro ⟨s, hs, hs2⟩
            rcases List.mem_cons.mp hs with h | h
            · rw [h] at hs2
              exact absurd hs2.2 hmal
            · exact ⟨s, h, hs2⟩
        · intro e he
          obtain ⟨s, hs, hs2⟩ := h2 e he
          exact ⟨s, List.mem_cons_of_mem _ hs, hs2⟩

theorem lastAssigned_cons (seg : QString) (rest : List QString) (name key : QString) :
    Segment.lastAssigned (seg :: rest) name key =
      match Segment.lastAssigned rest name key with
      | some v => some v
      | none =>
        if seg ≠ [] ∧ Segment.sectionName seg = name ∧ Segment.key seg = key then
          some (Segment.value seg)
        else none := by
  unfold Segment.lastAssigned
  by_cases h : seg ≠ [] ∧ Segment.sectionName seg = name ∧ Segment.key seg = key
  · rw [List.filter_cons_of_pos (by simpa using h), List.getLast?_cons]
    cases hl : (List.filter (fun seg => decide (seg ≠ [] ∧ Segment.sectionName seg = name ∧
        Segment.key seg = key)) rest).getLast? with
    | none => simp [h]
    | some x => simp
  · rw [List.filter_cons_of_neg (by simpa using h)]
    cases hl : (List.filter (fun seg => decide (seg ≠ [] ∧ Segment.sectionName seg = name ∧
        Segment.key seg = key)) rest).getLast? with
    | none => simp [h]
    | some x => simp

/-- The configuration the loop builds from well-formed segments, read by section and key. -/
theorem segments_lookup (segs : List QString) (cfg : LogConfiguration)
    (hwell : ∀ seg ∈ segs, seg ≠ [] → Segment.malformed seg = false) :
    ∃ cfg1, LiveCVArguments.initialize.segments cfg segs = Except.ok cfg1 ∧
      (∀ name key, LogConfiguration.lookup cfg1 name key =
        match Segment.lastAssigned segs name key with
        | some v => some (storedValue key v)
        | none => LogConfiguration.lookup cfg name key) ∧
      (∀ name, MLObject.hasKey cfg1 name =
        (MLObject.hasKey cfg name ||
          segs.any (fun seg => decide (seg ≠ [] ∧ Segment.sectionName seg = name)))) := by
  induction segs generalizing cfg with
  | nil =>
    refine ⟨cfg, rfl, ?_, ?_⟩
    · intro name key
      rfl
    · intro name
      simp
  | cons seg rest ih =>
    have hrest : ∀ s ∈ rest, s ≠ [] → Segment.malformed s = false :=
      fun s hs => hwell s (List.mem_cons_of_mem _ hs)
    by_cases hne : seg = []
    · subst hne
      obtain ⟨cfg1, h1, h2, h3⟩ := ih cfg hrest
      refine ⟨cfg1, h1, ?_, ?_⟩
      · intro name key
        rw [h2, lastAssigned_cons]
        cases Segment.lastAssigned rest name key with
        | none => simp
        | some v => rfl
      · intro name
        rw [h3, List.any_cons]
        simp
    · have hmal : ¬ Segment.malformed seg = true := by
        rw [hwell seg (List.mem_cons_self _ _) hne]
        simp
      have hstep : LiveCVArguments.initialize.segments cfg (seg :: rest) =
          LiveCVArguments.initialize.segments (LogConfiguration.assign cfg (Segment.sectionName seg)
            (Segment.key seg) (storedValue (Segment.key seg) (Segment.value seg))) rest := by
        simp only [ LiveCVArguments.initialize.segments, segment_spec cfg seg hne, if_neg hmal]
      obtain ⟨cfg1, h1, h2, h3⟩ := ih (LogConfiguration.assign cfg (Segment.sectionName seg)
        (Segment.key seg) (storedValue (Segment.key seg) (Segment.value seg))) hrest
      refine ⟨cfg1, hstep.trans h1, ?_, ?_⟩
      · intro name key
        rw [h2, lastAssigned_cons, lookup_assign]
        cases Segment.lastAssigned rest name key with
        | some v => rfl
        | none =>
          by_cases ha : Segment.sectionName seg = name ∧ Segment.key seg = key
          · obtain ⟨ha1, ha2⟩ := ha
            subst ha1 ha2
            simp [hne]
          · have ha2 : ¬ (name = Segment.sectionName seg ∧ key = Segment.key seg) :=
              fun h => ha ⟨h.1.symm, h.2.symm⟩
            have ha3 :
                ¬ (seg ≠ [] ∧ Segment.sectionName seg = name ∧ Segment.key seg = key) :=
              fun h => ha h.2
            simp only [if_neg ha2, if_neg ha3]
      · intro name
        rw [h3, hasKey_assign, List.any_cons]
        by_cases hn : Segment.sectionName seg = name
        · subst hn
          simp [hne]
        · have hn2 : ¬ name = Segment.sectionName seg := fun h => hn h.symm
          simp [hn, hn2]

/-! ## The log configuration of the command line -/

/-- C16: with `--log-config` given (and no `--log-config-file`), `initialize` throws exactly
when some non-empty segment between the `;` is malformed, that is, has no `=`, or an empty
section name, key or value; the message is `Failed to parse configuration segment: ` followed
by such a segment; and an empty segment leaves the configuration as it is. -/
theorem initialize_fails_iff_malformed_segment (readFile : QString → Option LogConfiguration)
    (opts : LogOptions) (value : QString)
    (hfile : opts.logConfigFile = none) (hconfig : opts.logConfig = some value) :
    ((∃ e, LiveCVArguments.initialize readFile opts = Except.error e) ↔
      ∃ seg ∈ QString.split value ';', seg ≠ [] ∧ Segment.malformed seg = true) ∧
    (∀ e, LiveCVArguments.initialize readFile opts = Except.error e →
      ∃ seg ∈ QString.split value ';', seg ≠ [] ∧ Segment.malformed seg = true ∧
        e = "Failed to parse configuration segment: ".toList ++ seg) ∧
    (∀ cfg, LiveCVArguments.initialize.segment cfg [] = Except.ok cfg) := by
  have h : LiveCVArguments.initialize readFile opts =
      LiveCVArguments.initialize.segments [] (QString.split value ';') := by
    simp only [ LiveCVArguments.initialize, hfile, hconfig]
  rw [h]
  exact ⟨(segments_error _ _).1, (segments_error _ _).2, segment_empty⟩

/-- C16 on `level=error;oops;a=b`: the segment `oops` has no `=` and fails the parse. -/
theorem initialize_fails_iff_malformed_segment_witness :
    ((∃ e, LiveCVArguments.initialize noFiles (logConfigOptions "level=error;oops;a=b") =
        Except.error e) ↔
      ∃ seg ∈ QString.split "level=error;oops;a=b".toList ';',
        seg ≠ [] ∧ Segment.malformed seg = true) ∧
    LiveCVArguments.initialize noFiles (logConfigOptions "level=error;oops;a=b") =
      Except.error "Failed to parse configuration segment: oops".toList ∧
    LiveCVArguments.initialize noFiles (logConfigOptions "level=error;;a=b;") =
      Except.ok [("global".toList, [("level".toList, MLValue.string "error".toList),
        ("a".toList, MLValue.string "b".toList)])] :=
  ⟨(initialize_fails_iff_malformed_segment noFiles (logConfigOptions "level=error;oops;a=b")
      "level=error;oops;a=b".toList rfl rfl).1, by decide, by decide⟩

/-- C17, as stated, fails: in `toConsole=yes` the only segment is well formed and its value
is `yes`, but the configuration holds the boolean false under `toConsole`, not that text. -/
theorem initialize_stores_boolean_for_toConsole :
    (∀ seg ∈ QString.split "toConsole=yes".toList ';', seg ≠ [] →
      Segment.malformed seg = false) ∧
    Segment.lastAssigned (QString.split "toConsole=yes".toList ';') "global".toList
      "toConsole".toList = some "yes".toList ∧
    LiveCVArguments.initialize noFiles (logConfigOptions "toConsole=yes") =
      Except.ok [("global".toList, [("toConsole".toList, MLValue.boolean false)])] ∧
    LogConfiguration.lookup [("global".toList, [("toConsole".toList, MLValue.boolean false)])]
      "global".toList "toConsole".toList ≠ some (MLValue.string "yes".toList) := by
  decide

/-- C17, amended: with `--log-config` given (and no `--log-config-file`) and every non-empty
segment well formed, `initialize` returns a configuration in which a section is present
exactly when a segment addresses it, a key is present in a section exactly when a segment
addresses that section and key, and, for a key other than `daily` and `logDaily`, the entry
comes from the last segment that addresses it: the boolean telling whether its value in
lower case is `true` for the keys `toView` and `toConsole`, and the text of its value for
every other key. -/
theorem initialize_builds_mapping (readFile : QString → Option LogConfiguration)
    (opts : LogOptions) (value : QString)
    (hfile : opts.logConfigFile = none) (hconfig : opts.logConfig = some value)
    (hwell : ∀ seg ∈ QString.split value ';', seg ≠ [] → Segment.malformed seg = false) :
    ∃ cfg, LiveCVArguments.initialize readFile opts = Except.ok cfg ∧
      (∀ name, MLObject.hasKey cfg name =
        (QString.split value ';').any
          (fun seg => decide (seg ≠ [] ∧ Segment.sectionName seg = name))) ∧
      (∀ name key, (LogConfiguration.lookup cfg name key).isSome =
        (Segment.lastAssigned (QString.split value ';') name key).isSome) ∧
      (∀ name key, key ≠ "daily".toList → key ≠ "logDaily".toList →
        LogConfiguration.lookup cfg name key =
          (Segment.lastAssigned (QString.split value ';') name key).map
            (fun v =>
              if key = "toView".toList ∨ key = "toConsole".toList then
                MLValue.boolean (decide (QString.toLower v = "true".toList))
              else MLValue.string v)) := by
  have h : LiveCVArguments.initialize readFile opts =
      LiveCVArguments.initialize.segments [] (QString.split value ';') := by
    simp only [ LiveCVArguments.initialize, hfile, hconfig]
  obtain ⟨cfg, h1, h2, h3⟩ := segments_lookup (QString.split value ';') [] hwell
  refine ⟨cfg, h.trans h1, ?_, ?_, ?_⟩
  · intro name
    rw [h3]
    simp [MLObject.hasKey]
  · intro name key
    rw [h2]
    cases Segment.lastAssigned (QString.split value ';') name key with
    | none => rfl
    | some v => rfl
  · intro name key _ hlog
    rw [h2]
    cases Segment.lastAssigned (QString.split value ';') name key with
    | none => rfl
    | some v =>
      simp only [storedValue, Option.map_some', hlog, false_or]

/-- C17, amended, on `level=error;net:toView=TRUE;level=debug;url=a:b=c`. -/
theorem initialize_builds_mapping_witness :
    (∀ seg ∈ QString.split "level=error;net:toView=TRUE;level=debug;url=a:b=c".toList ';',
      seg ≠ [] → Segment.malformed seg = false) ∧
    LiveCVArguments.initialize noFiles
        (logConfigOptions "level=error;net:toView=TRUE;level=debug;url=a:b=c") =
      Except.ok [("global".toList, [("level".toList, MLValue.string "debug".toList),
          ("url".toList, MLValue.string "a:b=c".toList)]),
        ("net".toList, [("toView".toList, MLValue.boolean true)])] ∧
    ∃ cfg, LiveCVArguments.initialize noFiles
        (logConfigOptions "level=error;net:toView=TRUE;level=debug;url=a:b=c") =
          Except.ok cfg ∧
      (∀ name key, (LogConfiguration.lookup cfg name key).isSome =
        (Segment.lastAssigned
          (QString.split "level=error;net:toView=TRUE;level=debug;url=a:b=c".toList ';')
          name key).isSome) := by
  refine ⟨by decide, by decide, ?_⟩
  obtain ⟨cfg, h1, _, h3, _⟩ := initialize_builds_mapping noFiles
    (logConfigOptions "level=error;net:toView=TRUE;level=debug;url=a:b=c")
    "level=error;net:toView=TRUE;level=debug;url=a:b=c".toList rfl rfl (by decide)
  exact ⟨cfg, h1, h3⟩

/-- C18, the code at a failing input: the segment `daily=true` stores the text `true` under
`daily`, because the loop tests the key `logDaily`, while `--log-daily` stores the boolean
true under `daily`. For `toConsole=true` and `toView=false` the two paths agree. -/
theorem initialize_daily_differs_between_paths :
    LiveCVArguments.initialize noFiles (logConfigOptions "daily=true") =
      Except.ok [("global".toList, [("daily".toList, MLValue.string "true".toList)])] ∧
    LiveCVArguments.initialize noFiles logDailyOptions =
      Except.ok [("global".toList, [("daily".toList, MLValue.boolean true)])] ∧
    LiveCVArguments.initialize noFiles (logConfigOptions "toConsole=true") =
      LiveCVArguments.initialize noFiles logToConsoleOptions ∧
    LiveCVArguments.initialize noFiles (logConfigOptions "toView=false") =
      LiveCVArguments.initialize noFiles logNoViewOptions :=
  ⟨by decide, by decide, by decide, by decide⟩

/-- C19, the code at a failing input: the example of the source comment,
`level=error; global:level=error; global:prefix=%p`. The blank after each `;` stays in the
segment, so the second and third segment address a section named ` global`; the section
`global` holds no prefix. -/
theorem initialize_keeps_blanks_in_section_names :
    LiveCVArguments.initialize noFiles
        (logConfigOptions "level=error; global:level=error; global:prefix=%p") =
      Except.ok [("global".toList, [("level".toList, MLValue.string "error".toList)]),
        (" global".toList, [("level".toList, MLValue.string "error".toList),
          ("prefix".toList, MLValue.string "%p".toList)])] ∧
    LogConfiguration.lookup
      [("global".toList, [("level".toList, MLValue.string "error".toList)]),
        (" global".toList, [("level".toList, MLValue.string "error".toList),
          ("prefix".toList, MLValue.string "%p".toList)])]
      "global".toList "prefix".toList = none := by
  decide

/-! ## The value length of an open edit fragment -/

/-- C20, as stated, fails: `wideFragment` has `valueLength = 1` at `valuePosition = 3`, neither
`Read` nor `Silent` is set, and the delta (3, 2, "") removes the value and the character
after it. The slot accepts the position as in range and keeps the fragment open, the section
of the fragment (positions 0 to 6) takes the removal in, and the closure sets `valueLength`
to -1. -/
theorem edit_onTextChanged_negative_valueLength :
    0 ≤ wideFragment.valueLength ∧
    wideFragment.valuePosition ≤ 3 ∧
    3 ≤ wideFragment.valuePosition + wideFragment.valueLength ∧
    wideSample.editingStateIs sampleContext.Read = false ∧
    wideSample.editingStateIs sampleContext.Silent = false ∧
    wideSample.documentContentsChanged sampleContext 3 2 0 =
      some (wideSample.emit [Effect.documentContentsSilentChanged 3 2 []]) ∧
    wideSection.absorbs 3 2 = true ∧
    (edit.onTextChanged sampleContext wideSample wideFragment true 3 2 []).valueLength = -1 := by
  decide

/-- C20, amended: while `Silent` is not set, the closure of an edit fragment leaves
`valueLength` at least 0 exactly when `charsRemoved` is at most `valueLength +
len(addedText)`; this is the case for every delta in range of a fragment with `valueLength` at
least 0 whose removed span ends inside the value range. -/
theorem edit_onTextChanged_valueLength_nonneg (ctx : Context) (this : DocumentHandler)
    (ef : DocumentEditFragment) (isErase : Bool) (position charsRemoved : Int)
    (addedText : QString) (hSilent : this.editingStateIs ctx.Silent = false) :
    (0 ≤ (edit.onTextChanged ctx this ef isErase position charsRemoved addedText).valueLength ↔
      charsRemoved ≤ ef.valueLength + addedText.length) ∧
    (0 ≤ ef.valueLength → ef.valuePosition ≤ position →
      position + charsRemoved ≤ ef.valuePosition + ef.valueLength →
      0 ≤ (edit.onTextChanged ctx this ef isErase position charsRemoved addedText).valueLength)
    := by
  have h : (edit.onTextChanged ctx this ef isErase position charsRemoved addedText).valueLength =
      ef.valueLength - charsRemoved + addedText.length := by
    simp [edit.onTextChanged, hSilent, DocumentEditFragment.valueLength,
      CodeDeclaration.setValueLength]
  rw [h]
  constructor
  · constructor <;> intro h1 <;> omega
  · intro h0 h1 h2
    omega

/-- C20, amended, on the fragment of `typedSample` and the delta (3, 1, "42"). -/
theorem edit_onTextChanged_valueLength_nonneg_witness :
    typedSample.editingStateIs sampleContext.Silent = false ∧
    (0 ≤ (edit.onTextChanged sampleContext typedSample sampleFragment false 3 1
        "42".toList).valueLength ↔
      (1 : Int) ≤ sampleFragment.valueLength + ("42".toList.length : Int)) ∧
    0 ≤ (edit.onTextChanged sampleContext typedSample sampleFragment false 3 1
      "42".toList).valueLength :=
  ⟨by decide,
    (edit_onTextChanged_valueLength_nonneg sampleContext typedSample sampleFragment false 3 1
      "42".toList (by decide)).1,
    (edit_onTextChanged_valueLength_nonneg sampleContext typedSample sampleFragment false 3 1
      "42".toList (by decide)).2 (by decide) (by decide) (by decide)⟩

/-! ## Opening a palette on a declaration that has one -/

/-- C21, the code at a failing input: `ColorPalette` is open on the declaration at position 0
(`openedPaletteSample`) and `openPalette` is called for the same palette at the same position.
The function creates a section for the new fragment and connects `valueChanged` to it, then
`addEditingPalette` rejects the fragment and the result is not read: the list of open palettes
is as before, no `removeSection` is called, and `removeEditingPalette` on the rejected fragment
finds nothing to release. -/
theorem openPalette_rejected_fragment_keeps_section :
    openedPaletteSample.openPalette sampleContext { path := "ColorPalette" } 0 0 =
      some (openedPaletteSample.emit
        [Effect.createSection 1 0 4,
          Effect.paletteInit { path := "ColorPalette" } (QVariant.integer 1),
          Effect.connectValueChanged { path := "ColorPalette" } 1,
          Effect.cursorPositionRequest 3, Effect.rehighlightBlock 0]) ∧
    sampleContext.createInjectionChannel sampleDeclaration 0 { path := "ColorPalette" } =
      some { rejectedPalette with declaration := sampleDeclaration } ∧
    (openedPaletteSample.addEditingPalette rejectedPalette).map (fun r => r.1) = some false ∧
    (openedPaletteSample.m_palettes.map (fun f => f.id)) = [5] ∧
    (openedPaletteSample.emit
        [Effect.createSection 1 0 4,
          Effect.paletteInit { path := "ColorPalette" } (QVariant.integer 1),
          Effect.connectValueChanged { path := "ColorPalette" } 1,
          Effect.cursorPositionRequest 3,
          Effect.rehighlightBlock 0]).removeEditingPalette rejectedPalette =
      some (openedPaletteSample.emit
        [Effect.createSection 1 0 4,
          Effect.paletteInit { path := "ColorPalette" } (QVariant.integer 1),
          Effect.connectValueChanged { path := "ColorPalette" } 1,
          Effect.cursorPositionRequest 3, Effect.rehighlightBlock 0]) := by
  decide

/-- C22, the code at a failing input: the registry has a converter for the declaration at
position 0 but the code handler of `noChannelContext` yields no fragment. `edit` stores the
null fragment and dereferences it; it does not return false. `openPalette`, on the same
handler, returns early with the handler as it was. -/
theorem edit_dereferences_missing_channel :
    noChannelContext.findPalette sampleDeclaration.type
      (sampleDeclaration.parentType.headD "") = some { path := "IntEditor" } ∧
    noChannelContext.createInjectionChannel sampleDeclaration 0 { path := "IntEditor" } = none ∧
    closedSample.edit noChannelContext 0 0 = none ∧
    closedSample.edit noChannelContext 0 0 ≠ some (false, closedSample) ∧
    closedSample.openPalette noChannelContext { path := "IntEditor" } 0 0 = some closedSample := by
  decide

/-! ## Indentation -/

/-- C23, the code at a failing input: indent size 4, the blocks `    a` and `    b`,
`from = 2` and `length = 6`. With `undo = false` both blocks are indented; with `undo = true`
only the first block loses its indent, because `length` is reduced by the whole indent
although only `from` characters of it lay before the selection. -/
theorem manageIndent_unindents_first_block_only :
    (indentedSample.manageIndent sampleContext 2 6 false bothIndentsAdded).map
        (fun s => s.m_targetDoc) =
      some (some { text := blockText "        a\n        b".toList }) ∧
    (indentedSample.manageIndent sampleContext 2 6 true [firstIndentRemoved]).map
        (fun s => s.m_targetDoc) =
      some (some { text := blockText "a\n    b".toList }) ∧
    manageIndent.loop 4 "    ".toList true [] ["    a".toList, "    b".toList] 2 6 =
      ["a".toList, "    b".toList] ∧
    manageIndent.loop 4 "    ".toList true [] ["    a".toList, "    b".toList] 4 6 =
      ["a".toList, "b".toList] := by
  decide

/-! ## Cursor information -/

/-- The loop of `cursorInfo` computes two disjunctions over all the declarations: leaving the
loop early does not change them. -/
theorem cursorInfo_loop_eq (bindings : List CodeRuntimeBinding) (decls : List CodeDeclaration)
    (canBind canUnbind : Bool) :
    cursorInfo.loop bindings decls canBind canUnbind =
      (canBind || decls.any (fun d => (bindingAt bindings d.position).isNone),
        canUnbind || decls.any (fun d => (bindingAt bindings d.position).isSome)) := by
  induction decls generalizing canBind canUnbind with
  | nil => simp [cursorInfo.loop]
  | cons d rest ih =>
    simp only [cursorInfo.loop, List.any_cons]
    cases hb : bindingAt bindings d.position with
    | none =>
      cases canUnbind with
      | false => simp [ih]
      | true => simp
    | some b =>
      cases canBind with
      | false => simp [ih]
      | true => simp

/-- C24: without project document or code handler `cursorInfo` returns four false flags. With
both and the text document present, for the declarations D that the analyzer reports for the
range: `canBind` holds iff some declaration of D has no binding at its position, `canUnbind`
iff some declaration of D has one, `canEdit` iff D has exactly one declaration, `canAdjust`
iff D has exactly one declaration and the converter found for its type is a palette; all
four are false when D is empty. -/
theorem cursorInfo_flags (ctx : Context) (s : DocumentHandler) (position length : Int) :
    ((s.m_projectDocument = false ∨ s.m_codeHandler = false) →
      s.cursorInfo ctx position length = some (DocumentCursorInfo.mk false false false false)) ∧
    (∀ doc, s.m_projectDocument = true → s.m_codeHandler = true → s.m_targetDoc = some doc →
      ∃ info, s.cursorInfo ctx position length = some info ∧
        (info.canBind = true ↔
          ∃ d ∈ ctx.getDeclarations doc (rangeCursor doc position length),
            bindingAt s.m_bindings d.position = none) ∧
        (info.canUnbind = true ↔
          ∃ d ∈ ctx.getDeclarations doc (rangeCursor doc position length),
            (bindingAt s.m_bindings d.position).isSome = true) ∧
        (info.canEdit = true ↔
          (ctx.getDeclarations doc (rangeCursor doc position length)).length = 1) ∧
        (info.canAdjust = true ↔
          ∃ d, ctx.getDeclarations doc (rangeCursor doc position length) = [d] ∧
            ∃ c, ctx.findPaletteForType d.type = some c ∧ ctx.isLivePalette c = true) ∧
        (ctx.getDeclarations doc (rangeCursor doc position length) = [] →
          info = DocumentCursorInfo.mk false false false false)) := by
  constructor
  · intro h
    rcases h with h | h <;> simp [DocumentHandler.cursorInfo, h]
  · intro doc hpd hch hdoc
    cases hD : ctx.getDeclarations doc (rangeCursor doc position length) with
    | nil =>
      refine ⟨DocumentCursorInfo.mk false false false false, ?_, ?_, ?_, ?_, ?_, fun _ => rfl⟩
      · simp [DocumentHandler.cursorInfo, hpd, hch, hdoc, hD]
      · simp
      · simp
      · simp
      · simp
    | cons d rest =>
      have h : s.cursorInfo ctx position length =
          some (DocumentCursorInfo.mk
            (false || (d :: rest).any (fun d => (bindingAt s.m_bindings d.position).isNone))
            (false || (d :: rest).any (fun d => (bindingAt s.m_bindings d.position).isSome))
            (decide ((d :: rest).length = 1))
            (if (d :: rest).length = 1 then
              match ctx.findPaletteForType d.type with
              | some converter => ctx.isLivePalette converter
              | none => false
            else false)) := by
        simp only [DocumentHandler.cursorInfo, hpd, hch, hdoc, hD, cursorInfo_loop_eq]
        rfl
      refine ⟨_, h, ?_, ?_, ?_, ?_, ?_⟩
      · simp [Option.isNone_iff_eq_none]
      · simp
      · simp
      · cases rest with
        | nil =>
          cases hc : ctx.findPaletteForType d.type with
          | none => simp [hc]
          | some c => simp [hc]
        | cons d2 rest2 => simp
      · intro h
        cases h

/-- C24 on `detachedSample` (no code handler) and on `boundSample`, where the range (0, 0)
holds the one declaration at position 0, which is bound and whose converter `IntEditor` is
not a palette. -/
theorem cursorInfo_flags_witness :
    detachedSample.cursorInfo sampleContext 0 0 =
      some (DocumentCursorInfo.mk false false false false) ∧
    boundSample.cursorInfo sampleContext 0 0 =
      some (DocumentCursorInfo.mk false true true false) ∧
    closedSample.cursorInfo sampleContext 0 0 =
      some (DocumentCursorInfo.mk true false true false) ∧
    ∃ info, boundSample.cursorInfo sampleContext 0 0 = some info ∧
      (info.canBind = true ↔
        ∃ d ∈ sampleContext.getDeclarations { text := "x: 1".toList }
            (rangeCursor { text := "x: 1".toList } 0 0),
          bindingAt boundSample.m_bindings d.position = none) ∧
      (info.canUnbind = true ↔
        ∃ d ∈ sampleContext.getDeclarations { text := "x: 1".toList }
            (rangeCursor { text := "x: 1".toList } 0 0),
          (bindingAt boundSample.m_bindings d.position).isSome = true) ∧
      (info.canEdit = true ↔
        (sampleContext.getDeclarations { text := "x: 1".toList }
          (rangeCursor { text := "x: 1".toList } 0 0)).length = 1) := by
  refine ⟨(cursorInfo_flags sampleContext detachedSample 0 0).1 (Or.inr rfl), by decide,
    by decide, ?_⟩
  obtain ⟨info, h1, h2, h3, h4, _, _⟩ :=
    (cursorInfo_flags sampleContext boundSample 0 0).2 { text := "x: 1".toList } rfl rfl rfl
  exact ⟨info, h1, h2, h3, h4⟩

/-! ## Fragment lines -/

/-- Setting and clearing a state twice gives the editing state that doing it once gives. -/
theorem read_bracket_idem (x f : Nat) :
    (((x ||| f) ^^^ ((x ||| f) &&& f)) ||| f) ^^^
        ((((x ||| f) ^^^ ((x ||| f) &&& f)) ||| f) &&& f) =
      (x ||| f) ^^^ ((x ||| f) &&& f) := by
  apply Nat.eq_of_testBit_eq
  intro i
  simp only [Nat.testBit_land, Nat.testBit_lor, Nat.testBit_xor]
  cases f.testBit i <;> cases x.testBit i <;> rfl

/-- The second part of `documentUpdatedContent` writes the stored lines and the log only. -/
theorem updateFragmentLines_frame (s : DocumentHandler) :
    s.updateFragmentLines.m_targetDoc = s.m_targetDoc ∧
    s.updateFragmentLines.m_projectDocument = s.m_projectDocument ∧
    s.updateFragmentLines.m_editingState = s.m_editingState ∧
    s.updateFragmentLines.m_fragmentStart = s.m_fragmentStart ∧
    s.updateFragmentLines.m_fragmentEnd = s.m_fragmentEnd := by
  unfold DocumentHandler.updateFragmentLines
  split
  · split
    · dsimp only
      split <;> exact ⟨rfl, rfl, rfl, rfl, rfl⟩
    · split <;> exact ⟨rfl, rfl, rfl, rfl, rfl⟩
  · exact ⟨rfl, rfl, rfl, rfl, rfl⟩

/-- With no stored end line above 0 the second part of `documentUpdatedContent` does nothing. -/
theorem updateFragmentLines_off (s : DocumentHandler) (h : s.m_fragmentEndLine ≤ 0) :
    s.updateFragmentLines = s := by
  have h1 : ¬ s.m_fragmentEndLine > 0 := by omega
  simp [DocumentHandler.updateFragmentLines, h1]

/-- Both markers valid and the text document present: the lines of the markers are stored, and
signalled when they differ from the stored ones. -/
theorem updateFragmentLines_valid (s : DocumentHandler) (doc : QTextDocument)
    (hdoc : s.m_targetDoc = some doc) (hend : 0 < s.m_fragmentEndLine)
    (h1 : s.m_fragmentStart.isValid = true) (h2 : s.m_fragmentEnd.isValid = true) :
    s.updateFragmentLines.m_fragmentStartLine =
      doc.firstLineNumber s.m_fragmentStart.position ∧
    s.updateFragmentLines.m_fragmentEndLine = doc.firstLineNumber s.m_fragmentEnd.position ∧
    s.updateFragmentLines.m_log = s.m_log ++
      (if doc.firstLineNumber s.m_fragmentStart.position ≠ s.m_fragmentStartLine ∨
          doc.firstLineNumber s.m_fragmentEnd.position ≠ s.m_fragmentEndLine then
        [Effect.fragmentLinesChanged (doc.firstLineNumber s.m_fragmentStart.position)
          (doc.firstLineNumber s.m_fragmentEnd.position)]
      else []) := by
  have hgt : s.m_fragmentEndLine > 0 := hend
  by_cases hd : doc.firstLineNumber s.m_fragmentStart.position ≠ s.m_fragmentStartLine ∨
      doc.firstLineNumber s.m_fragmentEnd.position ≠ s.m_fragmentEndLine
  · simp only [DocumentHandler.updateFragmentLines, hgt, if_true, h1, h2, Bool.and_self, hdoc,
      if_pos hd, DocumentHandler.emit]
    exact ⟨trivial, trivial, trivial⟩
  · simp only [DocumentHandler.updateFragmentLines, hgt, if_true, h1, h2, Bool.and_self, hdoc,
      if_neg hd]
    have hd1 : doc.firstLineNumber s.m_fragmentStart.position = s.m_fragmentStartLine := by
      by_contra hne
      exact hd (Or.inl hne)
    have hd2 : doc.firstLineNumber s.m_fragmentEnd.position = s.m_fragmentEndLine := by
      by_contra hne
      exact hd (Or.inr hne)
    exact ⟨hd1.symm, hd2.symm, by simp⟩

/-- A marker invalid: both stored lines become 0 and `fragmentLinesChanged(0, 0)` is
emitted. -/
theorem updateFragmentLines_invalid (s : DocumentHandler) (hend : 0 < s.m_fragmentEndLine)
    (h : s.m_fragmentStart.isValid = false ∨ s.m_fragmentEnd.isValid = false) :
    s.updateFragmentLines.m_fragmentStartLine = 0 ∧
    s.updateFragmentLines.m_fragmentEndLine = 0 ∧
    s.updateFragmentLines.m_log = s.m_log ++ [Effect.fragmentLinesChanged 0 0] := by
  have hgt : s.m_fragmentEndLine > 0 := hend
  have hne : s.m_fragmentEndLine ≠ 0 := by omega
  have hv : (s.m_fragmentStart.isValid && s.m_fragmentEnd.isValid) = false := by
    rcases h with h | h <;> simp [h]
  simp only [DocumentHandler.updateFragmentLines, hgt, if_true, hv, Bool.false_eq_true,
    if_false, if_pos hne, DocumentHandler.emit]
  exact ⟨trivial, trivial, trivial⟩

/-- Running the second part of `documentUpdatedContent` again changes nothing. -/
theorem updateFragmentLines_idem (s : DocumentHandler) :
    s.updateFragmentLines.updateFragmentLines = s.updateFragmentLines := by
  by_cases hend : 0 < s.m_fragmentEndLine
  · by_cases hv : s.m_fragmentStart.isValid = true ∧ s.m_fragmentEnd.isValid = true
    · cases hdoc : s.m_targetDoc with
      | none =>
        have hgt : s.m_fragmentEndLine > 0 := hend
        have hne : s.m_fragmentEndLine ≠ 0 := by omega
        have h1 : s.updateFragmentLines =
            { s with m_fragmentEndLine := 0, m_fragmentStartLine := 0 }.emit
              [Effect.fragmentLinesChanged 0 0] := by
          simp only [DocumentHandler.updateFragmentLines, hgt, if_true, hv.1, hv.2,
            Bool.and_self, hdoc, if_pos hne]
        rw [h1]
        exact updateFragmentLines_off _ (le_refl 0)
      | some doc =>
        obtain ⟨h1, h2, _⟩ := updateFragmentLines_valid s doc hdoc hend hv.1 hv.2
        obtain ⟨f1, _, _, f4, f5⟩ := updateFragmentLines_frame s
        by_cases hpos : 0 < s.updateFragmentLines.m_fragmentEndLine
        · have hgt : s.updateFragmentLines.m_fragmentEndLine > 0 := hpos
          have hsame : ¬ (doc.firstLineNumber s.updateFragmentLines.m_fragmentStart.position ≠
                s.updateFragmentLines.m_fragmentStartLine ∨
              doc.firstLineNumber s.updateFragmentLines.m_fragmentEnd.position ≠
                s.updateFragmentLines.m_fragmentEndLine) := by
            rw [f4, f5, h1, h2]
            simp
          have e1 : s.updateFragmentLines.m_fragmentStart.isValid = true := by
            rw [f4]
            exact hv.1
          have e2 : s.updateFragmentLines.m_fragmentEnd.isValid = true := by
            rw [f5]
            exact hv.2
          have e3 : s.updateFragmentLines.m_targetDoc = some doc := by
            rw [f1]
            exact hdoc
          generalize s.updateFragmentLines = t at hgt hsame e1 e2 e3
          simp only [DocumentHandler.updateFragmentLines, hgt, if_true, e1, e2, Bool.and_self,
            e3, if_neg hsame]
        · exact updateFragmentLines_off _ (by omega)
    · have hv1 : s.m_fragmentStart.isValid = false ∨ s.m_fragmentEnd.isValid = false := by
        cases h1 : s.m_fragmentStart.isValid with
        | false => exact Or.inl rfl
        | true =>
          cases h2 : s.m_fragmentEnd.isValid with
          | false => exact Or.inr rfl
          | true => exact absurd ⟨h1, h2⟩ hv
      obtain ⟨_, h2, _⟩ := updateFragmentLines_invalid s hend hv1
      exact updateFragmentLines_off _ (by omega)
  · rw [updateFragmentLines_off s (by omega)]
    exact updateFragmentLines_off s (by omega)

/-- The handler that `documentUpdatedContent` hands to its second part: for a foreign author
the text document holds the content and the `Read` state has been set and cleared. -/
theorem documentUpdatedContent_eq (ctx : Context) (s : DocumentHandler) (foreignAuthor : Bool)
    (content : QString) (signals : List ContentsChange) (doc : QTextDocument)
    (hpd : foreignAuthor = true → s.m_projectDocument = true)
    (hdoc : s.m_targetDoc = some doc) :
    s.documentUpdatedContent ctx foreignAuthor content signals =
      some (DocumentHandler.updateFragmentLines
        (if foreignAuthor then
          DocumentHandler.removeEditingState
            { s.addEditingState ctx.Read with m_targetDoc := some { text := blockText content } }
            ctx.Read
        else s)) := by
  cases foreignAuthor with
  | false => rfl
  | true => exact documentUpdatedContent_foreign ctx s doc content signals hdoc (hpd rfl)

/-- C25: with the text document present (and the project document, for a foreign author),
`documentUpdatedContent` returns, leaves the markers as they are, and: with no stored end
line above 0 it emits nothing and keeps the stored lines; with a stored end line above 0 and
both markers valid it stores the lines of the markers in the document and emits
`fragmentLinesChanged` with them exactly when they differ from the stored ones; with a
stored end line above 0 and a marker invalid it emits `fragmentLinesChanged(0, 0)` once and
stores 0 for both lines; and a second call with the same arguments returns the handler
unchanged, so it emits nothing. -/
theorem documentUpdatedContent_fragment_lines_once (ctx : Context) (s : DocumentHandler)
    (foreignAuthor : Bool) (content : QString) (signals : List ContentsChange)
    (doc : QTextDocument) (hpd : foreignAuthor = true → s.m_projectDocument = true)
    (hdoc : s.m_targetDoc = some doc) :
    ∃ s1 doc1, s.documentUpdatedContent ctx foreignAuthor content signals = some s1 ∧
      s1.m_targetDoc = some doc1 ∧
      doc1 = (if foreignAuthor then { text := blockText content } else doc) ∧
      s1.m_fragmentStart = s.m_fragmentStart ∧ s1.m_fragmentEnd = s.m_fragmentEnd ∧
      (s.m_fragmentEndLine ≤ 0 →
        s1.m_log = s.m_log ∧ s1.m_fragmentStartLine = s.m_fragmentStartLine ∧
        s1.m_fragmentEndLine = s.m_fragmentEndLine) ∧
      (0 < s.m_fragmentEndLine → s.m_fragmentStart.isValid = true →
        s.m_fragmentEnd.isValid = true →
        s1.m_fragmentStartLine = doc1.firstLineNumber s.m_fragmentStart.position ∧
        s1.m_fragmentEndLine = doc1.firstLineNumber s.m_fragmentEnd.position ∧
        s1.m_log = s.m_log ++
          (if doc1.firstLineNumber s.m_fragmentStart.position ≠ s.m_fragmentStartLine ∨
              doc1.firstLineNumber s.m_fragmentEnd.position ≠ s.m_fragmentEndLine then
            [Effect.fragmentLinesChanged (doc1.firstLineNumber s.m_fragmentStart.position)
              (doc1.firstLineNumber s.m_fragmentEnd.position)]
          else [])) ∧
      (0 < s.m_fragmentEndLine →
        (s.m_fragmentStart.isValid = false ∨ s.m_fragmentEnd.isValid = false) →
        s1.m_fragmentStartLine = 0 ∧ s1.m_fragmentEndLine = 0 ∧
        s1.m_log = s.m_log ++ [Effect.fragmentLinesChanged 0 0]) ∧
      s1.documentUpdatedContent ctx foreignAuthor content signals = some s1 := by
  have hcall := documentUpdatedContent_eq ctx s foreignAuthor content signals doc hpd hdoc
  cases foreignAuthor with
  | false =>
    simp only [Bool.false_eq_true, if_false] at hcall
    obtain ⟨f1, _, _, f4, f5⟩ := updateFragmentLines_frame s
    refine ⟨s.updateFragmentLines, doc, hcall, f1.trans hdoc, rfl, f4, f5, ?_, ?_, ?_, ?_⟩
    · intro h
      rw [updateFragmentLines_off s h]
      exact ⟨rfl, rfl, rfl⟩
    · intro h h1 h2
      exact updateFragmentLines_valid s doc hdoc h h1 h2
    · intro h hv
      exact updateFragmentLines_invalid s h hv
    · have h := documentUpdatedContent_eq ctx s.updateFragmentLines false content signals doc
        (fun e => Bool.noConfusion e) (f1.trans hdoc)
      simp only [Bool.false_eq_true, if_false] at h
      rw [h, updateFragmentLines_idem]
  | true =>
    simp only [if_true] at hcall
    have hx : ∃ x : DocumentHandler, x = DocumentHandler.removeEditingState
        { s.addEditingState ctx.Read with m_targetDoc := some { text := blockText content } }
        ctx.Read := ⟨_, rfl⟩
    obtain ⟨x, hxdef⟩ := hx
    rw [← hxdef] at hcall
    have x1 : x.m_targetDoc = some { text := blockText content } := by rw [hxdef]; rfl
    have x2 : x.m_projectDocument = true := by rw [hxdef]; exact hpd rfl
    have x3 : x.m_fragmentStart = s.m_fragmentStart := by rw [hxdef]; rfl
    have x4 : x.m_fragmentEnd = s.m_fragmentEnd := by rw [hxdef]; rfl
    have x5 : x.m_fragmentStartLine = s.m_fragmentStartLine := by rw [hxdef]; rfl
    have x6 : x.m_fragmentEndLine = s.m_fragmentEndLine := by rw [hxdef]; rfl
    have x7 : x.m_log = s.m_log := by rw [hxdef]; rfl
    obtain ⟨f1, f2, f3, f4, f5⟩ := updateFragmentLines_frame x
    refine ⟨x.updateFragmentLines, { text := blockText content }, hcall, f1.trans x1, rfl,
      f4.trans x3, f5.trans x4, ?_, ?_, ?_, ?_⟩
    · intro h
      rw [updateFragmentLines_off x (by rw [x6]; exact h)]
      exact ⟨x7, x5, x6⟩
    · intro h h1 h2
      have hv := updateFragmentLines_valid x { text := blockText content } x1
        (by rw [x6]; exact h) (by rw [x3]; exact h1) (by rw [x4]; exact h2)
      rw [x3, x4, x5, x6, x7] at hv
      exact hv
    · intro h hv
      have hi := updateFragmentLines_invalid x (by rw [x6]; exact h)
        (by rw [x3, x4]; exact hv)
      rw [x7] at hi
      exact hi
    · have h := documentUpdatedContent_eq ctx x.updateFragmentLines true content signals
        { text := blockText content } (fun _ => f2.trans x2) (f1.trans x1)
      simp only [if_true] at h
      have hback : DocumentHandler.removeEditingState
          { x.updateFragmentLines.addEditingState ctx.Read with
            m_targetDoc := some { text := blockText content } } ctx.Read =
          x.updateFragmentLines := by
        have e1 : x.updateFragmentLines.m_targetDoc = some { text := blockText content } :=
          f1.trans x1
        have e2 : x.updateFragmentLines.m_editingState =
            (s.m_editingState ||| ctx.Read) ^^^ ((s.m_editingState ||| ctx.Read) &&& ctx.Read) := by
          rw [f3, hxdef]
          rfl
        generalize x.updateFragmentLines = t at e1 e2
        cases t
        simp only [DocumentHandler.removeEditingState, DocumentHandler.addEditingState] at e1 e2 ⊢
        subst e1 e2
        simp only [read_bracket_idem]
      rw [h, hback, updateFragmentLines_idem]

/-- C25 on `fragmentSample`, whose markers stand in the lines 1 and 2 while the lines 0 and 1
are stored, and on `lostMarkerSample`, whose end marker is invalid: one signal each, and for
the content `a`, `b`, `c` of a foreign author a second call that returns the handler
unchanged. -/
theorem documentUpdatedContent_fragment_lines_once_witness :
    (fragmentSample.documentUpdatedContent sampleContext false [] []).map
        (fun s => (s.m_fragmentStartLine, s.m_fragmentEndLine, s.m_log)) =
      some (1, 2, [Effect.fragmentLinesChanged 1 2]) ∧
    (lostMarkerSample.documentUpdatedContent sampleContext false [] []).map
        (fun s => (s.m_fragmentStartLine, s.m_fragmentEndLine, s.m_log)) =
      some (0, 0, [Effect.fragmentLinesChanged 0 0]) ∧
    ∃ s1, fragmentSample.documentUpdatedContent sampleContext true "a\nb\nc".toList [] =
        some s1 ∧
      s1.m_targetDoc = some { text := blockText "a\nb\nc".toList } ∧
      s1.m_fragmentStartLine = 1 ∧ s1.m_fragmentEndLine = 2 ∧
      s1.m_log = [Effect.fragmentLinesChanged 1 2] ∧
      s1.documentUpdatedContent sampleContext true "a\nb\nc".toList [] = some s1 := by
  refine ⟨by decide, by decide, ?_⟩
  obtain ⟨s1, doc1, h1, h2, h3, _, _, _, h7, _, h9⟩ :=
    documentUpdatedContent_fragment_lines_once sampleContext fragmentSample true
      "a\nb\nc".toList [] { text := blockText "a\nb\nc".toList } (fun _ => rfl) rfl
  subst h3
  obtain ⟨h71, h72, h73⟩ := h7 (by decide) (by decide) (by decide)
  refine ⟨s1, h1, h2, ?_, ?_, ?_, h9⟩
  · rw [h71]
    decide
  · rw [h72]
    decide
  · rw [h73]
    decide

end lv
